import Mathlib

/-!
DFR0534 audio module driver: frame encoder and receive loops.

Shallow embedding of `src/src/DFR0534.h` and `src/src/DFR0534.cpp`.

* Bytes (`byte`) are natural numbers reduced `% 256` wherever the C++ code
  stores into a `byte`; `word` accumulators are reduced `% 65536`.
* The stream written by the driver is the list `Device.written`.
* The incoming side of the stream and the clock `millis()` are an explicit
  list of observations `RxByte`, one per iteration of a receive loop.
* The wait loop at the head of an iteration is also given test by test
  (`waitLoop`), with the readings of the clock in its tests, for the time at
  which a call on a silent line returns.
* The ten receive loops of the source are the same text up to the `COMMAND`
  constant, the test on the length byte and the statement that stores a
  payload byte; `Query` indexes them and `Query.body` is the loop body.
-/

namespace DFR0534

/-! ## Constants of the header and of the receive loops -/

/-- The start byte: `#define STARTINGCODE 0xAA`. -/
def STARTINGCODE : Nat := 0xAA

/-- Enumerator `CHANNELUNKNOWN` of `enum MP3CHANNELS`. -/
def CHANNELUNKNOWN : Nat := 3

/-- Enumerator `DRIVEUNKNOWN` of `enum MP3DRIVE`. -/
def DRIVEUNKNOWN : Nat := 3

/-- Enumerator `PLAYMODEUNKNOWN` of `enum MP3LOOPMODE`. -/
def PLAYMODEUNKNOWN : Nat := 8

/-- Enumerator `EQUNKNOWN` of `enum MP3EQ`. -/
def EQUNKNOWN : Nat := 5

/-- Enumerator `STATUSUNKNOWN` of `enum MP3STATUS`. -/
def STATUSUNKNOWN : Nat := 3

/-- Per byte wait limit: `#define RECEIVEBYTETIMEOUTMS 100`. -/
def RECEIVEBYTETIMEOUTMS : Nat := 100

/-- Whole exchange limit: `#define RECEIVEGLOBALTIMEOUTMS 500`. -/
def RECEIVEGLOBALTIMEOUTMS : Nat := 500

/-- Header size: `#define RECEIVEHEADERLENGTH 2` (starting code and command). -/
def RECEIVEHEADERLENGTH : Int := 2

/-! ## Sending -/

/-- The members of the class that sending touches: the `byte m_checksum`
and the bytes written so far to `*m_ptrStream`, oldest first. -/
structure Device where
  m_checksum : Nat
  written : List Nat

/-- Member `sendStartingCode`: `m_checksum=STARTINGCODE; write((byte)STARTINGCODE)`. -/
def sendStartingCode (dev : Device) : Device :=
  { m_checksum := STARTINGCODE % 256, written := dev.written ++ [STARTINGCODE % 256] }

/-- Member `sendDataByte(byte data)`: `m_checksum += data; write((byte)data)`. -/
def sendDataByte (data : Nat) (dev : Device) : Device :=
  { m_checksum := (dev.m_checksum + data % 256) % 256,
    written := dev.written ++ [data % 256] }

/-- Member `sendCheckSum`: `write((byte)m_checksum)`. -/
def sendCheckSum (dev : Device) : Device :=
  { dev with written := dev.written ++ [dev.m_checksum % 256] }

/-- The loop `for (...) sendDataByte(p[k])` over a payload, in order. -/
def sendPayload (p : List Nat) (dev : Device) : Device :=
  p.foldl (fun d b => sendDataByte b d) dev

/-- Member `setVolume(byte volume)`; the stream pointer is never null because
the constructor takes a reference. -/
def setVolume (volume : Nat) (dev : Device) : Device :=
  let volume := volume % 256
  let volume := if volume > 30 then 30 else volume
  sendCheckSum (sendDataByte volume (sendDataByte 0x01 (sendDataByte 0x13 (sendStartingCode dev))))

/-- Member `setEqualizer(byte mode)`. -/
def setEqualizer (mode : Nat) (dev : Device) : Device :=
  let mode := mode % 256
  if mode ≥ EQUNKNOWN then dev
  else sendCheckSum (sendDataByte mode (sendDataByte 0x01 (sendDataByte 0x1A
    (sendStartingCode dev))))

/-- Member `setLoopMode(byte mode)`. -/
def setLoopMode (mode : Nat) (dev : Device) : Device :=
  let mode := mode % 256
  if mode ≥ PLAYMODEUNKNOWN then dev
  else sendCheckSum (sendDataByte mode (sendDataByte 0x01 (sendDataByte 0x18
    (sendStartingCode dev))))

/-- Member `setChannel(byte channel)`. -/
def setChannel (channel : Nat) (dev : Device) : Device :=
  let channel := channel % 256
  if channel ≥ CHANNELUNKNOWN then dev
  else sendCheckSum (sendDataByte channel (sendDataByte 0x01 (sendDataByte 0x1D
    (sendStartingCode dev))))

/-- Member `setDrive(byte drive)`. -/
def setDrive (drive : Nat) (dev : Device) : Device :=
  let drive := drive % 256
  if drive ≥ DRIVEUNKNOWN then dev
  else sendCheckSum (sendDataByte drive (sendDataByte 0x01 (sendDataByte 0x0B
    (sendStartingCode dev))))

/-- Member `insertFileByNumber(word track, byte drive)`: the payload is the
drive, `(track >> 8) & 0xff` and `track & 0xff`. -/
def insertFileByNumber (track : Nat) (drive : Nat) (dev : Device) : Device :=
  let drive := drive % 256
  if drive ≥ DRIVEUNKNOWN then dev
  else sendCheckSum (sendDataByte (track % 256) (sendDataByte (track / 256 % 256)
    (sendDataByte drive (sendDataByte 0x03 (sendDataByte 0x16 (sendStartingCode dev))))))

/-- Member `playFileByName(char *path, byte drive)`. A null `path` is `none`;
otherwise `path` is the list of the characters of the string, that is the
bytes before its terminating zero, so that `strlen(path)` is the length of
the list and the `for` loop sends the list in order. -/
def playFileByName (path : Option (List Nat)) (drive : Nat) (dev : Device) : Device :=
  let drive := drive % 256
  match path with
  | none => dev
  | some path =>
    if drive ≥ DRIVEUNKNOWN then dev
    else sendCheckSum (sendPayload path (sendDataByte drive (sendDataByte (path.length + 1)
      (sendDataByte 0x08 (sendStartingCode dev)))))

/-- Member `setDirectory(char *path, byte drive)`, with `path` as in
`playFileByName`. -/
def setDirectory (path : Option (List Nat)) (drive : Nat) (dev : Device) : Device :=
  let drive := drive % 256
  match path with
  | none => dev
  | some path =>
    if drive ≥ DRIVEUNKNOWN then dev
    else sendCheckSum (sendPayload path (sendDataByte drive (sendDataByte (path.length + 1)
      (sendDataByte 0x17 (sendStartingCode dev)))))

/-- Member `playCombined(char* list)`, with `list` as `path` in
`playFileByName`. -/
def playCombined (list : Option (List Nat)) (dev : Device) : Device :=
  match list with
  | none => dev
  | some list =>
    if list.length % 2 ≠ 0 then dev
    else sendCheckSum (sendPayload list (sendDataByte list.length (sendDataByte 0x1B
      (sendStartingCode dev))))

/-- The bytes that the send helpers emit for opcode `c` and payload `p`:
the written stream of the call sequence start, opcode, length, payload,
checksum on a fresh stream. -/
def emitted (c : Nat) (p : List Nat) : List Nat :=
  (sendCheckSum (sendPayload p (sendDataByte p.length (sendDataByte c
    (sendStartingCode { m_checksum := 0, written := [] }))))).written

/-! ## Receiving -/

/-- One observation of the incoming side, made by one iteration of a receive
loop. `wait` is the reading of `millis()-lastMS` in the test of the wait loop
that precedes the poll in which `available()` first yields a non-zero
`dataReady` (the wait loop gets the byte when this reading is below
`RECEIVEBYTETIMEOUTMS`, and gives up otherwise), `data` is what `read()` then
returns, and `clock` is the reading of `millis()-receiveStartMS` in the test
of the total limit after that byte was processed. The readings are
differences of `unsigned long` values and are taken as natural numbers. The
end of the list is a line that stays silent. -/
structure RxByte where
  wait : Nat
  data : Nat
  clock : Nat
  deriving DecidableEq, Repr

/-- The query operations, one per receive loop of the source. -/
inductive Query where
  | getStatus
  | getDrivesStates
  | getDrive
  | getFileNumber
  | getTotalFiles
  | getFirstFileNumberInCurrentDirectory
  | getTotalFilesInCurrentDirectory
  | getFileName
  | getDuration
  | getRuntime
  deriving DecidableEq, Repr

/-- The `#define COMMAND` of each query operation. -/
def Query.COMMAND : Query → Nat
  | .getStatus => 0x01
  | .getDrivesStates => 0x09
  | .getDrive => 0x0A
  | .getFileNumber => 0x0D
  | .getTotalFiles => 0x0C
  | .getFirstFileNumberInCurrentDirectory => 0x11
  | .getTotalFilesInCurrentDirectory => 0x12
  | .getFileName => 0x1E
  | .getDuration => 0x24
  | .getRuntime => 0x25

/-- The constant `K` of the test `if (length != K)` on the length byte;
`none` for `getFileName`, whose loop has no such test. -/
def Query.expected : Query → Option Nat
  | .getStatus => some 1
  | .getDrivesStates => some 1
  | .getDrive => some 1
  | .getFileNumber => some 2
  | .getTotalFiles => some 2
  | .getFirstFileNumberInCurrentDirectory => some 2
  | .getTotalFilesInCurrentDirectory => some 2
  | .getFileName => none
  | .getDuration => some 3
  | .getRuntime => some 3

/-- The local variables of a receive loop together with the objects
of the caller it writes: `result` is the `byte result` or `word result`, `hour`,
`minute`, `second` are the reference parameters of `getDuration` and
`getRuntime`, and `name` is the memory behind `char *name` of `getFileName`,
indexed from `name[0]`. -/
structure Locals where
  i : Int
  data : Nat
  firstByte : Nat
  sum : Nat
  length : Nat
  result : Nat
  hour : Nat
  minute : Nat
  second : Nat
  name : Nat → Nat

/-- Store into `name[k]`. -/
def poke (name : Nat → Nat) (k : Nat) (v : Nat) : Nat → Nat :=
  fun j => if j = k then v else name j

/-- The statement guarded by
`(i > RECEIVEHEADERLENGTH) && (i-RECEIVEHEADERLENGTH-1<length)`. -/
def Query.store (q : Query) (s : Locals) : Locals :=
  match q with
  | .getStatus | .getDrivesStates | .getDrive => { s with result := s.data }
  | .getFileNumber | .getTotalFiles | .getFirstFileNumberInCurrentDirectory
  | .getTotalFilesInCurrentDirectory =>
    match s.i - RECEIVEHEADERLENGTH - 1 with
    | 0 => { s with result := (s.data * 256) % 65536 }
    | 1 => { s with result := (s.result + s.data) % 65536 }
    | _ => s
  | .getFileName =>
    { s with name := poke (poke s.name (s.i - RECEIVEHEADERLENGTH - 1).toNat s.data)
                       (s.i - RECEIVEHEADERLENGTH).toNat 0 }
  | .getDuration | .getRuntime =>
    match s.i - RECEIVEHEADERLENGTH - 1 with
    | 0 => { s with hour := s.data }
    | 1 => { s with minute := s.data }
    | 2 => { s with second := s.data }
    | _ => s

/-- The statement guarded by `i == RECEIVEHEADERLENGTH`: take the length
byte and, where the loop tests it, reset on a length other than `K`. -/
def Query.readLength (q : Query) (s : Locals) : Locals :=
  let s := { s with length := s.data }
  match q.expected with
  | some K => if s.length ≠ K then { s with i := 0, firstByte := 0 } else s
  | none => s

/-- The body of the `do ... while` loop from `data = m_ptrStream->read()`
up to, not including, the test of the total limit. -/
def Query.body (q : Query) (s : Locals) (b : Nat) : Locals :=
  let s := { s with data := b % 256 }
  let s := if s.i = 0 then { s with firstByte := s.data, sum := 0 } else s
  let s := if s.i = 1 ∧ s.data ≠ q.COMMAND then { s with i := 0, firstByte := 0 } else s
  let s := if s.i = RECEIVEHEADERLENGTH then q.readLength s else s
  let s := if s.i > RECEIVEHEADERLENGTH ∧ s.i - RECEIVEHEADERLENGTH - 1 < s.length
           then q.store s else s
  let s := if s.firstByte = STARTINGCODE then
             let s := if s.i - RECEIVEHEADERLENGTH ≤ s.length
                      then { s with sum := (s.sum + s.data) % 256 } else s
             { s with i := s.i + 1 }
           else s
  s

/-- How a receive loop ends: one of the two `return RECEIVEFAILED; // Timeout`
statements, or the loop condition turning false, which leads to the
comparison of `data` with `sum`. Each carries the variables at that point;
`compare` also carries the observations that were not read. -/
inductive Exit where
  | byteTimeout (s : Locals)
  | totalTimeout (s : Locals)
  | compare (s : Locals) (rest : List RxByte)

/-- The `do ... while (i<length+RECEIVEHEADERLENGTH+2)` loop over the
observations of the incoming side. -/
def Query.receive (q : Query) : Locals → List RxByte → Exit
  | s, [] => .byteTimeout s
  | s, x :: xs =>
    if x.wait < RECEIVEBYTETIMEOUTMS then
      let s := q.body s x.data
      if x.clock > RECEIVEGLOBALTIMEOUTMS then .totalTimeout s
      else if s.i < s.length + RECEIVEHEADERLENGTH + 2 then q.receive s xs
      else .compare s xs
    else .byteTimeout s

/-- The indeterminate values of the locals `data` and `sum`, which the
source declares without an initialiser. -/
structure Uninit where
  data : Nat
  sum : Nat

/-- The objects of the caller that a query can write: the arguments bound to
`hour`, `minute`, `second` and the memory behind `name`. -/
structure Caller where
  hour : Nat
  minute : Nat
  second : Nat
  name : Nat → Nat

/-- The variables on entry to the loop: `int i=0; byte data, firstByte = 0,
sum, length=0xff, result = 0;`, after `name[0] = 0` in `getFileName`. -/
def Query.entry (q : Query) (u : Uninit) (c : Caller) : Locals :=
  { i := 0, data := u.data % 256, firstByte := 0, sum := u.sum % 256, length := 0xff,
    result := 0, hour := c.hour % 256, minute := c.minute % 256, second := c.second % 256,
    name := match q with
      | .getFileName => poke c.name 0 0
      | _ => c.name }

/-- The receive part of a query operation: the loop run from its entry
state. -/
def Query.loop (q : Query) (u : Uninit) (c : Caller) (rx : List RxByte) : Exit :=
  q.receive (q.entry u c) rx

/-- The request a query operation writes before it receives: the frame with
its `COMMAND` and length 0; `getRuntime` writes nothing. -/
def Query.request (q : Query) (dev : Device) : Device :=
  match q with
  | .getRuntime => dev
  | _ => sendCheckSum (sendDataByte 0x00 (sendDataByte q.COMMAND (sendStartingCode dev)))

/-- A value returned by a query operation, tagged with its C++ type. -/
inductive Value where
  | byte (v : Nat)
  | word (v : Nat)
  | int (v : Int)
  | bool (b : Bool)
  deriving DecidableEq, Repr

/-- Conversion of a `word` to an `int` of `intBits` bits in the
twos complement way. The width of `int` is fixed by the board and not by
the source: 16 on the AVR boards, 32 on the ARM and ESP boards. -/
def wordToInt (intBits : Nat) (w : Nat) : Int :=
  if w % 2 ^ intBits < 2 ^ (intBits - 1) then ((w % 2 ^ intBits : Nat) : Int)
  else ((w % 2 ^ intBits : Nat) : Int) - ((2 ^ intBits : Nat) : Int)

/-- The `#define RECEIVEFAILED` of each query operation. -/
def Query.RECEIVEFAILED : Query → Value
  | .getStatus => .byte STATUSUNKNOWN
  | .getDrivesStates => .byte DRIVEUNKNOWN
  | .getDrive => .byte DRIVEUNKNOWN
  | .getFileNumber => .word 0
  | .getTotalFiles => .int (-1)
  | .getFirstFileNumberInCurrentDirectory => .int (-1)
  | .getTotalFilesInCurrentDirectory => .int (-1)
  | .getFileName => .bool false
  | .getDuration => .bool false
  | .getRuntime => .bool false

/-- The value `return result;` gives in the return type of the operation,
or `true` for the operations that return `(data == sum)`. -/
def Query.accepted (q : Query) (intBits : Nat) (s : Locals) : Value :=
  match q with
  | .getStatus | .getDrivesStates | .getDrive => .byte s.result
  | .getFileNumber => .word s.result
  | .getTotalFiles | .getFirstFileNumberInCurrentDirectory
  | .getTotalFilesInCurrentDirectory => .int (wordToInt intBits s.result)
  | .getFileName | .getDuration | .getRuntime => .bool true

/-- The value a query operation returns for each way its loop ends:
`RECEIVEFAILED` on a timeout, and after the loop
`if (data != sum) return RECEIVEFAILED; return result;`
(`return (data == sum);` in the operations that return `bool`). -/
def Query.returned (q : Query) (intBits : Nat) : Exit → Value
  | .byteTimeout _ => q.RECEIVEFAILED
  | .totalTimeout _ => q.RECEIVEFAILED
  | .compare s _ => if s.data ≠ s.sum then q.RECEIVEFAILED else q.accepted intBits s

/-- The variables at the end of a receive loop. -/
def Exit.locals : Exit → Locals
  | .byteTimeout s => s
  | .totalTimeout s => s
  | .compare s _ => s

/-- The loop ended at the comparison and `data == sum` held. -/
def Exit.success : Exit → Prop
  | .compare s _ => s.data = s.sum
  | _ => False

/-- The loop ended at the comparison and `data != sum` held. -/
def Exit.mismatch : Exit → Prop
  | .compare s _ => s.data ≠ s.sum
  | _ => False

/-- The loop ended at one of the two timeout returns. -/
def Exit.timeout : Exit → Prop
  | .compare _ _ => False
  | _ => True

instance (e : Exit) : Decidable e.success := by
  cases e <;> unfold Exit.success <;> infer_instance

instance (e : Exit) : Decidable e.mismatch := by
  cases e <;> unfold Exit.mismatch <;> infer_instance

instance (e : Exit) : Decidable e.timeout := by
  cases e <;> unfold Exit.timeout <;> infer_instance

/-- The observations the loop left unread when it reached the comparison. -/
def Exit.unread : Exit → List RxByte
  | .compare _ rest => rest
  | _ => []

/-- Everything a call of a query operation leaves behind. -/
structure Outcome where
  dev : Device
  ret : Value
  exit : Exit

/-- A query operation as a whole: write the request, run the loop, return. -/
def Query.call (q : Query) (intBits : Nat) (u : Uninit) (c : Caller) (dev : Device)
    (rx : List RxByte) : Outcome :=
  { dev := q.request dev, exit := q.loop u c rx, ret := q.returned intBits (q.loop u c rx) }

/-- Member `getStatus`. -/
def getStatus (u : Uninit) (dev : Device) (rx : List RxByte) : Outcome :=
  Query.getStatus.call 16 u ⟨0, 0, 0, fun _ => 0⟩ dev rx

/-- Member `getDrivesStates`. -/
def getDrivesStates (u : Uninit) (dev : Device) (rx : List RxByte) : Outcome :=
  Query.getDrivesStates.call 16 u ⟨0, 0, 0, fun _ => 0⟩ dev rx

/-- Member `getDrive`. -/
def getDrive (u : Uninit) (dev : Device) (rx : List RxByte) : Outcome :=
  Query.getDrive.call 16 u ⟨0, 0, 0, fun _ => 0⟩ dev rx

/-- Member `getFileNumber`. -/
def getFileNumber (u : Uninit) (dev : Device) (rx : List RxByte) : Outcome :=
  Query.getFileNumber.call 16 u ⟨0, 0, 0, fun _ => 0⟩ dev rx

/-- Member `getTotalFiles`, on a board whose `int` has `intBits` bits. -/
def getTotalFiles (intBits : Nat) (u : Uninit) (dev : Device) (rx : List RxByte) : Outcome :=
  Query.getTotalFiles.call intBits u ⟨0, 0, 0, fun _ => 0⟩ dev rx

/-- Member `getFirstFileNumberInCurrentDirectory`, on a board whose `int` has
`intBits` bits. -/
def getFirstFileNumberInCurrentDirectory (intBits : Nat) (u : Uninit) (dev : Device)
    (rx : List RxByte) : Outcome :=
  Query.getFirstFileNumberInCurrentDirectory.call intBits u ⟨0, 0, 0, fun _ => 0⟩ dev rx

/-- Member `getTotalFilesInCurrentDirectory`, on a board whose `int` has
`intBits` bits. -/
def getTotalFilesInCurrentDirectory (intBits : Nat) (u : Uninit) (dev : Device)
    (rx : List RxByte) : Outcome :=
  Query.getTotalFilesInCurrentDirectory.call intBits u ⟨0, 0, 0, fun _ => 0⟩ dev rx

/-- Member `getFileName(char *name)` for a non-null `name`. -/
def getFileName (name : Nat → Nat) (u : Uninit) (dev : Device) (rx : List RxByte) : Outcome :=
  Query.getFileName.call 16 u ⟨0, 0, 0, name⟩ dev rx

/-- Member `getDuration(byte &hour, byte &minute, byte &second)`. -/
def getDuration (hour minute second : Nat) (u : Uninit) (dev : Device) (rx : List RxByte) :
    Outcome :=
  Query.getDuration.call 16 u ⟨hour, minute, second, fun _ => 0⟩ dev rx

/-- Member `getRuntime(byte &hour, byte &minute, byte &second)`. -/
def getRuntime (hour minute second : Nat) (u : Uninit) (dev : Device) (rx : List RxByte) :
    Outcome :=
  Query.getRuntime.call 16 u ⟨hour, minute, second, fun _ => 0⟩ dev rx

/-! ## Vocabulary of the statements -/

/-- Every element is a byte value. -/
def Bytes (l : List Nat) : Prop := ∀ b ∈ l, b < 256

instance (l : List Nat) : Decidable (Bytes l) := by
  unfold Bytes; infer_instance

/-- Every byte arrives inside the byte window and is processed inside the
total window. -/
def Timely (rx : List RxByte) : Prop :=
  ∀ x ∈ rx, x.wait < RECEIVEBYTETIMEOUTMS ∧ x.clock ≤ RECEIVEGLOBALTIMEOUTMS

instance (rx : List RxByte) : Decidable (Timely rx) := by
  unfold Timely; infer_instance

/-- The byte values of a list of observations. -/
def wire (rx : List RxByte) : List Nat := rx.map (fun x => x.data)

/-- The checksum of a frame: `(0xAA + c + length + sum of payload) mod 256`. -/
def checksum (c : Nat) (p : List Nat) : Nat := (0xAA + c + p.length + p.sum) % 256

/-- Bytes delivered at once: every wait and every clock reading is zero. -/
def prompt (l : List Nat) : List RxByte := l.map (fun b => { wait := 0, data := b, clock := 0 })

/-- The variables after the loop body has processed the observations `xs`
one after the other. -/
def Query.run (q : Query) (s : Locals) (xs : List RxByte) : Locals :=
  xs.foldl (fun t x => q.body t x.data) s

/-- The operations whose return type is `int`. -/
def Query.returnsInt : Query → Bool
  | .getTotalFiles => true
  | .getFirstFileNumberInCurrentDirectory => true
  | .getTotalFilesInCurrentDirectory => true
  | _ => false

/-- The payload `p` read as the spec reads it: a status byte, a big-endian
word `hi*256+lo`, the triple hour, minute, second, or a terminated name.
This follows the words of the spec; it is compared with what the loop leaves in
its variables. -/
def Delivers (q : Query) (p : List Nat) (s : Locals) : Prop :=
  match q with
  | .getStatus | .getDrivesStates | .getDrive => s.result = p.getD 0 0
  | .getFileNumber | .getTotalFiles | .getFirstFileNumberInCurrentDirectory
  | .getTotalFilesInCurrentDirectory => s.result = p.getD 0 0 * 256 + p.getD 1 0
  | .getFileName => (∀ k, k < p.length → s.name k = p.getD k 0) ∧ s.name p.length = 0
  | .getDuration | .getRuntime =>
    s.hour = p.getD 0 0 ∧ s.minute = p.getD 1 0 ∧ s.second = p.getD 2 0

/-- The value the spec expects a query to return for a payload `p`: the
status byte, the number `hi*256+lo`, or `true`. This follows the words of
the spec. -/
def Query.value (q : Query) (p : List Nat) : Value :=
  match q with
  | .getStatus | .getDrivesStates | .getDrive => .byte (p.getD 0 0)
  | .getFileNumber => .word (p.getD 0 0 * 256 + p.getD 1 0)
  | .getTotalFiles | .getFirstFileNumberInCurrentDirectory
  | .getTotalFilesInCurrentDirectory => .int ((p.getD 0 0 * 256 + p.getD 1 0 : Nat) : Int)
  | .getFileName | .getDuration | .getRuntime => .bool true

/-- The loop up to a point: the variables after the loop has read all of
`xs` and goes on waiting for the next byte, or `none` when the loop ended
while it read `xs` (a byte came too late, the total limit was exceeded, or
the loop condition turned false). -/
def Query.advance (q : Query) : Locals → List RxByte → Option Locals
  | s, [] => some s
  | s, x :: xs =>
    if x.wait < RECEIVEBYTETIMEOUTMS then
      let s := q.body s x.data
      if x.clock > RECEIVEGLOBALTIMEOUTMS then none
      else if s.i < s.length + RECEIVEHEADERLENGTH + 2 then q.advance s xs
      else none
    else none

/-- No byte becomes available during the wait for the next byte: the line
stays silent, or the next byte shows up only when the wait limit has
passed. -/
def Silent : List RxByte → Prop
  | [] => True
  | x :: _ => RECEIVEBYTETIMEOUTMS ≤ x.wait

instance (rx : List RxByte) : Decidable (Silent rx) := by
  cases rx <;> unfold Silent <;> infer_instance

/-- The loop ended at `if (dataReady == 0) return RECEIVEFAILED;`. -/
def Exit.byByteLimit : Exit → Prop
  | .byteTimeout _ => True
  | _ => False

/-- The loop ended at
`if (millis()-receiveStartMS > RECEIVEGLOBALTIMEOUTMS) return RECEIVEFAILED;`. -/
def Exit.byTotalLimit : Exit → Prop
  | .totalTimeout _ => True
  | _ => False

instance (e : Exit) : Decidable e.byByteLimit := by
  cases e <;> unfold Exit.byByteLimit <;> infer_instance

instance (e : Exit) : Decidable e.byTotalLimit := by
  cases e <;> unfold Exit.byTotalLimit <;> infer_instance

/-- The objects a caller can see are the same in two sets of variables:
`result`, `hour`, `minute`, `second` and the memory behind `name`. -/
def Locals.sameOutputs (s t : Locals) : Prop :=
  s.result = t.result ∧ s.hour = t.hour ∧ s.minute = t.minute ∧ s.second = t.second ∧
  s.name = t.name

/-- Two runs of a loop have the same outcome: they end at the same exit,
with the same objects visible to the caller and, at the comparison, with the
same `data`, the same `sum` and the same unread observations. -/
def Exit.agrees : Exit → Exit → Prop
  | .byteTimeout s, .byteTimeout t => s.sameOutputs t
  | .totalTimeout s, .totalTimeout t => s.sameOutputs t
  | .compare s r, .compare t r2 => s.sameOutputs t ∧ s.data = t.data ∧ s.sum = t.sum ∧ r = r2
  | _, _ => False

/-- Two sets of variables in the header part of a frame attempt (`i` at
most 2) that differ at most in what the loop overwrites before reading it:
`data`, the stale `length`, and in the seek state also `firstByte` and
`sum`. -/
def Locals.alike (s t : Locals) : Prop :=
  s.i = t.i ∧ 0 ≤ s.i ∧ s.i ≤ 2 ∧ s.sameOutputs t ∧
  (s.i ≠ 0 → s.firstByte = 0xAA ∧ t.firstByte = 0xAA ∧ s.sum = t.sum)

/-! ## The wait loop, test by test -/

/-- The wait loop
`while ((millis()-lastMS < RECEIVEBYTETIMEOUTMS) && (dataReady==0)) dataReady = m_ptrStream->available();`
test by test. `reading k` is the value of `millis()-lastMS` in test number
`k` of the loop and `avail k` is what the call of `available()` after that
test returns, which is stored in `byte dataReady`. The loop is at test `k`
with `dataReady`; the result is the number of the test at which the loop is
left and `dataReady` there, or `none` when `fuel` tests do not suffice. -/
def waitLoop (reading avail : Nat → Nat) : Nat → Nat → Nat → Option (Nat × Nat)
  | 0, _, _ => none
  | fuel + 1, k, dataReady =>
    if reading k < RECEIVEBYTETIMEOUTMS ∧ dataReady = 0
    then waitLoop reading avail fuel (k + 1) (avail k % 256)
    else some (k, dataReady)

/-- The first iteration of a receive loop up to
`if (dataReady == 0) return RECEIVEFAILED; // Timeout`: `byte dataReady = 0`,
the wait loop, and that statement. `lead` is the value of
`lastMS-receiveStartMS`. The result is `some (v, e)` when the statement
returns `v`, with `e` the value of `millis()-receiveStartMS` at the last test
of the wait loop, `none` when a byte is ready and the loop goes on to
`read()`; the outer `none` stands for a wait loop that `fuel` tests do not
end. -/
def Query.idleReturn (q : Query) (lead : Nat) (reading avail : Nat → Nat) (fuel : Nat) :
    Option (Option (Value × Nat)) :=
  match waitLoop reading avail fuel 0 0 with
  | none => none
  | some (k, dataReady) =>
    if dataReady = 0 then some (some (q.RECEIVEFAILED, (lead + reading k) % 4294967296))
    else some none

/-! ## The encoder -/

theorem sendPayload_written (p : List Nat) (dev : Device) :
    (sendPayload p dev).written = dev.written ++ p.map (fun b => b % 256) := by
  induction p generalizing dev with
  | nil => simp [sendPayload]
  | cons b t ih =>
    have h := ih (sendDataByte b dev)
    simp only [sendPayload, List.foldl_cons] at h ⊢
    rw [h]
    simp [sendDataByte]

theorem sendPayload_checksum (p : List Nat) (dev : Device) :
    (sendPayload p dev).m_checksum % 256 = (dev.m_checksum + p.sum) % 256 := by
  induction p generalizing dev with
  | nil => simp [sendPayload]
  | cons b t ih =>
    have h := ih (sendDataByte b dev)
    simp only [sendPayload, List.foldl_cons] at h ⊢
    rw [h]
    simp only [sendDataByte, List.sum_cons]
    omega

theorem map_mod_of_bytes (p : List Nat) (hp : Bytes p) : p.map (fun b => b % 256) = p := by
  induction p with
  | nil => rfl
  | cons b t ih =>
    have hb : b < 256 := hp b (by simp)
    have ht : Bytes t := fun x hx => hp x (by simp [hx])
    simp [ih ht, Nat.mod_eq_of_lt hb]

theorem emitted_eq (c : Nat) (p : List Nat) (hc : c < 256) (hl : p.length ≤ 255)
    (hp : Bytes p) :
    emitted c p = 0xAA :: c :: p.length :: (p ++ [checksum c p]) := by
  have h1 := sendPayload_written p (sendDataByte p.length (sendDataByte c
    (sendStartingCode { m_checksum := 0, written := [] })))
  have h2 := sendPayload_checksum p (sendDataByte p.length (sendDataByte c
    (sendStartingCode { m_checksum := 0, written := [] })))
  simp only [emitted, sendCheckSum, h1, h2, map_mod_of_bytes p hp]
  have e1 : c % 256 = c := Nat.mod_eq_of_lt hc
  have e2 : p.length % 256 = p.length := Nat.mod_eq_of_lt (by omega)
  simp only [sendDataByte, sendStartingCode, STARTINGCODE, checksum, e1, e2]
  simp

/-! ## The loop body, phase by phase -/

theorem body_seek (q : Query) (s : Locals) (b : Nat) (hi : s.i = 0) (hb : b % 256 ≠ 0xAA) :
    q.body s b = { s with data := b % 256, firstByte := b % 256, sum := 0 } := by
  simp [Query.body, hi, hb, RECEIVEHEADERLENGTH, STARTINGCODE]

theorem body_start (q : Query) (s : Locals) (b : Nat) (hi : s.i = 0) (hb : b % 256 = 0xAA) :
    q.body s b = { s with data := 0xAA, firstByte := 0xAA, sum := 0xAA, i := 1 } := by
  have h : (-2 : Int) ≤ (s.length : Int) := by omega
  simp [Query.body, hi, hb, h, RECEIVEHEADERLENGTH, STARTINGCODE]

theorem body_cmd_bad (q : Query) (s : Locals) (b : Nat) (hi : s.i = 1)
    (hb : b % 256 ≠ q.COMMAND) :
    q.body s b = { s with data := b % 256, firstByte := 0, i := 0 } := by
  simp [Query.body, hi, hb, RECEIVEHEADERLENGTH, STARTINGCODE]

theorem body_cmd_ok (q : Query) (s : Locals) (b : Nat) (hi : s.i = 1) (hf : s.firstByte = 0xAA)
    (hb : b % 256 = q.COMMAND) :
    q.body s b = { s with data := b % 256, sum := (s.sum + b % 256) % 256, i := 2 } := by
  have h : (-1 : Int) ≤ (s.length : Int) := by omega
  simp [Query.body, hi, hb, hf, h, RECEIVEHEADERLENGTH, STARTINGCODE]

theorem body_len_bad (q : Query) (s : Locals) (b K : Nat) (hi : s.i = 2)
    (hK : q.expected = some K) (hb : b % 256 ≠ K) :
    q.body s b = { s with data := b % 256, length := b % 256, firstByte := 0, i := 0 } := by
  simp [Query.body, Query.readLength, hi, hb, hK, RECEIVEHEADERLENGTH, STARTINGCODE]

theorem body_len_ok (q : Query) (s : Locals) (b : Nat) (hi : s.i = 2) (hf : s.firstByte = 0xAA)
    (hK : ∀ K, q.expected = some K → b % 256 = K) :
    q.body s b = { s with data := b % 256, length := b % 256,
                          sum := (s.sum + b % 256) % 256, i := 3 } := by
  have h0 : (0 : Int) ≤ (b : Int) % 256 := by omega
  rcases h : q.expected with _ | K
  · simp [Query.body, Query.readLength, hi, hf, h, h0, RECEIVEHEADERLENGTH, STARTINGCODE]
  · have := hK K h
    simp [Query.body, Query.readLength, hi, hf, h, h0, this, RECEIVEHEADERLENGTH, STARTINGCODE]

@[simp] theorem store_i (q : Query) (s : Locals) : (q.store s).i = s.i := by
  cases q <;> simp only [Query.store] <;> (try split) <;> simp

@[simp] theorem store_data (q : Query) (s : Locals) : (q.store s).data = s.data := by
  cases q <;> simp only [Query.store] <;> (try split) <;> simp

@[simp] theorem store_firstByte (q : Query) (s : Locals) :
    (q.store s).firstByte = s.firstByte := by
  cases q <;> simp only [Query.store] <;> (try split) <;> simp

@[simp] theorem store_sum (q : Query) (s : Locals) : (q.store s).sum = s.sum := by
  cases q <;> simp only [Query.store] <;> (try split) <;> simp

@[simp] theorem store_length (q : Query) (s : Locals) : (q.store s).length = s.length := by
  cases q <;> simp only [Query.store] <;> (try split) <;> simp

theorem body_payload (q : Query) (s : Locals) (b : Nat) (hi : 3 ≤ s.i)
    (hlt : s.i - 3 < s.length) (hf : s.firstByte = 0xAA) :
    q.body s b = { q.store { s with data := b % 256 } with
                     sum := (s.sum + b % 256) % 256, i := s.i + 1 } := by
  have h0 : ¬ s.i = 0 := by omega
  have h1 : ¬ s.i = 1 := by omega
  have h2 : ¬ s.i = 2 := by omega
  have h3 : 2 < s.i := by omega
  have h4 : s.i - 2 - 1 < s.length := by omega
  have h5 : s.i ≤ s.length + 2 := by omega
  simp [Query.body, h0, h1, h2, h3, h4, h5, hf, RECEIVEHEADERLENGTH, STARTINGCODE]

theorem body_check (q : Query) (s : Locals) (b : Nat) (hi : s.i = s.length + 3)
    (hf : s.firstByte = 0xAA) :
    q.body s b = { s with data := b % 256, i := s.i + 1 } := by
  have h0 : ¬ s.i = 0 := by omega
  have h1 : ¬ s.i = 1 := by omega
  have h2 : ¬ s.i = 2 := by omega
  have h4 : ¬ s.i - 2 - 1 < s.length := by omega
  have h5 : ¬ s.i - 2 ≤ s.length := by omega
  simp [Query.body, h0, h1, h2, h4, h5, hf, RECEIVEHEADERLENGTH, STARTINGCODE]

/-! ## The loop, step by step -/

theorem receive_step (q : Query) (s : Locals) (x : RxByte) (xs : List RxByte)
    (hw : x.wait < 100) (hc : x.clock ≤ 500)
    (hgo : (q.body s x.data).i < (q.body s x.data).length + 4) :
    q.receive s (x :: xs) = q.receive (q.body s x.data) xs := by
  have hc2 : ¬ 500 < x.clock := by omega
  have hgo2 : (q.body s x.data).i < (q.body s x.data).length + 2 + 2 := by omega
  simp [Query.receive, RECEIVEBYTETIMEOUTMS, RECEIVEGLOBALTIMEOUTMS, RECEIVEHEADERLENGTH, hw,
    hc2, hgo2]

theorem receive_last (q : Query) (s : Locals) (x : RxByte) (xs : List RxByte)
    (hw : x.wait < 100) (hc : x.clock ≤ 500)
    (hgo : ¬ (q.body s x.data).i < (q.body s x.data).length + 4) :
    q.receive s (x :: xs) = .compare (q.body s x.data) xs := by
  have hc2 : ¬ 500 < x.clock := by omega
  have hgo2 : ¬ (q.body s x.data).i < (q.body s x.data).length + 2 + 2 := by omega
  simp [Query.receive, RECEIVEBYTETIMEOUTMS, RECEIVEGLOBALTIMEOUTMS, RECEIVEHEADERLENGTH, hw,
    hc2, hgo2]

theorem timely_cons {x : RxByte} {xs : List RxByte} (h : Timely (x :: xs)) :
    (x.wait < 100 ∧ x.clock ≤ 500) ∧ Timely xs := by
  refine ⟨?_, fun y hy => h y (by simp [hy])⟩
  have := h x (by simp)
  simpa [RECEIVEBYTETIMEOUTMS, RECEIVEGLOBALTIMEOUTMS] using this

theorem timely_append {xs ys : List RxByte} (h : Timely (xs ++ ys)) : Timely xs ∧ Timely ys :=
  ⟨fun y hy => h y (by simp [hy]), fun y hy => h y (by simp [hy])⟩

theorem receive_seek (q : Query) (s : Locals) (x : RxByte) (xs : List RxByte)
    (hw : x.wait < 100) (hc : x.clock ≤ 500) (hi : s.i = 0) (hb : x.data % 256 ≠ 0xAA) :
    q.receive s (x :: xs)
      = q.receive { s with data := x.data % 256, firstByte := x.data % 256, sum := 0 } xs := by
  rw [receive_step q s x xs hw hc, body_seek q s x.data hi hb]
  rw [body_seek q s x.data hi hb]; simp [hi]; omega

theorem receive_start (q : Query) (s : Locals) (x : RxByte) (xs : List RxByte)
    (hw : x.wait < 100) (hc : x.clock ≤ 500) (hi : s.i = 0) (hb : x.data % 256 = 0xAA) :
    q.receive s (x :: xs)
      = q.receive { s with data := 0xAA, firstByte := 0xAA, sum := 0xAA, i := 1 } xs := by
  rw [receive_step q s x xs hw hc, body_start q s x.data hi hb]
  rw [body_start q s x.data hi hb]; simp; omega

theorem receive_cmd_bad (q : Query) (s : Locals) (x : RxByte) (xs : List RxByte)
    (hw : x.wait < 100) (hc : x.clock ≤ 500) (hi : s.i = 1) (hb : x.data % 256 ≠ q.COMMAND) :
    q.receive s (x :: xs)
      = q.receive { s with data := x.data % 256, firstByte := 0, i := 0 } xs := by
  rw [receive_step q s x xs hw hc, body_cmd_bad q s x.data hi hb]
  rw [body_cmd_bad q s x.data hi hb]; simp; omega

theorem receive_cmd_ok (q : Query) (s : Locals) (x : RxByte) (xs : List RxByte)
    (hw : x.wait < 100) (hc : x.clock ≤ 500) (hi : s.i = 1) (hf : s.firstByte = 0xAA)
    (hb : x.data % 256 = q.COMMAND) :
    q.receive s (x :: xs)
      = q.receive { s with data := x.data % 256, sum := (s.sum + x.data % 256) % 256, i := 2 }
          xs := by
  rw [receive_step q s x xs hw hc, body_cmd_ok q s x.data hi hf hb]
  rw [body_cmd_ok q s x.data hi hf hb]; simp; omega

theorem receive_len_bad (q : Query) (s : Locals) (x : RxByte) (xs : List RxByte) (K : Nat)
    (hw : x.wait < 100) (hc : x.clock ≤ 500) (hi : s.i = 2) (hK : q.expected = some K)
    (hb : x.data % 256 ≠ K) :
    q.receive s (x :: xs)
      = q.receive { s with data := x.data % 256, length := x.data % 256, firstByte := 0,
                           i := 0 } xs := by
  rw [receive_step q s x xs hw hc, body_len_bad q s x.data K hi hK hb]
  rw [body_len_bad q s x.data K hi hK hb]; simp; omega

theorem receive_len_ok (q : Query) (s : Locals) (x : RxByte) (xs : List RxByte)
    (hw : x.wait < 100) (hc : x.clock ≤ 500) (hi : s.i = 2) (hf : s.firstByte = 0xAA)
    (hK : ∀ K, q.expected = some K → x.data % 256 = K) :
    q.receive s (x :: xs)
      = q.receive { s with data := x.data % 256, length := x.data % 256,
                           sum := (s.sum + x.data % 256) % 256, i := 3 } xs := by
  rw [receive_step q s x xs hw hc, body_len_ok q s x.data hi hf hK]
  rw [body_len_ok q s x.data hi hf hK]; simp; omega

theorem receive_check (q : Query) (s : Locals) (x : RxByte) (xs : List RxByte)
    (hw : x.wait < 100) (hc : x.clock ≤ 500) (hi : s.i = s.length + 3)
    (hf : s.firstByte = 0xAA) :
    q.receive s (x :: xs) = .compare { s with data := x.data % 256, i := s.i + 1 } xs := by
  rw [receive_last q s x xs hw hc, body_check q s x.data hi hf]
  rw [body_check q s x.data hi hf]; simp; omega

/-- Reading payload bytes: the loop goes on, and the cursor, the start mark,
the length and the running sum move as expected. -/
theorem receive_payload (q : Query) (rest : List RxByte) :
    ∀ (ps : List RxByte) (s : Locals), 3 ≤ s.i → s.firstByte = 0xAA →
      s.i - 3 + ps.length ≤ s.length → s.sum < 256 → Timely ps →
      q.receive s (ps ++ rest) = q.receive (q.run s ps) rest ∧
      (q.run s ps).i = s.i + ps.length ∧ (q.run s ps).firstByte = 0xAA ∧
      (q.run s ps).length = s.length ∧
      (q.run s ps).sum = (s.sum + (wire ps).sum) % 256 := by
  intro ps
  induction ps with
  | nil =>
    intro s _ hf _ hs _
    simp [Query.run, wire, hf, Nat.mod_eq_of_lt hs]
  | cons x xs ih =>
    intro s hi hf hlen hs ht
    obtain ⟨⟨hw, hc⟩, ht2⟩ := timely_cons ht
    simp only [List.length_cons, Nat.cast_add, Nat.cast_one] at hlen
    have hlt : s.i - 3 < s.length := by omega
    have hb := body_payload q s x.data hi hlt hf
    have e1 : (q.body s x.data).i = s.i + 1 := by rw [hb]
    have e2 : (q.body s x.data).firstByte = 0xAA := by rw [hb]; simpa using hf
    have e3 : (q.body s x.data).length = s.length := by rw [hb]; simp
    have e4 : (q.body s x.data).sum = (s.sum + x.data % 256) % 256 := by rw [hb]
    have hstep := receive_step q s x (xs ++ rest) hw hc (by rw [e1, e3]; omega)
    obtain ⟨r1, r2, r3, r4, r5⟩ := ih (q.body s x.data) (by omega) e2 (by rw [e1, e3]; omega)
      (by rw [e4]; omega) ht2
    refine ⟨?_, ?_, ?_, ?_, ?_⟩
    · simpa [Query.run] using hstep.trans r1
    · simp only [Query.run, List.foldl_cons] at r2 ⊢
      rw [r2, e1]; simp; omega
    · simpa [Query.run] using r3
    · simp only [Query.run, List.foldl_cons] at r4 ⊢
      rw [r4, e3]
    · simp only [Query.run, List.foldl_cons] at r5 ⊢
      rw [r5, e4]; simp [wire]; omega

theorem list_len1 {α : Type} (l : List α) (h : l.length = 1) : ∃ a, l = [a] := by
  match l, h with
  | [a], _ => exact ⟨a, rfl⟩

theorem list_len2 {α : Type} (l : List α) (h : l.length = 2) : ∃ a b, l = [a, b] := by
  match l, h with
  | [a, b], _ => exact ⟨a, b, rfl⟩

theorem list_len3 {α : Type} (l : List α) (h : l.length = 3) : ∃ a b c, l = [a, b, c] := by
  match l, h with
  | [a, b, c], _ => exact ⟨a, b, c, rfl⟩

theorem run_byte (q : Query) (s : Locals) (x : RxByte) (hq : q.expected = some 1)
    (hi : s.i = 3) (hf : s.firstByte = 0xAA) (hl : s.length = 1) :
    (q.run s [x]).result = x.data % 256 := by
  have hb := body_payload q s x.data (by omega) (by omega) hf
  simp only [Query.run, List.foldl_cons, List.foldl_nil, hb]
  cases q <;> simp [Query.expected] at hq <;> simp [Query.store]

theorem run_word (q : Query) (s : Locals) (x y : RxByte) (hq : q.expected = some 2)
    (hi : s.i = 3) (hf : s.firstByte = 0xAA) (hl : s.length = 2) :
    (q.run s [x, y]).result = x.data % 256 * 256 + y.data % 256 := by
  have hb := body_payload q s x.data (by omega) (by omega) hf
  have hb2 := body_payload q (q.body s x.data) y.data (by rw [hb]; simp; omega)
    (by rw [hb]; simp; omega) (by rw [hb]; simpa using hf)
  simp only [Query.run, List.foldl_cons, List.foldl_nil, hb2]
  rw [hb]
  cases q <;> simp [Query.expected] at hq <;>
    simp [Query.store, hi, RECEIVEHEADERLENGTH] <;> omega

theorem run_hms (q : Query) (s : Locals) (x y z : RxByte) (hq : q.expected = some 3)
    (hi : s.i = 3) (hf : s.firstByte = 0xAA) (hl : s.length = 3) :
    (q.run s [x, y, z]).hour = x.data % 256 ∧ (q.run s [x, y, z]).minute = y.data % 256 ∧
    (q.run s [x, y, z]).second = z.data % 256 := by
  have hb := body_payload q s x.data (by omega) (by omega) hf
  have hb2 := body_payload q (q.body s x.data) y.data (by rw [hb]; simp; omega)
    (by rw [hb]; simp; omega) (by rw [hb]; simpa using hf)
  have hb3 := body_payload q (q.body (q.body s x.data) y.data) z.data
    (by rw [hb2, hb]; simp; omega) (by rw [hb2, hb]; simp; omega)
    (by rw [hb2, hb]; simpa using hf)
  simp only [Query.run, List.foldl_cons, List.foldl_nil, hb3]
  rw [hb2, hb]
  cases q <;> simp [Query.expected] at hq <;>
    simp [Query.store, hi, RECEIVEHEADERLENGTH]

/-- Reading the payload of a name: the bytes land in `name` from the current
index on, followed by the terminator, and earlier cells keep their value. -/
theorem run_name (ps : List RxByte) :
    ∀ (s : Locals) (j : Nat), s.i = 3 + j → s.firstByte = 0xAA →
      j + ps.length ≤ s.length → s.name j = 0 →
      (∀ k, k < j → (Query.getFileName.run s ps).name k = s.name k) ∧
      (∀ k, k < ps.length →
        (Query.getFileName.run s ps).name (j + k) = (wire ps).getD k 0 % 256) ∧
      (Query.getFileName.run s ps).name (j + ps.length) = 0 := by
  induction ps with
  | nil =>
    intro s j _ _ _ h0
    simp [Query.run, h0]
  | cons x xs ih =>
    intro s j hi hf hlen h0
    simp only [List.length_cons] at hlen
    have hb := body_payload Query.getFileName s x.data (by omega) (by omega) hf
    have e1 : (Query.getFileName.body s x.data).i = 3 + (j + 1 : Nat) := by
      rw [hb]; simp; omega
    have e2 : (Query.getFileName.body s x.data).firstByte = 0xAA := by rw [hb]; simpa using hf
    have e3 : (Query.getFileName.body s x.data).length = s.length := by rw [hb]; simp
    have t1 : (s.i - 2 - 1).toNat = j := by omega
    have t2 : (s.i - 2).toNat = j + 1 := by omega
    have e4 : (Query.getFileName.body s x.data).name
        = poke (poke s.name j (x.data % 256)) (j + 1) 0 := by
      rw [hb]; simp [Query.store, RECEIVEHEADERLENGTH, t1, t2]
    obtain ⟨r1, r2, r3⟩ := ih (Query.getFileName.body s x.data) (j + 1) e1 e2
      (by rw [e3]; omega) (by rw [e4]; simp [poke])
    simp only [Query.run, List.foldl_cons] at r1 r2 r3 ⊢
    refine ⟨?_, ?_, ?_⟩
    · intro k hk
      rw [r1 k (by omega), e4]
      have : k ≠ j := by omega
      have : k ≠ j + 1 := by omega
      simp [poke, *]
    · intro k hk
      rcases k with _ | k
      · rw [Nat.add_zero, r1 j (by omega), e4]
        simp [poke, wire]
      · have := r2 k (by simpa using hk)
        have e : j + (k + 1) = j + 1 + k := by omega
        rw [e, this]
        simp [wire]
    · have e : j + (xs.length + 1) = j + 1 + xs.length := by omega
      rw [List.length_cons, e]
      exact r3

theorem bytes_getD (l : List Nat) (h : Bytes l) (k : Nat) : l.getD k 0 < 256 := by
  induction l generalizing k with
  | nil => simp
  | cons a t ih =>
    cases k with
    | zero => simpa using h a (by simp)
    | succ k => simpa using ih (fun b hb => h b (by simp [hb])) k

theorem bytes_cons {a : Nat} {l : List Nat} (h : Bytes (a :: l)) : a < 256 ∧ Bytes l :=
  ⟨h a (by simp), fun b hb => h b (by simp [hb])⟩

theorem bytes_append {l m : List Nat} (h : Bytes (l ++ m)) : Bytes l ∧ Bytes m :=
  ⟨fun b hb => h b (by simp [hb]), fun b hb => h b (by simp [hb])⟩

/-- What the payload bytes leave in the variables, for every query. -/
theorem run_delivers (q : Query) (s : Locals) (ps : List RxByte) (hi : s.i = 3)
    (hf : s.firstByte = 0xAA) (hl : s.length = ps.length)
    (hK : ∀ K, q.expected = some K → ps.length = K) (hb : Bytes (wire ps))
    (hn : q = .getFileName → s.name 0 = 0) :
    Delivers q (wire ps) (q.run s ps) := by
  rcases hq : q.expected with _ | K
  · have hq2 : q = .getFileName := by
      cases q <;> first | rfl | simp [Query.expected] at hq
    subst hq2
    obtain ⟨_, r2, r3⟩ := run_name ps s 0 (by simpa using hi) hf (by omega) (hn rfl)
    refine ⟨?_, ?_⟩
    · intro k hk
      have hk2 : k < ps.length := by simpa [wire] using hk
      have := r2 k hk2
      rw [Nat.zero_add] at this
      rw [this, Nat.mod_eq_of_lt (bytes_getD _ hb k)]
    · simpa [wire] using r3
  · have hlen := hK K hq
    have hK3 : K = 1 ∨ K = 2 ∨ K = 3 := by
      cases q <;> simp [Query.expected] at hq <;> omega
    rcases hK3 with h | h | h
    · subst h
      obtain ⟨x, rfl⟩ := list_len1 ps hlen
      have hx : x.data < 256 := hb x.data (by simp [wire])
      have := run_byte q s x hq hi hf (by simpa using hl)
      cases q <;> simp [Query.expected] at hq <;>
        simp [Delivers, wire, this, Nat.mod_eq_of_lt hx]
    · subst h
      obtain ⟨x, y, rfl⟩ := list_len2 ps hlen
      have hx : x.data < 256 := hb x.data (by simp [wire])
      have hy : y.data < 256 := hb y.data (by simp [wire])
      have := run_word q s x y hq hi hf (by simpa using hl)
      cases q <;> simp [Query.expected] at hq <;>
        simp [Delivers, wire, this, Nat.mod_eq_of_lt hx, Nat.mod_eq_of_lt hy]
    · subst h
      obtain ⟨x, y, z, rfl⟩ := list_len3 ps hlen
      have hx : x.data < 256 := hb x.data (by simp [wire])
      have hy : y.data < 256 := hb y.data (by simp [wire])
      have hz : z.data < 256 := hb z.data (by simp [wire])
      obtain ⟨t1, t2, t3⟩ := run_hms q s x y z hq hi hf (by simpa using hl)
      cases q <;> simp [Query.expected] at hq <;>
        simp [Delivers, wire, t1, t2, t3, Nat.mod_eq_of_lt hx, Nat.mod_eq_of_lt hy,
          Nat.mod_eq_of_lt hz]

/-- A frame read from the seek state: after the header, the payload and the
trailing byte the loop is at the comparison, with the trailing byte in
`data`, the sum of the frame without it in `sum`, and the payload in the
result variables. -/
theorem receive_frame (q : Query) (s : Locals) (x0 x1 x2 xk : RxByte) (ps rest : List RxByte)
    (hs : s.i = 0) (ht : Timely (x0 :: x1 :: x2 :: (ps ++ [xk])))
    (h0 : x0.data = 0xAA) (h1 : x1.data = q.COMMAND) (h2 : x2.data = ps.length)
    (hlen : ps.length ≤ 255) (hK : ∀ K, q.expected = some K → ps.length = K)
    (hb : Bytes (wire ps)) (hk : xk.data < 256) (hn : q = .getFileName → s.name 0 = 0) :
    ∃ t, q.receive s (x0 :: x1 :: x2 :: (ps ++ xk :: rest)) = .compare t rest ∧
      t.data = xk.data ∧ t.sum = checksum q.COMMAND (wire ps) ∧ Delivers q (wire ps) t := by
  obtain ⟨⟨w0, c0⟩, ht⟩ := timely_cons ht
  obtain ⟨⟨w1, c1⟩, ht⟩ := timely_cons ht
  obtain ⟨⟨w2, c2⟩, ht⟩ := timely_cons ht
  obtain ⟨htp, htk⟩ := timely_append ht
  obtain ⟨⟨wk, ck⟩, _⟩ := timely_cons htk
  have hc : q.COMMAND < 256 := by cases q <;> simp [Query.COMMAND]
  have m0 : x0.data % 256 = 0xAA := by rw [h0]
  have m1 : x1.data % 256 = q.COMMAND := by rw [h1]; exact Nat.mod_eq_of_lt hc
  have m2 : x2.data % 256 = ps.length := by rw [h2]; exact Nat.mod_eq_of_lt (by omega)
  rw [receive_start q s x0 _ w0 c0 hs m0]
  rw [receive_cmd_ok q _ x1 _ w1 c1 rfl rfl m1]
  rw [receive_len_ok q _ x2 _ w2 c2 rfl rfl (fun K hq => by rw [m2]; exact hK K hq)]
  obtain ⟨r1, r2, r3, r4, r5⟩ := receive_payload q (xk :: rest) ps
    { s with data := x2.data % 256, length := x2.data % 256,
             sum := ((0xAA + x1.data % 256) % 256 + x2.data % 256) % 256, i := 3,
             firstByte := 0xAA }
    (by simp) rfl (by simp [m2]) (by simp; omega) htp
  simp only [] at r1 r2 r3 r4 r5
  rw [r1, receive_check q _ xk rest wk ck (by rw [r2, r4]; simp [m2]; omega) r3]
  refine ⟨_, rfl, ?_, ?_, ?_⟩
  · simp [Nat.mod_eq_of_lt hk]
  · have hwl : (wire ps).length = ps.length := by simp [wire]
    show (q.run _ ps).sum = _
    rw [r5]
    simp only [checksum, m1, m2, hwl]
    omega
  · have hd := run_delivers q
      { s with data := x2.data % 256, length := x2.data % 256,
               sum := ((0xAA + x1.data % 256) % 256 + x2.data % 256) % 256, i := 3,
               firstByte := 0xAA } ps rfl rfl (by simp [m2]) hK hb (by simpa using hn)
    cases q <;> simpa [Delivers] using hd

/-- The frame lemma for a stream given by its bytes. -/
theorem receive_frame_wire (q : Query) (s : Locals) (fr rest : List RxByte) (p : List Nat)
    (k : Nat) (hs : s.i = 0) (ht : Timely fr)
    (hw : wire fr = 0xAA :: q.COMMAND :: p.length :: (p ++ [k]))
    (hlen : p.length ≤ 255) (hK : ∀ K, q.expected = some K → p.length = K)
    (hb : Bytes p) (hk : k < 256) (hn : q = .getFileName → s.name 0 = 0) :
    ∃ t, q.receive s (fr ++ rest) = .compare t rest ∧
      t.data = k ∧ t.sum = checksum q.COMMAND p ∧ Delivers q p t := by
  simp only [wire] at hw
  obtain ⟨x0, l0, rfl, h0, hw⟩ := List.map_eq_cons_iff.mp hw
  obtain ⟨x1, l1, rfl, h1, hw⟩ := List.map_eq_cons_iff.mp hw
  obtain ⟨x2, l2, rfl, h2, hw⟩ := List.map_eq_cons_iff.mp hw
  obtain ⟨ps, lk, rfl, hps, hw⟩ := List.map_eq_append_iff.mp hw
  obtain ⟨xk, l3, rfl, h3, hw⟩ := List.map_eq_cons_iff.mp hw
  have hnil : l3 = [] := by simpa using hw
  subst hnil
  have hps2 : wire ps = p := hps
  have hpl : ps.length = p.length := by rw [← hps]; simp
  subst hps2
  have := receive_frame q s x0 x1 x2 xk ps rest hs ht h0 h1 (by rw [h2]; simp [wire])
    (by omega) (fun K hq => by rw [hpl]; exact hK K hq) hb (by rw [h3]; exact hk) hn
  simpa [h3] using this

theorem entry_i (q : Query) (u : Uninit) (c : Caller) : (q.entry u c).i = 0 := rfl

theorem entry_name (q : Query) (u : Uninit) (c : Caller) (h : q = .getFileName) :
    (q.entry u c).name 0 = 0 := by
  subst h; simp [Query.entry, poke]

theorem wordToInt_small (intBits w : Nat) (h : w < 2 ^ (intBits - 1)) :
    wordToInt intBits w = (w : Int) := by
  have h2 : 2 ^ (intBits - 1) ≤ 2 ^ intBits := Nat.pow_le_pow_right (by omega) (by omega)
  have h3 : w % 2 ^ intBits = w := Nat.mod_eq_of_lt (by omega)
  simp [wordToInt, h3, h]

/-- After an accepted frame the operation returns the value of the payload,
provided an `int` return can hold it. -/
theorem returned_value (q : Query) (intBits : Nat) (p : List Nat) (t : Locals)
    (rest : List RxByte) (hd : Delivers q p t) (hok : t.data = t.sum)
    (hint : q.returnsInt = true → p.getD 0 0 * 256 + p.getD 1 0 < 2 ^ (intBits - 1)) :
    q.returned intBits (.compare t rest) = q.value p := by
  cases q <;> simp [Query.returnsInt] at hint <;>
    simp [Query.returned, Query.accepted, Query.value, Delivers, hok] at hd ⊢ <;>
    first | exact hd | (rw [hd]; exact wordToInt_small _ _ hint)

/-! ## Soundness of the loop -/

theorem receive_nil_ne (q : Query) (s t : Locals) (rest : List RxByte) :
    q.receive s [] ≠ .compare t rest := by
  simp [Query.receive]

theorem receive_cons_inv (q : Query) (s t : Locals) (x : RxByte) (xs rest : List RxByte)
    (h : q.receive s (x :: xs) = .compare t rest) : x.wait < 100 ∧ x.clock ≤ 500 := by
  simp only [Query.receive, RECEIVEBYTETIMEOUTMS, RECEIVEGLOBALTIMEOUTMS] at h
  by_cases hw : x.wait < 100
  · by_cases hc : x.clock > 500
    · simp [hw, hc] at h
    · exact ⟨hw, by omega⟩
  · simp [hw] at h

theorem timely_mk {x : RxByte} {xs : List RxByte} (h : x.wait < 100 ∧ x.clock ≤ 500)
    (hs : Timely xs) : Timely (x :: xs) := by
  intro y hy
  rcases List.mem_cons.mp hy with rfl | hy
  · simpa [RECEIVEBYTETIMEOUTMS, RECEIVEGLOBALTIMEOUTMS] using h
  · exact hs y hy

theorem timely_nil : Timely [] := fun _ h => by simp at h

/-- From inside the payload the comparison is reached only by reading the
rest of the payload and one more byte, all of them in time. -/
theorem payload_inv (q : Query) (t : Locals) (rest : List RxByte) :
    ∀ (m : Nat) (s : Locals) (ys : List RxByte), 3 ≤ s.i → s.firstByte = 0xAA →
      s.i - 3 + m = s.length → q.receive s ys = .compare t rest →
      ∃ ps xk, ys = ps ++ xk :: rest ∧ ps.length = m ∧ Timely (ps ++ [xk]) := by
  intro m
  induction m with
  | zero =>
    intro s ys hi hf hm h
    cases ys with
    | nil => exact absurd h (receive_nil_ne q s t rest)
    | cons x xs =>
      obtain ⟨hw, hc⟩ := receive_cons_inv q s t x xs rest h
      rw [receive_check q s x xs hw hc (by simp at hm; omega) hf] at h
      injection h with h1 h2
      subst h2
      exact ⟨[], x, rfl, rfl, timely_mk ⟨hw, hc⟩ timely_nil⟩
  | succ m ih =>
    intro s ys hi hf hm h
    cases ys with
    | nil => exact absurd h (receive_nil_ne q s t rest)
    | cons x xs =>
      obtain ⟨hw, hc⟩ := receive_cons_inv q s t x xs rest h
      simp only [Nat.cast_add, Nat.cast_one] at hm
      have hb := body_payload q s x.data hi (by omega) hf
      have e1 : (q.body s x.data).i = s.i + 1 := by rw [hb]
      have e2 : (q.body s x.data).firstByte = 0xAA := by rw [hb]; simpa using hf
      have e3 : (q.body s x.data).length = s.length := by rw [hb]; simp
      rw [receive_step q s x xs hw hc (by rw [e1, e3]; omega)] at h
      obtain ⟨ps, xk, r1, r2, r3⟩ := ih (q.body s x.data) xs (by omega) e2
        (by rw [e1, e3]; omega) h
      exact ⟨x :: ps, xk, by rw [r1]; rfl, by simp [r2], timely_mk ⟨hw, hc⟩ r3⟩

/-- Soundness from the seek state: when the loop reaches the comparison, the
bytes read last are a header for this query, a payload of the expected
size and the byte now in `data`; `sum` is the checksum of that frame and
the result variables hold that payload. -/
theorem receive_sound (q : Query) (N : Nat) (hq : q.expected = some N) (t : Locals)
    (rest : List RxByte) :
    ∀ (n : Nat) (xs : List RxByte) (s : Locals), xs.length ≤ n → s.i = 0 →
      Bytes (wire xs) → q.receive s xs = .compare t rest →
      ∃ pre fr p, xs = pre ++ fr ++ rest ∧
        wire fr = 0xAA :: q.COMMAND :: N :: (p ++ [t.data]) ∧ p.length = N ∧
        t.sum = checksum q.COMMAND p ∧ Delivers q p t := by
  have hN3 : N ≤ 3 := by cases q <;> simp [Query.expected] at hq <;> omega
  have hne : q ≠ .getFileName := by
    intro h; subst h; simp [Query.expected] at hq
  intro n
  induction n with
  | zero =>
    intro xs s hlen _ _ h
    have : xs = [] := List.length_eq_zero.mp (by omega)
    subst this
    exact absurd h (receive_nil_ne q s t rest)
  | succ n ih =>
    intro xs s hlen hs hb h
    -- first byte
    cases xs with
    | nil => exact absurd h (receive_nil_ne q s t rest)
    | cons x0 xs =>
    obtain ⟨w0, c0⟩ := receive_cons_inv q s t x0 xs rest h
    have horig := h
    have hb0 : x0.data < 256 := hb x0.data (by simp [wire])
    have hbs : Bytes (wire xs) := fun b hbm => hb b (by simp [wire] at hbm ⊢; exact Or.inr hbm)
    simp only [List.length_cons] at hlen
    by_cases h0 : x0.data % 256 = 0xAA
    swap
    · rw [receive_seek q s x0 xs w0 c0 hs h0] at h
      obtain ⟨pre, fr, p, r1, r2⟩ := ih xs
        { s with data := x0.data % 256, firstByte := x0.data % 256, sum := 0 }
        (by omega) hs hbs h
      exact ⟨x0 :: pre, fr, p, by rw [r1]; rfl, r2⟩
    rw [receive_start q s x0 xs w0 c0 hs h0] at h
    -- second byte
    cases xs with
    | nil => exact absurd h (receive_nil_ne q _ t rest)
    | cons x1 xs =>
    obtain ⟨w1, c1⟩ := receive_cons_inv q _ t x1 xs rest h
    have hb1 : x1.data < 256 := hb x1.data (by simp [wire])
    have hbs1 : Bytes (wire xs) :=
      fun b hbm => hbs b (by simp [wire] at hbm ⊢; exact Or.inr hbm)
    simp only [List.length_cons] at hlen
    by_cases h1 : x1.data % 256 = q.COMMAND
    swap
    · rw [receive_cmd_bad q _ x1 xs w1 c1 rfl h1] at h
      obtain ⟨pre, fr, p, r1, r2⟩ := ih xs _ (by omega) rfl hbs1 h
      exact ⟨x0 :: x1 :: pre, fr, p, by rw [r1]; rfl, r2⟩
    rw [receive_cmd_ok q _ x1 xs w1 c1 rfl rfl h1] at h
    -- third byte
    cases xs with
    | nil => exact absurd h (receive_nil_ne q _ t rest)
    | cons x2 xs =>
    obtain ⟨w2, c2⟩ := receive_cons_inv q _ t x2 xs rest h
    have hb2 : x2.data < 256 := hb x2.data (by simp [wire])
    have hbs2 : Bytes (wire xs) :=
      fun b hbm => hbs1 b (by simp [wire] at hbm ⊢; exact Or.inr hbm)
    simp only [List.length_cons] at hlen
    by_cases h2 : x2.data % 256 = N
    swap
    · rw [receive_len_bad q _ x2 xs N w2 c2 rfl hq h2] at h
      obtain ⟨pre, fr, p, r1, r2⟩ := ih xs _ (by omega) rfl hbs2 h
      exact ⟨x0 :: x1 :: x2 :: pre, fr, p, by rw [r1]; rfl, r2⟩
    have hK : ∀ K, q.expected = some K → x2.data % 256 = K := by
      intro K hK; rw [hq] at hK; rw [h2]; exact Option.some.inj hK
    have h' := h
    rw [receive_len_ok q _ x2 xs w2 c2 rfl rfl hK] at h'
    obtain ⟨ps, xk, r1, r2, r3⟩ := payload_inv q t rest N _ xs (by simp) rfl
      (by simp [h2]) h'
    subst r1
    have hbp : Bytes (wire ps) := fun b hbm => hbs2 b (by simp [wire] at hbm ⊢; exact Or.inl hbm)
    have hbk : xk.data < 256 := hbs2 xk.data (by simp [wire])
    have e0 : x0.data = 0xAA := by omega
    have e1 : x1.data = q.COMMAND := by omega
    have e2 : x2.data = N := by omega
    obtain ⟨t2, f1, f2, f3, f4⟩ := receive_frame q s x0 x1 x2 xk ps rest hs
      (timely_mk ⟨w0, c0⟩ (timely_mk ⟨w1, c1⟩ (timely_mk ⟨w2, c2⟩ r3)))
      e0 e1 (by rw [e2, r2]) (by omega)
      (fun K hK => by rw [hq] at hK; rw [r2]; exact Option.some.inj hK) hbp hbk
      (fun hq2 => absurd hq2 hne)
    rw [f1] at horig
    injection horig with g1 _
    subst g1
    refine ⟨[], x0 :: x1 :: x2 :: (ps ++ [xk]), wire ps, by simp, ?_, by simp [wire, r2], f3, f4⟩
    simp [wire, e0, e1, e2, f2]

/-! ## Noise before a frame -/

theorem receive_late (q : Query) (s : Locals) (x : RxByte) (xs : List RxByte)
    (h : ¬ (x.wait < 100 ∧ x.clock ≤ 500)) : (q.receive s (x :: xs)).timeout := by
  simp only [Query.receive, RECEIVEBYTETIMEOUTMS, RECEIVEGLOBALTIMEOUTMS]
  by_cases hw : x.wait < 100
  · have hc : x.clock > 500 := by
      by_contra hc; exact h ⟨hw, by omega⟩
    simp [hw, hc, Exit.timeout]
  · simp [hw, Exit.timeout]

theorem not_success_of_timeout {e : Exit} (h : e.timeout) : ¬ e.success := by
  cases e <;> simp [Exit.timeout, Exit.success] at h ⊢

theorem not_mismatch_of_timeout {e : Exit} (h : e.timeout) : ¬ e.mismatch := by
  cases e <;> simp [Exit.timeout, Exit.mismatch] at h ⊢

/-- In the seek state a stream without the start byte ends in a timeout. -/
theorem seek_timeout (q : Query) :
    ∀ (xs : List RxByte) (s : Locals), s.i = 0 → (∀ x ∈ xs, x.data % 256 ≠ 0xAA) →
      (q.receive s xs).timeout := by
  intro xs
  induction xs with
  | nil => intro s _ _; simp [Query.receive, Exit.timeout]
  | cons x xs ih =>
    intro s hs hx
    by_cases ht : x.wait < 100 ∧ x.clock ≤ 500
    · rw [receive_seek q s x xs ht.1 ht.2 hs (hx x (by simp))]
      exact ih _ hs (fun y hy => hx y (by simp [hy]))
    · exact receive_late q s x xs ht

/-- Timely bytes other than the start byte are skipped in the seek state:
the loop goes on in the seek state with the result variables untouched. -/
theorem seek_skip (q : Query) (rest : List RxByte) :
    ∀ (gs : List RxByte) (s : Locals), s.i = 0 → Timely gs →
      (∀ x ∈ gs, x.data % 256 ≠ 0xAA) →
      ∃ t, t.i = 0 ∧ t.name = s.name ∧ t.result = s.result ∧ t.hour = s.hour ∧
        t.minute = s.minute ∧ t.second = s.second ∧
        q.receive s (gs ++ rest) = q.receive t rest := by
  intro gs
  induction gs with
  | nil => intro s hs _ _; exact ⟨s, hs, rfl, rfl, rfl, rfl, rfl, rfl⟩
  | cons x xs ih =>
    intro s hs ht hx
    obtain ⟨⟨hw, hc⟩, ht2⟩ := timely_cons ht
    obtain ⟨t, r1, r2, r3, r4, r5, r6, r7⟩ := ih
      { s with data := x.data % 256, firstByte := x.data % 256, sum := 0 } hs ht2
      (fun y hy => hx y (by simp [hy]))
    refine ⟨t, r1, r2, r3, r4, r5, r6, ?_⟩
    rw [List.cons_append, receive_seek q s x _ hw hc hs (hx x (by simp)), r7]

/-! ## The loop from its entry state -/

theorem loop_frame (q : Query) (u : Uninit) (c : Caller) (fr rest : List RxByte)
    (p : List Nat) (k : Nat) (ht : Timely fr)
    (hw : wire fr = 0xAA :: q.COMMAND :: p.length :: (p ++ [k]))
    (hlen : p.length ≤ 255) (hK : ∀ K, q.expected = some K → p.length = K)
    (hb : Bytes p) (hk : k < 256) :
    ∃ t, q.loop u c (fr ++ rest) = .compare t rest ∧
      t.data = k ∧ t.sum = checksum q.COMMAND p ∧ Delivers q p t :=
  receive_frame_wire q (q.entry u c) fr rest p k (entry_i q u c) ht hw hlen hK hb hk
    (entry_name q u c)

theorem command_lt (q : Query) : q.COMMAND < 256 := by
  cases q <;> simp [Query.COMMAND]

theorem checksum_lt (c : Nat) (p : List Nat) : checksum c p < 256 := by
  unfold checksum; omega

/-! ## Replacing one byte of a payload -/

theorem sum_set (p : List Nat) (j v : Nat) (hj : j < p.length) :
    (p.set j v).sum + p.getD j 0 = p.sum + v := by
  induction p generalizing j with
  | nil => simp at hj
  | cons a t ih =>
    cases j with
    | zero => simp; omega
    | succ j =>
      have := ih j (by simpa using hj)
      simp only [List.set_cons_succ, List.sum_cons, List.getD_cons_succ]
      omega

theorem bytes_set (p : List Nat) (j v : Nat) (hp : Bytes p) (hv : v < 256) :
    Bytes (p.set j v) := by
  intro b hb
  rcases List.mem_or_eq_of_mem_set hb with h | h
  · exact hp b h
  · rw [h]; exact hv

/-! ## The loop up to a point -/

theorem advance_receive (q : Query) (rest : List RxByte) :
    ∀ (pre : List RxByte) (s t : Locals), q.advance s pre = some t →
      q.receive s (pre ++ rest) = q.receive t rest := by
  intro pre
  induction pre with
  | nil => intro s t h; simp [Query.advance] at h; subst h; rfl
  | cons x xs ih =>
    intro s t h
    simp only [Query.advance] at h
    split at h
    · rename_i hw
      split at h
      · exact absurd h (by simp)
      · rename_i hc
        split at h
        · rename_i hgo
          simp only [List.cons_append, Query.receive, hw, hc, hgo, if_true, if_false]
          exact ih _ _ h
        · exact absurd h (by simp)
    · exact absurd h (by simp)

theorem receive_silent (q : Query) (s : Locals) (rest : List RxByte) (h : Silent rest) :
    q.receive s rest = .byteTimeout s := by
  cases rest with
  | nil => rfl
  | cons x xs =>
    have hw : ¬ x.wait < RECEIVEBYTETIMEOUTMS := by
      simp only [Silent] at h; omega
    simp [Query.receive, hw]

theorem receive_over (q : Query) (s : Locals) (x : RxByte) (rest : List RxByte)
    (hw : x.wait < RECEIVEBYTETIMEOUTMS) (hc : RECEIVEGLOBALTIMEOUTMS < x.clock) :
    q.receive s (x :: rest) = .totalTimeout (q.body s x.data) := by
  simp [Query.receive, hw, hc]

theorem receive_unread_lt (q : Query) (t : Locals) (r : List RxByte) :
    ∀ (xs : List RxByte) (s : Locals), q.receive s xs = .compare t r → r.length < xs.length := by
  intro xs
  induction xs with
  | nil => intro s h; exact absurd h (receive_nil_ne q s t r)
  | cons x xs ih =>
    intro s h
    obtain ⟨hw, hc⟩ := receive_cons_inv q s t x xs r h
    by_cases hgo : (q.body s x.data).i < (q.body s x.data).length + 4
    · rw [receive_step q s x xs hw hc hgo] at h
      have := ih _ h
      simp only [List.length_cons]; omega
    · rw [receive_last q s x xs hw hc hgo] at h
      injection h with _ h2
      subst h2
      simp

theorem advance_of_compare (q : Query) (t : Locals) (x : RxByte) (rest : List RxByte) :
    ∀ (pre : List RxByte) (s : Locals), q.receive s (pre ++ x :: rest) = .compare t rest →
      ∃ t0, q.advance s pre = some t0 ∧ q.body t0 x.data = t := by
  intro pre
  induction pre with
  | nil =>
    intro s h
    simp only [List.nil_append] at h
    obtain ⟨hw, hc⟩ := receive_cons_inv q s t x rest rest h
    by_cases hgo : (q.body s x.data).i < (q.body s x.data).length + 4
    · rw [receive_step q s x rest hw hc hgo] at h
      have := receive_unread_lt q t rest rest _ h
      omega
    · rw [receive_last q s x rest hw hc hgo] at h
      injection h with h1 _
      exact ⟨s, rfl, h1⟩
  | cons y ys ih =>
    intro s h
    simp only [List.cons_append] at h
    obtain ⟨hw, hc⟩ := receive_cons_inv q s t y _ rest h
    by_cases hgo : (q.body s y.data).i < (q.body s y.data).length + 4
    · rw [receive_step q s y _ hw hc hgo] at h
      obtain ⟨t0, r1, r2⟩ := ih _ h
      refine ⟨t0, ?_, r2⟩
      have hw2 : y.wait < RECEIVEBYTETIMEOUTMS := hw
      have hc2 : ¬ y.clock > RECEIVEGLOBALTIMEOUTMS := by
        simp only [RECEIVEGLOBALTIMEOUTMS]; omega
      have hgo2 : (q.body s y.data).i < (q.body s y.data).length + RECEIVEHEADERLENGTH + 2 := by
        simp only [RECEIVEHEADERLENGTH]; omega
      simp only [Query.advance, hw2, hc2, hgo2, if_true, if_false]
      exact r1
    · rw [receive_last q s y _ hw hc hgo] at h
      injection h with _ h2
      have := congrArg List.length h2
      simp at this
      omega

theorem not_total_of_clock (q : Query) :
    ∀ (rx : List RxByte) (s : Locals), (∀ x ∈ rx, x.clock ≤ RECEIVEGLOBALTIMEOUTMS) →
      ¬ (q.receive s rx).byTotalLimit := by
  intro rx
  induction rx with
  | nil => intro s _; simp [Query.receive, Exit.byTotalLimit]
  | cons x xs ih =>
    intro s h
    have hc : ¬ x.clock > RECEIVEGLOBALTIMEOUTMS := by
      have := h x (by simp); omega
    by_cases hw : x.wait < RECEIVEBYTETIMEOUTMS
    · by_cases hgo : (q.body s x.data).i < (q.body s x.data).length + RECEIVEHEADERLENGTH + 2
      · simp only [Query.receive, hw, hc, hgo, if_true, if_false]
        exact ih _ (fun y hy => h y (by simp [hy]))
      · simp [Query.receive, hw, hc, hgo, Exit.byTotalLimit]
    · simp [Query.receive, hw, Exit.byTotalLimit]

theorem returned_byteTimeout (q : Query) (intBits : Nat) (s : Locals) :
    q.returned intBits (.byteTimeout s) = q.RECEIVEFAILED := rfl

theorem returned_totalTimeout (q : Query) (intBits : Nat) (s : Locals) :
    q.returned intBits (.totalTimeout s) = q.RECEIVEFAILED := rfl

/-! ## Frames of the commands -/

theorem frame_written (op : Nat) (p : List Nat) (dev : Device) (hop : op < 256)
    (hl : p.length ≤ 255) (hp : Bytes p) :
    (sendCheckSum (sendPayload p (sendDataByte p.length (sendDataByte op
      (sendStartingCode dev))))).written
      = dev.written ++ (0xAA :: op :: p.length :: (p ++ [checksum op p])) := by
  have h1 := sendPayload_written p (sendDataByte p.length (sendDataByte op (sendStartingCode dev)))
  have h2 := sendPayload_checksum p (sendDataByte p.length (sendDataByte op (sendStartingCode dev)))
  simp only [sendCheckSum, h1, h2, map_mod_of_bytes p hp]
  have e1 : op % 256 = op := Nat.mod_eq_of_lt hop
  have e2 : p.length % 256 = p.length := Nat.mod_eq_of_lt (by omega)
  simp only [sendDataByte, sendStartingCode, STARTINGCODE, checksum, e1, e2]
  simp

theorem selector_frame (op sel : Nat) (dev : Device) (hop : op < 256) (hs : sel < 256) :
    (sendCheckSum (sendDataByte sel (sendDataByte 0x01 (sendDataByte op
      (sendStartingCode dev))))).written
      = dev.written ++ [0xAA, op, 0x01, sel, (0xAA + op + 0x01 + sel) % 256] := by
  have e1 : op % 256 = op := Nat.mod_eq_of_lt hop
  have e2 : sel % 256 = sel := Nat.mod_eq_of_lt hs
  simp [sendCheckSum, sendDataByte, sendStartingCode, STARTINGCODE, e1, e2]

theorem path_frame (op drive : Nat) (path : List Nat) (dev : Device) (hop : op < 256)
    (hd : drive < 256) (hl : path.length ≤ 254) (hp : Bytes path) :
    (sendCheckSum (sendPayload path (sendDataByte drive (sendDataByte (path.length + 1)
      (sendDataByte op (sendStartingCode dev)))))).written
      = dev.written ++ (0xAA :: op :: (path.length + 1) :: drive
          :: (path ++ [(0xAA :: op :: (path.length + 1) :: drive :: path).sum % 256])) := by
  have hb : Bytes (drive :: path) := by
    intro b hb
    rcases List.mem_cons.mp hb with h | h
    · rw [h]; exact hd
    · exact hp b h
  have h := frame_written op (drive :: path) dev hop (by simp; omega) hb
  simp only [sendPayload, List.foldl_cons, List.length_cons] at h
  simp only [sendPayload]
  rw [h]
  simp [checksum]
  omega

theorem long_path_frame (path : List Nat) (drive : Nat) (dev : Device)
    (hd : drive < DRIVEUNKNOWN) (hl : path.length = 255) :
    ((playFileByName (some path) drive dev).written).getD (dev.written.length + 2) 7 = 0 ∧
    ((playFileByName (some path) drive dev).written).length
      = dev.written.length + (3 + 256 + 1) := by
  have e : drive % 256 = drive := Nat.mod_eq_of_lt (by simp only [DRIVEUNKNOWN] at hd; omega)
  have hd2 : ¬ drive ≥ DRIVEUNKNOWN := by omega
  simp only [playFileByName, e, hd2, if_false, sendCheckSum, sendPayload_written, sendDataByte,
    sendStartingCode, hl]
  constructor
  · simp only [List.append_assoc, List.singleton_append, List.cons_append, List.nil_append]
    rw [List.getD_eq_getElem?_getD, List.getElem?_append_right (by omega)]
    simp
  · simp [hl]

/-! ## Runs that differ in stale variables -/

theorem sameOutputs_refl (s : Locals) : s.sameOutputs s := ⟨rfl, rfl, rfl, rfl, rfl⟩

theorem agrees_refl (e : Exit) : e.agrees e := by
  cases e with
  | byteTimeout s => exact sameOutputs_refl s
  | totalTimeout s => exact sameOutputs_refl s
  | compare s r => exact ⟨sameOutputs_refl s, rfl, rfl, rfl⟩

theorem returned_agrees (q : Query) (intBits : Nat) {e f : Exit} (h : e.agrees f) :
    q.returned intBits e = q.returned intBits f := by
  cases e <;> cases f <;> simp only [Exit.agrees] at h <;> try rfl
  rename_i s r t r2
  obtain ⟨⟨h1, _⟩, h2, h3, _⟩ := h
  cases q <;> simp [Query.returned, Query.accepted, h1, h2, h3]

/-- One step of the loop body keeps two alike sets of variables alike, or
makes them equal. -/
theorem body_alike (q : Query) (s t : Locals) (b : Nat) (h : s.alike t) :
    ((q.body s b).alike (q.body t b)) ∨ q.body s b = q.body t b := by
  obtain ⟨hi, h0, h2, ho, hf⟩ := h
  have hcases : s.i = 0 ∨ s.i = 1 ∨ s.i = 2 := by omega
  rcases hcases with e | e | e
  · have et : t.i = 0 := by omega
    by_cases hb : b % 256 = 0xAA
    · left
      rw [body_start q s b e hb, body_start q t b et hb]
      exact ⟨rfl, by simp, by simp, ho, fun _ => ⟨rfl, rfl, rfl⟩⟩
    · left
      rw [body_seek q s b e hb, body_seek q t b et hb]
      refine ⟨by simp [e, et], by simp [e], by simp [e], ho, fun hne => ?_⟩
      exact absurd e hne
  · have et : t.i = 1 := by omega
    obtain ⟨f1, f2, f3⟩ := hf (by omega)
    by_cases hb : b % 256 = q.COMMAND
    · left
      rw [body_cmd_ok q s b e f1 hb, body_cmd_ok q t b et f2 hb]
      exact ⟨rfl, by simp, by simp, ho, fun _ => ⟨f1, f2, by simp [f3]⟩⟩
    · left
      rw [body_cmd_bad q s b e hb, body_cmd_bad q t b et hb]
      exact ⟨rfl, by simp, by simp, ho, fun hne => absurd rfl hne⟩
  · have et : t.i = 2 := by omega
    obtain ⟨f1, f2, f3⟩ := hf (by omega)
    by_cases hK : ∀ K, q.expected = some K → b % 256 = K
    · right
      rw [body_len_ok q s b e f1 hK, body_len_ok q t b et f2 hK]
      obtain ⟨o1, o2, o3, o4, o5⟩ := ho
      cases s; cases t
      simp only [] at o1 o2 o3 o4 o5 f1 f2 f3
      simp [o1, o2, o3, o4, o5, f1, f2, f3]
    · left
      obtain ⟨K, hq, hne⟩ : ∃ K, q.expected = some K ∧ b % 256 ≠ K := by
        by_contra hcon
        exact hK (fun K hq => by
          by_contra hne
          exact hcon ⟨K, hq, hne⟩)
      rw [body_len_bad q s b K e hq hne, body_len_bad q t b K et hq hne]
      exact ⟨rfl, by simp, by simp, ho, fun hne2 => absurd rfl hne2⟩

theorem alike_outputs {s t : Locals} (h : s.alike t) : s.sameOutputs t := h.2.2.2.1

/-- Two alike sets of variables give the same outcome on every stream. -/
theorem receive_alike (q : Query) :
    ∀ (xs : List RxByte) (s t : Locals), s.alike t →
      (q.receive s xs).agrees (q.receive t xs) := by
  intro xs
  induction xs with
  | nil => intro s t h; exact alike_outputs h
  | cons x xs ih =>
    intro s t h
    by_cases hw : x.wait < RECEIVEBYTETIMEOUTMS
    swap
    · simp only [Query.receive, hw, if_false]
      exact alike_outputs h
    rcases body_alike q s t x.data h with ha | he
    · by_cases hc : x.clock > RECEIVEGLOBALTIMEOUTMS
      · simp only [Query.receive, hw, hc, if_true]
        exact alike_outputs ha
      · have g1 : (q.body s x.data).i < (q.body s x.data).length + RECEIVEHEADERLENGTH + 2 := by
          have := ha.2.2.1
          simp only [RECEIVEHEADERLENGTH]; omega
        have g2 : (q.body t x.data).i < (q.body t x.data).length + RECEIVEHEADERLENGTH + 2 := by
          have := ha.2.2.1
          have := ha.1
          simp only [RECEIVEHEADERLENGTH]; omega
        simp only [Query.receive, hw, hc, g1, g2, if_true, if_false]
        exact ih _ _ ha
    · simp only [Query.receive, he, hw, if_true]
      exact agrees_refl _

/-- Timely bytes other than the start byte leave the loop running in the
seek state with the objects of the caller untouched. -/
theorem seek_advance (q : Query) :
    ∀ (gs : List RxByte) (s : Locals), s.i = 0 → Timely gs →
      (∀ x ∈ gs, x.data % 256 ≠ 0xAA) →
      ∃ t, q.advance s gs = some t ∧ t.i = 0 ∧ t.sameOutputs s := by
  intro gs
  induction gs with
  | nil => intro s hs _ _; exact ⟨s, rfl, hs, sameOutputs_refl s⟩
  | cons x xs ih =>
    intro s hs ht hx
    obtain ⟨⟨hw, hc⟩, ht2⟩ := timely_cons ht
    have hb := body_seek q s x.data hs (hx x (by simp))
    obtain ⟨t, r1, r2, r3⟩ := ih (q.body s x.data) (by rw [hb]; exact hs) ht2
      (fun y hy => hx y (by simp [hy]))
    refine ⟨t, ?_, r2, ?_⟩
    · have hw2 : x.wait < RECEIVEBYTETIMEOUTMS := hw
      have hc2 : ¬ x.clock > RECEIVEGLOBALTIMEOUTMS := by
        simp only [RECEIVEGLOBALTIMEOUTMS]; omega
      have hgo : (q.body s x.data).i < (q.body s x.data).length + RECEIVEHEADERLENGTH + 2 := by
        rw [hb]; simp only [RECEIVEHEADERLENGTH, hs]; omega
      simp only [Query.advance, hw2, hc2, hgo, if_true, if_false]
      exact r1
    · rw [hb] at r3
      exact r3

theorem alike_seek {s t : Locals} (hs : s.i = 0) (ht : t.i = 0) (ho : s.sameOutputs t) :
    s.alike t :=
  ⟨by rw [hs, ht], by omega, by omega, ho, fun h => absurd hs h⟩

theorem body_sum_seek (q : Query) (s t : Locals) (b : Nat) (hs : s.i = 0) (ht : t.i = 0) :
    (q.body s b).sum = (q.body t b).sum := by
  by_cases hb : b % 256 = 0xAA
  · rw [body_start q s b hs hb, body_start q t b ht hb]
  · rw [body_seek q s b hs hb, body_seek q t b ht hb]

theorem command_ne_start (q : Query) : q.COMMAND ≠ 0xAA := by
  cases q <;> simp [Query.COMMAND]

/-! ## The comparison ends the loop -/

theorem success_of_agrees {e f : Exit} (h : e.agrees f) : e.success ↔ f.success := by
  revert h
  cases e <;> cases f <;> simp [Exit.agrees, Exit.success]
  intro _ h1 h2 _
  rw [h1, h2]

theorem receive_append_compare (q : Query) (t : Locals) (r more : List RxByte) :
    ∀ (xs : List RxByte) (s : Locals), q.receive s xs = .compare t r →
      q.receive s (xs ++ more) = .compare t (r ++ more) := by
  intro xs
  induction xs with
  | nil => intro s h; exact absurd h (receive_nil_ne q s t r)
  | cons x xs ih =>
    intro s h
    obtain ⟨hw, hc⟩ := receive_cons_inv q s t x xs r h
    by_cases hgo : (q.body s x.data).i < (q.body s x.data).length + 4
    · rw [receive_step q s x xs hw hc hgo] at h
      rw [List.cons_append, receive_step q s x _ hw hc hgo]
      exact ih _ h
    · rw [receive_last q s x xs hw hc hgo] at h
      rw [List.cons_append, receive_last q s x _ hw hc hgo]
      injection h with h1 h2
      rw [h1, h2]

theorem compare_of_not_timeout {e : Exit} (h : ¬ e.timeout) :
    e = .compare e.locals e.unread := by
  cases e <;> simp [Exit.timeout, Exit.locals, Exit.unread] at h ⊢

theorem compare_i_ge (q : Query) (t : Locals) (r : List RxByte) :
    ∀ (xs : List RxByte) (s : Locals), q.receive s xs = .compare t r →
      (t.length : Int) + 4 ≤ t.i := by
  intro xs
  induction xs with
  | nil => intro s h; exact absurd h (receive_nil_ne q s t r)
  | cons x xs ih =>
    intro s h
    obtain ⟨hw, hc⟩ := receive_cons_inv q s t x xs r h
    by_cases hgo : (q.body s x.data).i < (q.body s x.data).length + 4
    · rw [receive_step q s x xs hw hc hgo] at h
      exact ih _ h
    · rw [receive_last q s x xs hw hc hgo] at h
      injection h with h1 _
      rw [← h1]; omega

theorem entry_alike (q : Query) (u1 u2 : Uninit) (c : Caller) :
    (q.entry u1 c).alike (q.entry u2 c) :=
  alike_seek (entry_i q u1 c) (entry_i q u2 c) ⟨rfl, rfl, rfl, rfl, rfl⟩

theorem request_written (q : Query) (dev : Device) :
    (q.request dev).written
      = dev.written ++ (if q = .getRuntime then []
          else [0xAA, q.COMMAND, 0x00, (0xAA + q.COMMAND + 0x00) % 256]) ∧
    (q ≠ .getRuntime → (q.request dev).m_checksum = (0xAA + q.COMMAND) % 256) := by
  cases q <;>
    simp [Query.request, Query.COMMAND, sendCheckSum, sendDataByte, sendStartingCode,
      STARTINGCODE]

/-! ## A stream that holds one corrupted frame -/

/-- On a stream of exactly `N + 4` bytes the comparison is reached only when
the whole stream is a frame for the query. -/
theorem only_frame_compare (q : Query) (N : Nat) (u : Uninit) (c : Caller) (rx : List RxByte)
    (t : Locals) (rest : List RxByte) (hq : q.expected = some N) (hlen : rx.length = N + 4)
    (hb : Bytes (wire rx)) (h : q.loop u c rx = .compare t rest) :
    ∃ p, wire rx = 0xAA :: q.COMMAND :: N :: (p ++ [t.data]) ∧ p.length = N ∧
      t.sum = checksum q.COMMAND p ∧ rest = [] := by
  obtain ⟨pre, fr, p, r1, r2, r3, r4, _⟩ := receive_sound q N hq t rest rx.length rx
    (q.entry u c) (le_refl _) (entry_i q u c) hb h
  have hfl : fr.length = N + 4 := by
    have := congrArg List.length r2
    simp [wire] at this
    omega
  have hl := congrArg List.length r1
  simp only [List.length_append] at hl
  have hpre : pre = [] := List.length_eq_zero.mp (by omega)
  have hrest : rest = [] := List.length_eq_zero.mp (by omega)
  subst hpre hrest
  refine ⟨p, ?_, r3, r4, rfl⟩
  rw [r1]; simpa using r2

theorem bytes_frame (c : Nat) (p : List Nat) (hc : c < 256) (hl : p.length ≤ 255)
    (hp : Bytes p) : Bytes (0xAA :: c :: p.length :: (p ++ [checksum c p])) := by
  intro b hb
  simp only [List.mem_cons, List.mem_append, List.mem_singleton, List.not_mem_nil,
    or_false] at hb
  rcases hb with h | h | h | h | h
  · rw [h]; decide
  · rw [h]; exact hc
  · rw [h]; omega
  · exact hp b h
  · rw [h]; exact checksum_lt _ _

/-- One byte of a frame replaced by a different byte value: a stream that
holds only that frame never ends at a successful comparison, with any
timing; a change in the header keeps the loop from reaching the comparison
at all. -/
theorem corrupted_frame (q : Query) (N : Nat) (u : Uninit) (c : Caller) (p : List Nat)
    (j v : Nat) (rx : List RxByte) (hq : q.expected = some N) (hN : p.length = N)
    (hb : Bytes p) (hj : j < N + 4) (hv : v < 256)
    (hne : (0xAA :: q.COMMAND :: p.length :: (p ++ [checksum q.COMMAND p])).getD j 0 ≠ v)
    (hw : wire rx = (0xAA :: q.COMMAND :: p.length :: (p ++ [checksum q.COMMAND p])).set j v) :
    ¬ (q.loop u c rx).success ∧ (j < 3 → (q.loop u c rx).timeout) := by
  have hN3 : N ≤ 3 := by cases q <;> simp [Query.expected] at hq <;> omega
  have hbw : Bytes (wire rx) := by
    rw [hw]
    exact bytes_set _ j v (bytes_frame q.COMMAND p (command_lt q) (by omega) hb) hv
  have hlen : rx.length = N + 4 := by
    have := congrArg List.length hw
    simp [wire] at this
    omega
  have key : ∀ t rest, q.loop u c rx = .compare t rest → 3 ≤ j ∧ t.data ≠ t.sum := by
    intro t rest h
    obtain ⟨p2, r1, r2, r3, _⟩ := only_frame_compare q N u c rx t rest hq hlen hbw h
    rw [hw] at r1
    rcases j with _ | _ | _ | i
    · simp at r1 hne
      exact absurd r1.1.symm hne
    · simp at r1 hne
      exact absurd r1.1.symm hne
    · simp at r1 hne
      omega
    · refine ⟨by omega, ?_⟩
      simp only [List.set_cons_succ, List.cons.injEq, true_and, List.getD_cons_succ] at r1 hne
      obtain ⟨_, r1⟩ := r1
      by_cases hi : i < p.length
      · rw [List.set_append_left i v hi] at r1
        have hg : (p ++ [checksum q.COMMAND p]).getD i 0 = p.getD i 0 := by
          simp [List.getD_eq_getElem?_getD, List.getElem?_append_left hi]
        rw [hg] at hne
        have hpl : (p.set i v).length = p2.length := by simp; omega
        obtain ⟨e1, e2⟩ := List.append_inj r1 hpl
        have e3 : checksum q.COMMAND p = t.data := by simpa using e2
        rw [← e3, r3, ← e1]
        have hs := sum_set p i v hi
        have ho := bytes_getD p hb i
        simp only [checksum, List.length_set]
        omega
      · have hi2 : i = p.length := by omega
        subst hi2
        rw [List.set_append_right _ _ (le_refl _)] at r1
        have hg : (p ++ [checksum q.COMMAND p]).getD p.length 0 = checksum q.COMMAND p := by
          simp [List.getD_eq_getElem?_getD]
        rw [hg] at hne
        have hpl : p.length = p2.length := by omega
        obtain ⟨e1, e2⟩ := List.append_inj r1 hpl
        have e3 : v = t.data := by simpa using e2
        rw [← e3, r3, ← e1]
        exact fun h => hne h.symm
  constructor
  · cases h : q.loop u c rx with
    | byteTimeout s => simp [Exit.success]
    | totalTimeout s => simp [Exit.success]
    | compare t rest => exact (key t rest h).2
  · intro hj3
    cases h : q.loop u c rx with
    | byteTimeout s => trivial
    | totalTimeout s => trivial
    | compare t rest =>
      have := (key t rest h).1
      omega

theorem byte_limit_of_timely (q : Query) (u : Uninit) (c : Caller) (rx : List RxByte)
    (ht : Timely rx) (h : (q.loop u c rx).timeout) : (q.loop u c rx).byByteLimit := by
  have hn := not_total_of_clock q rx (q.entry u c) (fun x hx => (ht x hx).2)
  revert h hn
  unfold Query.loop
  cases q.receive (q.entry u c) rx <;> simp [Exit.timeout, Exit.byByteLimit, Exit.byTotalLimit]

/-- A payload byte or the checksum byte of a frame replaced by a different
byte value: the timely stream ends at the comparison, which fails. -/
theorem tail_corrupted (q : Query) (u : Uninit) (c : Caller) (p : List Nat) (i v : Nat)
    (rx : List RxByte) (hlen : p.length ≤ 255) (hb : Bytes p)
    (hK : ∀ K, q.expected = some K → p.length = K) (hi : i ≤ p.length) (hv : v < 256)
    (hne : (p ++ [checksum q.COMMAND p]).getD i 0 ≠ v) (ht : Timely rx)
    (hw : wire rx = 0xAA :: q.COMMAND :: p.length :: ((p ++ [checksum q.COMMAND p]).set i v)) :
    (q.loop u c rx).mismatch := by
  by_cases hi2 : i < p.length
  · rw [List.set_append_left i v hi2] at hw
    have hg : (p ++ [checksum q.COMMAND p]).getD i 0 = p.getD i 0 := by
      simp [List.getD_eq_getElem?_getD, List.getElem?_append_left hi2]
    rw [hg] at hne
    have hw2 : wire rx = 0xAA :: q.COMMAND :: (p.set i v).length
        :: (p.set i v ++ [checksum q.COMMAND p]) := by rw [hw]; simp
    obtain ⟨t, h1, h2, h3, _⟩ := loop_frame q u c rx [] (p.set i v) (checksum q.COMMAND p) ht
      hw2 (by simpa using hlen) (by simpa using hK) (bytes_set p i v hb hv) (checksum_lt _ _)
    rw [List.append_nil] at h1
    rw [h1]
    show t.data ≠ t.sum
    rw [h2, h3]
    have hs := sum_set p i v hi2
    have ho := bytes_getD p hb i
    simp only [checksum, List.length_set]
    omega
  · have hi3 : i = p.length := by omega
    subst hi3
    rw [List.set_append_right _ _ (le_refl _)] at hw
    have hg : (p ++ [checksum q.COMMAND p]).getD p.length 0 = checksum q.COMMAND p := by
      simp [List.getD_eq_getElem?_getD]
    rw [hg] at hne
    have hw2 : wire rx = 0xAA :: q.COMMAND :: p.length :: (p ++ [v]) := by rw [hw]; simp
    obtain ⟨t, h1, h2, h3, _⟩ := loop_frame q u c rx [] p v ht hw2 hlen hK hb hv
    rw [List.append_nil] at h1
    rw [h1]
    show t.data ≠ t.sum
    rw [h2, h3]
    exact fun h => hne h.symm

/-! ## The reference parameters of getDuration and getRuntime -/

/-- One step of the body: while at most three bytes of a frame attempt are
accepted, `hour`, `minute` and `second` hold the values `h`, `m`, `s` they
had before. -/
theorem body_keeps_time (q : Query) (hq : q.expected = some 3) (h m s : Nat) (t : Locals)
    (b : Nat) (h0 : 0 ≤ t.i)
    (h1 : t.i ≤ 3 → t.hour = h ∧ t.minute = m ∧ t.second = s)
    (h2 : 1 ≤ t.i → t.firstByte = 0xAA) (h3 : 3 ≤ t.i → t.length = 3 ∧ t.i ≤ 6) :
    0 ≤ (q.body t b).i ∧
    ((q.body t b).i ≤ 3 → (q.body t b).hour = h ∧ (q.body t b).minute = m ∧
      (q.body t b).second = s) ∧
    (1 ≤ (q.body t b).i → (q.body t b).firstByte = 0xAA) ∧
    (3 ≤ (q.body t b).i → (q.body t b).length = 3 ∧ (q.body t b).i ≤ 7) := by
  by_cases e0 : t.i = 0
  · by_cases hb : b % 256 = 0xAA
    · rw [body_start q t b e0 hb]
      exact ⟨by simp, fun _ => h1 (by omega), fun _ => rfl, fun h => absurd h (by simp)⟩
    · rw [body_seek q t b e0 hb]
      refine ⟨by simp [e0], fun _ => h1 (by omega), fun h => ?_, fun h => ?_⟩
      · simp [e0] at h
      · simp [e0] at h
  by_cases e1 : t.i = 1
  · by_cases hb : b % 256 = q.COMMAND
    · rw [body_cmd_ok q t b e1 (h2 (by omega)) hb]
      exact ⟨by simp, fun _ => h1 (by omega), fun _ => h2 (by omega),
        fun h => absurd h (by simp)⟩
    · rw [body_cmd_bad q t b e1 hb]
      exact ⟨by simp, fun _ => h1 (by omega), fun h => absurd h (by simp),
        fun h => absurd h (by simp)⟩
  by_cases e2 : t.i = 2
  · by_cases hb : b % 256 = 3
    · rw [body_len_ok q t b e2 (h2 (by omega))
        (fun K hK => by rw [hq] at hK; rw [hb]; exact Option.some.inj hK)]
      exact ⟨by simp, fun _ => h1 (by omega), fun _ => h2 (by omega),
        fun _ => ⟨hb, by simp⟩⟩
    · rw [body_len_bad q t b 3 e2 hq hb]
      exact ⟨by simp, fun _ => h1 (by omega), fun h => absurd h (by simp),
        fun h => absurd h (by simp)⟩
  have e3 : 3 ≤ t.i := by omega
  obtain ⟨hl, h6⟩ := h3 e3
  by_cases e6 : t.i = 6
  · rw [body_check q t b (by rw [hl, e6]; rfl) (h2 (by omega))]
    refine ⟨by simp; omega, fun h => ?_, fun _ => h2 (by omega), fun _ => ⟨hl, by simp; omega⟩⟩
    simp at h; omega
  · rw [body_payload q t b e3 (by rw [hl]; omega) (h2 (by omega))]
    refine ⟨by simp; omega, fun h => ?_, fun _ => ?_, fun _ => ⟨?_, by simp; omega⟩⟩
    · simp at h; omega
    · simpa using h2 (by omega)
    · simpa using hl

/-- Along the loop: when it ends with at most three bytes of a frame attempt
accepted, `hour`, `minute` and `second` hold the values they had before. -/
theorem receive_keeps_time (q : Query) (hq : q.expected = some 3) (h m s : Nat) :
    ∀ (xs : List RxByte) (t : Locals), 0 ≤ t.i →
      (t.i ≤ 3 → t.hour = h ∧ t.minute = m ∧ t.second = s) →
      (1 ≤ t.i → t.firstByte = 0xAA) → (3 ≤ t.i → t.length = 3 ∧ t.i ≤ 6) →
      (q.receive t xs).locals.i ≤ 3 →
      (q.receive t xs).locals.hour = h ∧ (q.receive t xs).locals.minute = m ∧
      (q.receive t xs).locals.second = s := by
  intro xs
  induction xs with
  | nil => intro t _ h1 _ _ hi; exact h1 hi
  | cons x xs ih =>
    intro t h0 h1 h2 h3
    obtain ⟨b0, b1, b2, b3⟩ := body_keeps_time q hq h m s t x.data h0 h1 h2 h3
    by_cases hw : x.wait < RECEIVEBYTETIMEOUTMS
    swap
    · simp only [Query.receive, hw, if_false]
      exact h1
    by_cases hc : x.clock > RECEIVEGLOBALTIMEOUTMS
    · simp only [Query.receive, hw, hc, if_true]
      exact b1
    by_cases hgo : (q.body t x.data).i < (q.body t x.data).length + RECEIVEHEADERLENGTH + 2
    · simp only [Query.receive, hw, hc, hgo, if_true, if_false]
      refine ih _ b0 b1 b2 (fun h => ?_)
      obtain ⟨hl, _⟩ := b3 h
      refine ⟨hl, ?_⟩
      rw [hl] at hgo
      simp only [RECEIVEHEADERLENGTH] at hgo
      omega
    · simp only [Query.receive, hw, hc, hgo, if_true, if_false]
      exact b1

theorem expected_three (q : Query) (hq : q = .getDuration ∨ q = .getRuntime) :
    q.expected = some 3 := by
  rcases hq with h | h <;> subst h <;> rfl

theorem failed_false (q : Query) (hq : q = .getDuration ∨ q = .getRuntime) :
    q.RECEIVEFAILED = .bool false := by
  rcases hq with h | h <;> subst h <;> rfl

/-- The loop after a timely header `[0xAA, COMMAND, 3]` and `ps`, at most three
timely payload bytes. -/
theorem receive_time_payload (q : Query) (hq : q.expected = some 3) (s : Locals)
    (x0 x1 x2 : RxByte) (ps rest : List RxByte) (hs : s.i = 0)
    (ht : Timely (x0 :: x1 :: x2 :: ps)) (h0 : x0.data = 0xAA) (h1 : x1.data = q.COMMAND)
    (h2 : x2.data = 3) (hl : ps.length ≤ 3) :
    q.receive s (x0 :: x1 :: x2 :: (ps ++ rest))
      = q.receive (q.run { s with
          data := 3, length := 3, sum := ((0xAA + q.COMMAND) % 256 + 3) % 256, i := 3,
          firstByte := 0xAA } ps) rest := by
  obtain ⟨⟨w0, c0⟩, ht⟩ := timely_cons ht
  obtain ⟨⟨w1, c1⟩, ht⟩ := timely_cons ht
  obtain ⟨⟨w2, c2⟩, ht⟩ := timely_cons ht
  have m1 : x1.data % 256 = q.COMMAND := by rw [h1]; exact Nat.mod_eq_of_lt (command_lt q)
  have m2 : x2.data % 256 = 3 := by rw [h2]
  rw [receive_start q s x0 _ w0 c0 hs (by rw [h0]), receive_cmd_ok q _ x1 _ w1 c1 rfl rfl m1,
    receive_len_ok q _ x2 _ w2 c2 rfl rfl
      (fun K hK => by rw [hq] at hK; rw [m2]; exact Option.some.inj hK)]
  simp only [m1, m2]
  exact (receive_payload q rest ps _ (by simp) rfl (by simp; omega) (by simp; omega) ht).1

theorem run_first_time (q : Query) (hq : q = .getDuration ∨ q = .getRuntime) (s : Locals)
    (y : RxByte) (hi : s.i = 3) (hf : s.firstByte = 0xAA) (hl : s.length = 3) :
    (q.run s [y]).hour = y.data % 256 ∧ (q.run s [y]).minute = s.minute ∧
    (q.run s [y]).second = s.second ∧ (q.run s [y]).i = 4 := by
  have hb := body_payload q s y.data (by omega) (by omega) hf
  simp only [Query.run, List.foldl_cons, List.foldl_nil, hb]
  rcases hq with h | h <;> subst h <;> simp [Query.store, hi, RECEIVEHEADERLENGTH]

/-- One step of the loop of `getDuration` or `getRuntime` from a state with
three or more bytes of a frame attempt accepted: which of `hour`, `minute`,
`second` is written. -/
theorem body_writes_time (q : Query) (hq : q = .getDuration ∨ q = .getRuntime) (t : Locals)
    (b : Nat) (hf : t.firstByte = 0xAA) (hl : t.length = 3) :
    (t.i = 3 → (q.body t b).i = 4 ∧ (q.body t b).hour = b % 256) ∧
    (t.i = 4 → (q.body t b).i = 5 ∧ (q.body t b).hour = t.hour ∧
      (q.body t b).minute = b % 256) ∧
    (t.i = 5 → (q.body t b).i = 6 ∧ (q.body t b).hour = t.hour ∧
      (q.body t b).minute = t.minute ∧ (q.body t b).second = b % 256) ∧
    (t.i = 6 → (q.body t b).i = 7 ∧ (q.body t b).hour = t.hour ∧
      (q.body t b).minute = t.minute ∧ (q.body t b).second = t.second) := by
  refine ⟨fun hi => ?_, fun hi => ?_, fun hi => ?_, fun hi => ?_⟩
  · rw [body_payload q t b (by omega) (by omega) hf]
    rcases hq with h | h <;> subst h <;> simp [Query.store, hi, RECEIVEHEADERLENGTH]
  · rw [body_payload q t b (by omega) (by omega) hf]
    rcases hq with h | h <;> subst h <;> simp [Query.store, hi, RECEIVEHEADERLENGTH]
  · rw [body_payload q t b (by omega) (by omega) hf]
    rcases hq with h | h <;> subst h <;> simp [Query.store, hi, RECEIVEHEADERLENGTH]
  · rw [body_check q t b (by rw [hl, hi]; rfl) hf]
    simp [hi]

/-- Along the loop of `getDuration` or `getRuntime`: when it ends with four
bytes of a frame attempt accepted `hour` holds a received byte, with five
also `minute`, with six also `second` (or a value that satisfied `P` before,
when the loop was entered in the payload). -/
theorem receive_writes_time (q : Query) (hq : q = .getDuration ∨ q = .getRuntime) :
    ∀ (xs : List RxByte) (t : Locals) (P : Nat → Prop), 0 ≤ t.i →
      (1 ≤ t.i → t.firstByte = 0xAA) → (3 ≤ t.i → t.length = 3 ∧ t.i ≤ 6) →
      (4 ≤ t.i → P t.hour) → (5 ≤ t.i → P t.minute) → (6 ≤ t.i → P t.second) →
      (4 ≤ (q.receive t xs).locals.i →
        P (q.receive t xs).locals.hour ∨
          ∃ y, y ∈ xs ∧ (q.receive t xs).locals.hour = y.data % 256) ∧
      (5 ≤ (q.receive t xs).locals.i →
        P (q.receive t xs).locals.minute ∨
          ∃ y, y ∈ xs ∧ (q.receive t xs).locals.minute = y.data % 256) ∧
      (6 ≤ (q.receive t xs).locals.i →
        P (q.receive t xs).locals.second ∨
          ∃ y, y ∈ xs ∧ (q.receive t xs).locals.second = y.data % 256) := by
  intro xs
  induction xs with
  | nil =>
    intro t P _ _ _ p4 p5 p6
    exact ⟨fun h => Or.inl (p4 h), fun h => Or.inl (p5 h), fun h => Or.inl (p6 h)⟩
  | cons x xs ih =>
    intro t P h0 h2 h3 p4 p5 p6
    have hx := expected_three q hq
    obtain ⟨b0, _, b2, b3⟩ :=
      body_keeps_time q hx t.hour t.minute t.second t x.data h0 (fun _ => ⟨rfl, rfl, rfl⟩) h2 h3
    -- the state after the body
    have key : (4 ≤ (q.body t x.data).i →
          P (q.body t x.data).hour ∨ (q.body t x.data).hour = x.data % 256) ∧
        (5 ≤ (q.body t x.data).i →
          P (q.body t x.data).minute ∨ (q.body t x.data).minute = x.data % 256) ∧
        (6 ≤ (q.body t x.data).i →
          P (q.body t x.data).second ∨ (q.body t x.data).second = x.data % 256) := by
      by_cases e3 : 3 ≤ t.i
      · obtain ⟨hl, h6⟩ := h3 e3
        obtain ⟨w3, w4, w5, w6⟩ := body_writes_time q hq t x.data (h2 (by omega)) hl
        have hc : t.i = 3 ∨ t.i = 4 ∨ t.i = 5 ∨ t.i = 6 := by omega
        rcases hc with e | e | e | e
        · obtain ⟨a, b⟩ := w3 e
          exact ⟨fun _ => Or.inr b, fun h => by omega, fun h => by omega⟩
        · obtain ⟨a, b, c⟩ := w4 e
          exact ⟨fun _ => Or.inl (b ▸ p4 (by omega)), fun _ => Or.inr c, fun h => by omega⟩
        · obtain ⟨a, b, c, d⟩ := w5 e
          exact ⟨fun _ => Or.inl (b ▸ p4 (by omega)), fun _ => Or.inl (c ▸ p5 (by omega)),
            fun _ => Or.inr d⟩
        · obtain ⟨a, b, c, d⟩ := w6 e
          exact ⟨fun _ => Or.inl (b ▸ p4 (by omega)), fun _ => Or.inl (c ▸ p5 (by omega)),
            fun _ => Or.inl (d ▸ p6 (by omega))⟩
      · have hle : (q.body t x.data).i ≤ 3 := by
          by_cases e0 : t.i = 0
          · by_cases hb : x.data % 256 = 0xAA
            · rw [body_start q t x.data e0 hb]; simp
            · rw [body_seek q t x.data e0 hb]; simp [e0]
          by_cases e1 : t.i = 1
          · by_cases hb : x.data % 256 = q.COMMAND
            · rw [body_cmd_ok q t x.data e1 (h2 (by omega)) hb]; simp
            · rw [body_cmd_bad q t x.data e1 hb]; simp
          have e2 : t.i = 2 := by omega
          by_cases hb : x.data % 256 = 3
          · rw [body_len_ok q t x.data e2 (h2 (by omega))
              (fun K hK => by rw [hx] at hK; rw [hb]; exact Option.some.inj hK)]
          · rw [body_len_bad q t x.data 3 e2 hx hb]; simp
        exact ⟨fun h => by omega, fun h => by omega, fun h => by omega⟩
    have lift : ∀ v : Nat, (P v ∨ v = x.data % 256) → P v ∨ ∃ y, y ∈ x :: xs ∧ v = y.data % 256 := by
      intro v h
      rcases h with h | h
      · exact Or.inl h
      · exact Or.inr ⟨x, List.mem_cons_self _ _, h⟩
    have keep : ∀ v : Nat, P v → P v ∨ ∃ y, y ∈ x :: xs ∧ v = y.data % 256 :=
      fun v h => Or.inl h
    by_cases hw : x.wait < RECEIVEBYTETIMEOUTMS
    swap
    · simp only [Query.receive, hw, if_false, Exit.locals]
      exact ⟨fun h => keep _ (p4 h), fun h => keep _ (p5 h), fun h => keep _ (p6 h)⟩
    by_cases hc : x.clock > RECEIVEGLOBALTIMEOUTMS
    · simp only [Query.receive, hw, hc, if_true, Exit.locals]
      exact ⟨fun h => lift _ (key.1 h), fun h => lift _ (key.2.1 h), fun h => lift _ (key.2.2 h)⟩
    by_cases hgo : (q.body t x.data).i < (q.body t x.data).length + RECEIVEHEADERLENGTH + 2
    · simp only [Query.receive, hw, hc, hgo, if_true, if_false]
      have hb3 : 3 ≤ (q.body t x.data).i →
          (q.body t x.data).length = 3 ∧ (q.body t x.data).i ≤ 6 := by
        intro h
        obtain ⟨hl, _⟩ := b3 h
        refine ⟨hl, ?_⟩
        rw [hl] at hgo
        simp only [RECEIVEHEADERLENGTH] at hgo
        omega
      obtain ⟨r4, r5, r6⟩ := ih (q.body t x.data) (fun v => P v ∨ v = x.data % 256) b0 b2 hb3
        key.1 key.2.1 key.2.2
      have fin : ∀ v : Nat, ((P v ∨ v = x.data % 256) ∨ ∃ y, y ∈ xs ∧ v = y.data % 256) →
          P v ∨ ∃ y, y ∈ x :: xs ∧ v = y.data % 256 := by
        intro v h
        rcases h with h | ⟨y, hy, e⟩
        · exact lift v h
        · exact Or.inr ⟨y, List.mem_cons_of_mem _ hy, e⟩
      exact ⟨fun h => fin _ (r4 h), fun h => fin _ (r5 h), fun h => fin _ (r6 h)⟩
    · simp only [Query.receive, hw, hc, hgo, if_true, if_false, Exit.locals]
      exact ⟨fun h => lift _ (key.1 h), fun h => lift _ (key.2.1 h), fun h => lift _ (key.2.2 h)⟩

/-- From the entry of the loop: what `hour`, `minute`, `second` hold when the
loop ends with payload bytes accepted. -/
theorem loop_writes_time (q : Query) (hq : q = .getDuration ∨ q = .getRuntime) (u : Uninit)
    (c : Caller) (rx : List RxByte) :
    (4 ≤ (q.loop u c rx).locals.i →
      ∃ y, y ∈ rx ∧ (q.loop u c rx).locals.hour = y.data % 256) ∧
    (5 ≤ (q.loop u c rx).locals.i →
      ∃ y, y ∈ rx ∧ (q.loop u c rx).locals.minute = y.data % 256) ∧
    (6 ≤ (q.loop u c rx).locals.i →
      ∃ y, y ∈ rx ∧ (q.loop u c rx).locals.second = y.data % 256) := by
  have hi : (q.entry u c).i = 0 := rfl
  obtain ⟨r4, r5, r6⟩ := receive_writes_time q hq rx (q.entry u c) (fun _ => False)
    (by rw [hi]) (fun h => by rw [hi] at h; omega) (fun h => by rw [hi] at h; omega)
    (fun h => by rw [hi] at h; omega) (fun h => by rw [hi] at h; omega)
    (fun h => by rw [hi] at h; omega)
  exact ⟨fun h => (r4 h).resolve_left id, fun h => (r5 h).resolve_left id,
    fun h => (r6 h).resolve_left id⟩

/-! ## The wait loop on a silent line -/

/-- The wait loop on a line where `available()` keeps returning 0: it is left
at the first test whose reading is not below the byte limit, with
`dataReady` still 0. -/
theorem waitLoop_idle (reading avail : Nat → Nat) (hav : ∀ k, avail k = 0) :
    ∀ (n k : Nat), RECEIVEBYTETIMEOUTMS ≤ reading (k + n) →
      ∃ e, k ≤ e ∧ e ≤ k + n ∧ waitLoop reading avail (n + 1) k 0 = some (e, 0) ∧
        RECEIVEBYTETIMEOUTMS ≤ reading e ∧ ∀ i, k ≤ i → i < e → reading i < RECEIVEBYTETIMEOUTMS := by
  intro n
  induction n with
  | zero =>
    intro k h
    refine ⟨k, le_refl _, le_refl _, ?_, h, fun i h1 h2 => by omega⟩
    have h2 : ¬ reading k < RECEIVEBYTETIMEOUTMS := by simpa using h
    simp [waitLoop, h2]
  | succ n ih =>
    intro k h
    by_cases hk : reading k < RECEIVEBYTETIMEOUTMS
    · obtain ⟨e, e1, e2, e3, e4, e5⟩ := ih (k + 1) (by rw [show k + 1 + n = k + (n + 1) by omega]; exact h)
      refine ⟨e, by omega, by omega, ?_, e4, fun i h1 h2 => ?_⟩
      · rw [waitLoop]
        simp only [hk, true_and, if_true, hav k, Nat.zero_mod]
        exact e3
      · by_cases hik : i = k
        · rw [hik]; exact hk
        · exact e5 i (by omega) h2
    · refine ⟨k, le_refl _, by omega, ?_, by omega, fun i h1 h2 => by omega⟩
      simp [waitLoop, hk]

/-- With readings at most `gap` apart the wait loop is left less than `gap`
after the byte limit. -/
theorem waitLoop_idle_bound (reading avail : Nat → Nat) (gap m : Nat) (hav : ∀ k, avail k = 0)
    (h0 : reading 0 ≤ gap) (hstep : ∀ k, reading (k + 1) ≤ reading k + gap)
    (hm : RECEIVEBYTETIMEOUTMS ≤ reading m) :
    ∃ e, e ≤ m ∧ waitLoop reading avail (m + 1) 0 0 = some (e, 0) ∧
      RECEIVEBYTETIMEOUTMS ≤ reading e ∧ reading e < RECEIVEBYTETIMEOUTMS + gap := by
  obtain ⟨e, _, e2, e3, e4, e5⟩ := waitLoop_idle reading avail hav m 0 (by simpa using hm)
  refine ⟨e, by omega, e3, e4, ?_⟩
  rcases Nat.eq_zero_or_pos e with h | h
  · subst h
    simp only [RECEIVEBYTETIMEOUTMS] at *
    omega
  · have h1 := e5 (e - 1) (by omega) (by omega)
    have h2 := hstep (e - 1)
    rw [show e - 1 + 1 = e by omega] at h2
    omega

/-! ## One changed header byte -/

/-- A changed start or opcode byte in front of bytes without the start byte:
the timely stream ends at a timeout return. -/
theorem head_corrupted (q : Query) (u : Uninit) (c : Caller) (l : List Nat) (j v : Nat)
    (rx : List RxByte) (hl : Bytes l) (hna : ∀ b ∈ l, b ≠ 0xAA) (hj : j < 2) (hv : v < 256)
    (hne : (0xAA :: q.COMMAND :: l).getD j 0 ≠ v) (ht : Timely rx)
    (hw : wire rx = (0xAA :: q.COMMAND :: l).set j v) :
    (q.loop u c rx).timeout := by
  have hmod : ∀ xs : List RxByte, wire xs = l → ∀ x ∈ xs, x.data % 256 ≠ 0xAA := by
    intro xs hxs x hx
    have hm : x.data ∈ l := by rw [← hxs]; exact List.mem_map_of_mem _ hx
    rw [Nat.mod_eq_of_lt (hl _ hm)]
    exact hna _ hm
  simp only [wire] at hw
  rcases Nat.eq_zero_or_pos j with h0 | h0
  · subst h0
    simp only [List.set_cons_zero, List.getD_cons_zero] at hw hne
    obtain ⟨x0, l0, rfl, h0, hw⟩ := List.map_eq_cons_iff.mp hw
    obtain ⟨x1, l1, rfl, h1, hw⟩ := List.map_eq_cons_iff.mp hw
    refine seek_timeout q _ _ (entry_i q u c) ?_
    intro x hx
    rcases List.mem_cons.mp hx with rfl | hx
    · rw [h0, Nat.mod_eq_of_lt hv]; exact fun h => hne h.symm
    rcases List.mem_cons.mp hx with rfl | hx
    · rw [h1, Nat.mod_eq_of_lt (command_lt q)]; exact command_ne_start q
    · exact hmod l1 hw x hx
  · have h1 : j = 1 := by omega
    subst h1
    simp only [List.set_cons_succ, List.set_cons_zero, List.getD_cons_succ,
      List.getD_cons_zero] at hw hne
    obtain ⟨x0, l0, rfl, h0, hw⟩ := List.map_eq_cons_iff.mp hw
    obtain ⟨x1, l1, rfl, h1, hw⟩ := List.map_eq_cons_iff.mp hw
    obtain ⟨⟨w0, c0⟩, ht⟩ := timely_cons ht
    obtain ⟨⟨w1, c1⟩, ht⟩ := timely_cons ht
    rw [Query.loop, receive_start q _ x0 _ w0 c0 (entry_i q u c) (by rw [h0]),
      receive_cmd_bad q _ x1 _ w1 c1 rfl
        (by rw [h1, Nat.mod_eq_of_lt hv]; exact fun h => hne h.symm)]
    exact seek_timeout q _ _ rfl (hmod l1 hw)

/-- A loop without a test of the length byte on a frame whose length byte
was lowered to `v`: the first `v` payload bytes are taken as the payload and
the next one as the checksum byte. -/
theorem length_lowered (q : Query) (u : Uninit) (c : Caller) (p : List Nat) (k v : Nat)
    (rx : List RxByte) (hq : q.expected = none) (hlen : p.length ≤ 255) (hb : Bytes p)
    (hv : v < p.length) (ht : Timely rx)
    (hw : wire rx = 0xAA :: q.COMMAND :: v :: (p ++ [k])) :
    ∃ t, q.loop u c rx = .compare t (rx.drop (v + 4)) ∧ t.data = p.getD v 0 ∧
      t.sum = checksum q.COMMAND (p.take v) ∧ Delivers q (p.take v) t := by
  have hsplit : rx = rx.take (v + 4) ++ rx.drop (v + 4) := (List.take_append_drop _ _).symm
  have htk : Timely (rx.take (v + 4)) := fun x hx => ht x (List.mem_of_mem_take hx)
  have hlt : (p.take v).length = v := by simp; omega
  have hwt : wire (rx.take (v + 4))
      = 0xAA :: q.COMMAND :: (p.take v).length :: (p.take v ++ [p.getD v 0]) := by
    simp only [wire] at hw ⊢
    rw [List.map_take, hw, hlt]
    simp only [List.take_succ_cons]
    congr 3
    rw [List.take_append_of_le_length (by omega)]
    rw [List.take_succ]
    simp [List.getD_eq_getElem?_getD, List.getElem?_eq_getElem hv]
  have hbv : p.getD v 0 < 256 := by
    rw [List.getD_eq_getElem?_getD, List.getElem?_eq_getElem hv]
    exact hb _ (List.getElem_mem _)
  obtain ⟨t, h1, h2, h3, h4⟩ := loop_frame q u c (rx.take (v + 4)) (rx.drop (v + 4)) (p.take v)
    (p.getD v 0) htk hwt (by omega) (fun K hK => by rw [hq] at hK; cases hK)
    (fun b hbm => hb b (List.mem_of_mem_take hbm)) hbv
  rw [← hsplit] at h1
  exact ⟨t, h1, h2, h3, h4⟩

/-- A loop without a test of the length byte on a frame whose length byte
was raised: the stream ends before the announced payload and its checksum
byte are complete. -/
theorem length_raised (q : Query) (u : Uninit) (c : Caller) (p : List Nat) (k v : Nat)
    (rx : List RxByte) (hq : q.expected = none) (hv : p.length < v) (hv2 : v < 256)
    (ht : Timely rx) (hw : wire rx = 0xAA :: q.COMMAND :: v :: (p ++ [k])) :
    (q.loop u c rx).byByteLimit := by
  simp only [wire] at hw
  obtain ⟨x0, l0, rfl, h0, hw⟩ := List.map_eq_cons_iff.mp hw
  obtain ⟨x1, l1, rfl, h1, hw⟩ := List.map_eq_cons_iff.mp hw
  obtain ⟨x2, ps, rfl, h2, hw⟩ := List.map_eq_cons_iff.mp hw
  obtain ⟨⟨w0, c0⟩, ht⟩ := timely_cons ht
  obtain ⟨⟨w1, c1⟩, ht⟩ := timely_cons ht
  obtain ⟨⟨w2, c2⟩, ht⟩ := timely_cons ht
  have hpl : ps.length = p.length + 1 := by
    have := congrArg List.length hw
    simpa using this
  have m1 : x1.data % 256 = q.COMMAND := by rw [h1]; exact Nat.mod_eq_of_lt (command_lt q)
  have m2 : x2.data % 256 = v := by rw [h2]; exact Nat.mod_eq_of_lt hv2
  rw [Query.loop, receive_start q _ x0 _ w0 c0 (entry_i q u c) (by rw [h0]),
    receive_cmd_ok q _ x1 _ w1 c1 rfl rfl m1,
    receive_len_ok q _ x2 _ w2 c2 rfl rfl (fun K hK => by rw [hq] at hK; cases hK)]
  have key : ∀ s : Locals, s.i = 3 → s.firstByte = 0xAA → s.length = v → s.sum < 256 →
      (q.receive s ps).byByteLimit := by
    intro s hi hf hl hs
    have hp := (receive_payload q [] ps s (by omega) hf (by omega) hs ht).1
    rw [List.append_nil] at hp
    rw [hp]
    trivial
  exact key _ rfl rfl m2 (Nat.mod_lt _ (by norm_num))

/-! ## Claims about the encoder -/

/-- Claim C1: for every opcode byte `c` and payload `p` of at most 255 bytes, the
call sequence start, opcode, length, payload bytes, checksum appends exactly
`[0xAA, c, len p, p..., s]` with `s = (0xAA + c + len p + sum p) mod 256` to
the stream, whatever `m_checksum` held before. -/
theorem C1_send_sequence_writes_frame (c : Nat) (p : List Nat) (dev : Device)
    (hc : c < 256) (hl : p.length ≤ 255) (hp : Bytes p) :
    (sendCheckSum (sendPayload p (sendDataByte p.length (sendDataByte c
      (sendStartingCode dev))))).written
      = dev.written ++ (0xAA :: c :: p.length :: (p ++ [(0xAA + c + p.length + p.sum) % 256])) := by
  have h1 := sendPayload_written p (sendDataByte p.length (sendDataByte c (sendStartingCode dev)))
  have h2 := sendPayload_checksum p (sendDataByte p.length (sendDataByte c (sendStartingCode dev)))
  simp only [sendCheckSum, h1, h2, map_mod_of_bytes p hp]
  have e1 : c % 256 = c := Nat.mod_eq_of_lt hc
  have e2 : p.length % 256 = p.length := Nat.mod_eq_of_lt (by omega)
  simp only [sendDataByte, sendStartingCode, STARTINGCODE, e1, e2]
  simp

/-- Witness of C1: opcode 0x08, payload `[2, 47, 48]`, an arbitrary old
checksum and a stream that already holds a byte. -/
theorem C1_send_sequence_writes_frame_witness :
    (sendCheckSum (sendPayload [2, 47, 48] (sendDataByte 3 (sendDataByte 0x08
      (sendStartingCode { m_checksum := 0x5C, written := [7] }))))).written
      = [7] ++ (0xAA :: 0x08 :: 3 :: ([2, 47, 48] ++ [(0xAA + 0x08 + 3 + 97) % 256])) :=
  C1_send_sequence_writes_frame 0x08 [2, 47, 48] { m_checksum := 0x5C, written := [7] }
    (by decide) (by decide) (by decide)

/-- Claim C5, as stated, fails: the fifth byte that `setVolume(30)` writes is
not 0xDE, because `(0xAA+0x13+0x01+0x1E) mod 256` is not 0xDE. -/
theorem C5_counterexample :
    (setVolume 30 { m_checksum := 0, written := [] }).written
      ≠ [0xAA, 0x13, 0x01, 0x1E, 0xDE] ∧
    (0xAA + 0x13 + 0x01 + 0x1E) % 256 ≠ 0xDE := by
  decide

/-- Claim C5, amended: `setVolume(30)` appends exactly the five bytes
`[0xAA, 0x13, 0x01, 0x1E, 0xDC]` to the stream, whatever `m_checksum` held
before; the checksum `(0xAA+0x13+0x01+0x1E) mod 256` is 0xDC. -/
theorem C5_setVolume_30 (dev : Device) :
    (setVolume 30 dev).written = dev.written ++ [0xAA, 0x13, 0x01, 0x1E, 0xDC] ∧
    (0xAA + 0x13 + 0x01 + 0x1E) % 256 = 0xDC := by
  simp [setVolume, sendCheckSum, sendDataByte, sendStartingCode, STARTINGCODE]

/-! ## Claims about the receive loops -/

/-- Claim C2, as stated, fails for an operation that returns `int`: on a
board with a 16 bit `int`, `getTotalFiles` fed the timely frame the send
helpers emit for opcode 0x0C and payload `[0x80, 0x00]` reaches the
comparison with `data == sum`, yet returns -32768 and not
`0x80*256 + 0x00`. -/
theorem C2_counterexample :
    Timely (prompt (emitted 0x0C [0x80, 0x00])) ∧
    (getTotalFiles 16 ⟨0, 0⟩ ⟨0, []⟩ (prompt (emitted 0x0C [0x80, 0x00]))).exit.success ∧
    (getTotalFiles 16 ⟨0, 0⟩ ⟨0, []⟩ (prompt (emitted 0x0C [0x80, 0x00]))).ret = .int (-32768) ∧
    (getTotalFiles 16 ⟨0, 0⟩ ⟨0, []⟩ (prompt (emitted 0x0C [0x80, 0x00]))).ret
      ≠ Query.getTotalFiles.value [0x80, 0x00] := by
  decide

/-- Claim C2, amended: round trip. For every query operation `q`, every
payload `p` of bytes whose length is the one the operation expects (any
length up to 255 for `getFileName`), and every timely stream `rx` whose
bytes are the frame the send helpers emit for `(q.COMMAND, p)`, the loop
reads the whole frame and ends at the comparison with `data == sum`, the
result variables hold `p` (status byte, `hi*256+lo`, hour/minute/second, or
terminated name), and the operation returns the value of `p`, where for the
three operations that return `int` the number `hi*256+lo` has to fit the
`int` of the board (`hi*256+lo < 2^(intBits-1)`). -/
theorem C2_round_trip (q : Query) (intBits : Nat) (u : Uninit) (c : Caller) (p : List Nat)
    (rx : List RxByte) (hlen : p.length ≤ 255) (hb : Bytes p)
    (hK : ∀ K, q.expected = some K → p.length = K)
    (ht : Timely rx) (hw : wire rx = emitted q.COMMAND p)
    (hint : q.returnsInt = true → p.getD 0 0 * 256 + p.getD 1 0 < 2 ^ (intBits - 1)) :
    (q.loop u c rx).success ∧ (q.loop u c rx).unread = [] ∧
    Delivers q p (q.loop u c rx).locals ∧
    q.returned intBits (q.loop u c rx) = q.value p := by
  rw [emitted_eq q.COMMAND p (command_lt q) hlen hb] at hw
  obtain ⟨t, h1, h2, h3, h4⟩ := loop_frame q u c rx [] p (checksum q.COMMAND p) ht hw hlen hK hb
    (checksum_lt _ _)
  rw [List.append_nil] at h1
  rw [h1]
  exact ⟨h2.trans h3.symm, rfl, h4, returned_value q intBits p t [] h4 (h2.trans h3.symm) hint⟩

/-- Witness of C2: `getTotalFiles` with a 16 bit `int` and the payload
`[0x0C, 0xAA]`, which contains the opcode byte and the start byte. -/
theorem C2_round_trip_witness :
    [0x0C, 0xAA].length ≤ 255 ∧ Bytes [0x0C, 0xAA] ∧
    (∀ K, Query.getTotalFiles.expected = some K → [0x0C, 0xAA].length = K) ∧
    Timely (prompt (emitted 0x0C [0x0C, 0xAA])) ∧
    wire (prompt (emitted 0x0C [0x0C, 0xAA])) = emitted Query.getTotalFiles.COMMAND [0x0C, 0xAA] ∧
    (Query.getTotalFiles.returnsInt = true →
      [0x0C, 0xAA].getD 0 0 * 256 + [0x0C, 0xAA].getD 1 0 < 2 ^ (16 - 1)) ∧
    ((Query.getTotalFiles.loop ⟨3, 4⟩ ⟨0, 0, 0, fun _ => 0⟩
        (prompt (emitted 0x0C [0x0C, 0xAA]))).success ∧
     (Query.getTotalFiles.loop ⟨3, 4⟩ ⟨0, 0, 0, fun _ => 0⟩
        (prompt (emitted 0x0C [0x0C, 0xAA]))).unread = [] ∧
     Delivers Query.getTotalFiles [0x0C, 0xAA]
       (Query.getTotalFiles.loop ⟨3, 4⟩ ⟨0, 0, 0, fun _ => 0⟩
         (prompt (emitted 0x0C [0x0C, 0xAA]))).locals ∧
     Query.getTotalFiles.returned 16 (Query.getTotalFiles.loop ⟨3, 4⟩ ⟨0, 0, 0, fun _ => 0⟩
         (prompt (emitted 0x0C [0x0C, 0xAA]))) = Query.getTotalFiles.value [0x0C, 0xAA]) :=
  ⟨by decide, by decide, by decide, by decide, by decide, by decide,
    C2_round_trip Query.getTotalFiles 16 ⟨3, 4⟩ ⟨0, 0, 0, fun _ => 0⟩ [0x0C, 0xAA]
      (prompt (emitted 0x0C [0x0C, 0xAA])) (by decide) (by decide) (by decide)
      (by decide) (by decide) (by decide)⟩

/-- Claim C3: decoder soundness. For every query operation with a fixed
length `N` and every stream of bytes, with any timing, if the loop ends at
the comparison with `data == sum`, then the observations it read end with a
frame `[0xAA, COMMAND, N, p1..pN, k]` with `k` the checksum of that frame,
the observations after that frame are exactly the unread ones, the result
variables hold the payload `p` of that same frame, and the operation returns
that result. -/
theorem C3_decoder_sound (q : Query) (N intBits : Nat) (u : Uninit) (c : Caller)
    (rx : List RxByte) (hq : q.expected = some N) (hb : Bytes (wire rx))
    (hs : (q.loop u c rx).success) :
    ∃ pre fr p, rx = pre ++ fr ++ (q.loop u c rx).unread ∧
      wire fr = 0xAA :: q.COMMAND :: N :: (p ++ [checksum q.COMMAND p]) ∧ p.length = N ∧
      Delivers q p (q.loop u c rx).locals ∧
      q.returned intBits (q.loop u c rx) = q.accepted intBits (q.loop u c rx).locals := by
  cases h : q.loop u c rx with
  | byteTimeout s => rw [h] at hs; exact absurd hs (by simp [Exit.success])
  | totalTimeout s => rw [h] at hs; exact absurd hs (by simp [Exit.success])
  | compare t rest =>
    rw [h] at hs
    have hs2 : t.data = t.sum := hs
    obtain ⟨pre, fr, p, r1, r2, r3, r4, r5⟩ := receive_sound q N hq t rest rx.length rx
      (q.entry u c) (le_refl _) (entry_i q u c) hb h
    refine ⟨pre, fr, p, r1, ?_, r3, r5, ?_⟩
    · rw [r2, hs2, r4]
    · simp [Query.returned, Exit.locals, hs2]

/-- Witness of C3: `getStatus` on a noise byte, an abandoned frame attempt,
a valid frame and one further byte. -/
theorem C3_decoder_sound_witness :
    Query.getStatus.expected = some 1 ∧
    Bytes (wire (prompt [0x55, 0xAA, 0x07, 0xAA, 0x01, 0x01, 0x02, 0xAE, 0x99])) ∧
    (Query.getStatus.loop ⟨1, 2⟩ ⟨0, 0, 0, fun _ => 0⟩
      (prompt [0x55, 0xAA, 0x07, 0xAA, 0x01, 0x01, 0x02, 0xAE, 0x99])).success ∧
    ∃ pre fr p, prompt [0x55, 0xAA, 0x07, 0xAA, 0x01, 0x01, 0x02, 0xAE, 0x99]
        = pre ++ fr ++ (Query.getStatus.loop ⟨1, 2⟩ ⟨0, 0, 0, fun _ => 0⟩
            (prompt [0x55, 0xAA, 0x07, 0xAA, 0x01, 0x01, 0x02, 0xAE, 0x99])).unread ∧
      wire fr = 0xAA :: Query.getStatus.COMMAND :: 1
        :: (p ++ [checksum Query.getStatus.COMMAND p]) ∧ p.length = 1 ∧
      Delivers Query.getStatus p (Query.getStatus.loop ⟨1, 2⟩ ⟨0, 0, 0, fun _ => 0⟩
        (prompt [0x55, 0xAA, 0x07, 0xAA, 0x01, 0x01, 0x02, 0xAE, 0x99])).locals ∧
      Query.getStatus.returned 16 (Query.getStatus.loop ⟨1, 2⟩ ⟨0, 0, 0, fun _ => 0⟩
        (prompt [0x55, 0xAA, 0x07, 0xAA, 0x01, 0x01, 0x02, 0xAE, 0x99]))
        = Query.getStatus.accepted 16 (Query.getStatus.loop ⟨1, 2⟩ ⟨0, 0, 0, fun _ => 0⟩
            (prompt [0x55, 0xAA, 0x07, 0xAA, 0x01, 0x01, 0x02, 0xAE, 0x99])).locals :=
  ⟨by decide, by decide, by decide,
    C3_decoder_sound Query.getStatus 1 16 ⟨1, 2⟩ ⟨0, 0, 0, fun _ => 0⟩
      (prompt [0x55, 0xAA, 0x07, 0xAA, 0x01, 0x01, 0x02, 0xAE, 0x99])
      (by decide) (by decide) (by decide)⟩

/-- Claim C4: for every query operation with a fixed length `N`, every
payload `p` of `N` bytes and every trailing byte `k`, a stream that starts
with the timely bytes `[0xAA, COMMAND, N, p..., k]` (whatever follows) ends
at the comparison with `data == sum` if and only if `k` is the checksum of
the preceding frame bytes; `sum` at the comparison is that checksum, so `k`
was not added to it; and when `k` differs the comparison fails and the
operation returns its failure value. -/
theorem C4_checksum_decides (q : Query) (N intBits : Nat) (u : Uninit) (c : Caller)
    (p : List Nat) (k : Nat) (fr rest : List RxByte)
    (hq : q.expected = some N) (hN : p.length = N) (hb : Bytes p) (hk : k < 256)
    (ht : Timely fr) (hw : wire fr = 0xAA :: q.COMMAND :: N :: (p ++ [k])) :
    ((q.loop u c (fr ++ rest)).success ↔ k = checksum q.COMMAND p) ∧
    (q.loop u c (fr ++ rest)).locals.sum = checksum q.COMMAND p ∧
    (k ≠ checksum q.COMMAND p →
      (q.loop u c (fr ++ rest)).mismatch ∧
      q.returned intBits (q.loop u c (fr ++ rest)) = q.RECEIVEFAILED) := by
  have hN3 : N ≤ 3 := by cases q <;> simp [Query.expected] at hq <;> omega
  subst hN
  obtain ⟨t, h1, h2, h3, _⟩ := loop_frame q u c fr rest p k ht hw (by omega)
    (fun K hK => by rw [hq] at hK; exact Option.some.inj hK) hb hk
  rw [h1]
  refine ⟨?_, h3, ?_⟩
  · simp [Exit.success, h2, h3]
  · intro hne
    simp [Exit.mismatch, Query.returned, h2, h3, hne]

/-- Witness of C4: `getDuration` on the frame with payload `[1, 2, 3]` and
its checksum 0xD7, followed by one more byte. -/
theorem C4_checksum_decides_witness :
    Query.getDuration.expected = some 3 ∧ [1, 2, 3].length = 3 ∧ Bytes [1, 2, 3] ∧
    (0xD7 : Nat) < 256 ∧ Timely (prompt [0xAA, 0x24, 3, 1, 2, 3, 0xD7]) ∧
    wire (prompt [0xAA, 0x24, 3, 1, 2, 3, 0xD7])
      = 0xAA :: Query.getDuration.COMMAND :: 3 :: ([1, 2, 3] ++ [0xD7]) ∧
    (((Query.getDuration.loop ⟨1, 2⟩ ⟨9, 9, 9, fun _ => 0⟩
        (prompt [0xAA, 0x24, 3, 1, 2, 3, 0xD7] ++ prompt [5])).success ↔
      0xD7 = checksum Query.getDuration.COMMAND [1, 2, 3]) ∧
    (Query.getDuration.loop ⟨1, 2⟩ ⟨9, 9, 9, fun _ => 0⟩
        (prompt [0xAA, 0x24, 3, 1, 2, 3, 0xD7] ++ prompt [5])).locals.sum
      = checksum Query.getDuration.COMMAND [1, 2, 3] ∧
    (0xD7 ≠ checksum Query.getDuration.COMMAND [1, 2, 3] →
      (Query.getDuration.loop ⟨1, 2⟩ ⟨9, 9, 9, fun _ => 0⟩
        (prompt [0xAA, 0x24, 3, 1, 2, 3, 0xD7] ++ prompt [5])).mismatch ∧
      Query.getDuration.returned 16 (Query.getDuration.loop ⟨1, 2⟩ ⟨9, 9, 9, fun _ => 0⟩
        (prompt [0xAA, 0x24, 3, 1, 2, 3, 0xD7] ++ prompt [5]))
        = Query.getDuration.RECEIVEFAILED)) :=
  ⟨by decide, by decide, by decide, by decide, by decide, by decide,
    C4_checksum_decides Query.getDuration 3 16 ⟨1, 2⟩ ⟨9, 9, 9, fun _ => 0⟩ [1, 2, 3] 0xD7
      (prompt [0xAA, 0x24, 3, 1, 2, 3, 0xD7]) (prompt [5]) (by decide) (by decide) (by decide)
      (by decide) (by decide) (by decide)⟩

/-- Claim C6, as stated, fails: on the timely stream
`[0xAA, 0x0D, 0x02, 0x00, 0x07, 0xB8]` the loop of `getFileNumber` computes
the sum 0xC0, the comparison with the last byte 0xB8 fails and the operation
returns 0. -/
theorem C6_counterexample :
    Timely (prompt [0xAA, 0x0D, 0x02, 0x00, 0x07, 0xB8]) ∧
    ¬ (getFileNumber ⟨0, 0⟩ ⟨0, []⟩
        (prompt [0xAA, 0x0D, 0x02, 0x00, 0x07, 0xB8])).exit.success ∧
    (getFileNumber ⟨0, 0⟩ ⟨0, []⟩
        (prompt [0xAA, 0x0D, 0x02, 0x00, 0x07, 0xB8])).ret = .word 0 ∧
    (getFileNumber ⟨0, 0⟩ ⟨0, []⟩
        (prompt [0xAA, 0x0D, 0x02, 0x00, 0x07, 0xB8])).exit.locals.sum = 0xC0 := by
  decide

/-- Claim C6, amended: on every timely stream with the bytes
`[0xAA, 0x0D, 0x02, 0x00, 0x07, 0xC0]` the loop of `getFileNumber` ends at the
comparison with `data == sum` and the operation returns the big-endian
value 7; the checksum `0xAA+0x0D+0x02+0x00+0x07` is 0xC0. -/
theorem C6_getFileNumber_seven (u : Uninit) (dev : Device) (rx : List RxByte)
    (ht : Timely rx) (hw : wire rx = [0xAA, 0x0D, 0x02, 0x00, 0x07, 0xC0]) :
    (getFileNumber u dev rx).exit.success ∧ (getFileNumber u dev rx).ret = .word 7 ∧
    (0xAA + 0x0D + 0x02 + 0x00 + 0x07) % 256 = 0xC0 := by
  obtain ⟨t, h1, h2, h3, h4⟩ := loop_frame Query.getFileNumber u ⟨0, 0, 0, fun _ => 0⟩ rx []
    [0x00, 0x07] 0xC0 ht hw (by decide) (by decide) (by decide) (by decide)
  rw [List.append_nil] at h1
  have hs : t.sum = 0xC0 := by rw [h3]; decide
  have hr : t.result = 7 := by simpa [Delivers] using h4
  simp [getFileNumber, Query.call, h1, Exit.success, Query.returned, Query.accepted, h2, hs, hr]

/-- Witness of C6: the six bytes delivered at once. -/
theorem C6_getFileNumber_seven_witness :
    Timely (prompt [0xAA, 0x0D, 0x02, 0x00, 0x07, 0xC0]) ∧
    wire (prompt [0xAA, 0x0D, 0x02, 0x00, 0x07, 0xC0]) = [0xAA, 0x0D, 0x02, 0x00, 0x07, 0xC0] ∧
    ((getFileNumber ⟨8, 9⟩ ⟨1, [2]⟩
      (prompt [0xAA, 0x0D, 0x02, 0x00, 0x07, 0xC0])).exit.success ∧
    (getFileNumber ⟨8, 9⟩ ⟨1, [2]⟩
      (prompt [0xAA, 0x0D, 0x02, 0x00, 0x07, 0xC0])).ret = .word 7 ∧
    (0xAA + 0x0D + 0x02 + 0x00 + 0x07) % 256 = 0xC0) :=
  ⟨by decide, by decide,
    C6_getFileNumber_seven ⟨8, 9⟩ ⟨1, [2]⟩ (prompt [0xAA, 0x0D, 0x02, 0x00, 0x07, 0xC0])
      (by decide) (by decide)⟩

/-- Claim C7: on every timely stream with the bytes
`[0xAA, 0x0D, 0x02, 0x00, 0x07, 0xB9]` the loop of `getFileNumber` reads all
six bytes, ends at the comparison and not at a timeout, `data != sum` holds
there, and the operation returns its failure value 0. -/
theorem C7_getFileNumber_mismatch (u : Uninit) (dev : Device) (rx : List RxByte)
    (ht : Timely rx) (hw : wire rx = [0xAA, 0x0D, 0x02, 0x00, 0x07, 0xB9]) :
    (getFileNumber u dev rx).exit.mismatch ∧ (getFileNumber u dev rx).exit.unread = [] ∧
    ¬ (getFileNumber u dev rx).exit.timeout ∧
    (getFileNumber u dev rx).ret = .word 0 := by
  obtain ⟨t, h1, h2, h3, _⟩ := loop_frame Query.getFileNumber u ⟨0, 0, 0, fun _ => 0⟩ rx []
    [0x00, 0x07] 0xB9 ht hw (by decide) (by decide) (by decide) (by decide)
  rw [List.append_nil] at h1
  have hs : t.sum = 0xC0 := by rw [h3]; decide
  simp [getFileNumber, Query.call, h1, Exit.mismatch, Exit.unread, Exit.timeout, Query.returned,
    Query.RECEIVEFAILED, h2, hs]

/-- Witness of C7: the six bytes delivered at once. -/
theorem C7_getFileNumber_mismatch_witness :
    Timely (prompt [0xAA, 0x0D, 0x02, 0x00, 0x07, 0xB9]) ∧
    wire (prompt [0xAA, 0x0D, 0x02, 0x00, 0x07, 0xB9]) = [0xAA, 0x0D, 0x02, 0x00, 0x07, 0xB9] ∧
    ((getFileNumber ⟨8, 9⟩ ⟨1, [2]⟩
      (prompt [0xAA, 0x0D, 0x02, 0x00, 0x07, 0xB9])).exit.mismatch ∧
    (getFileNumber ⟨8, 9⟩ ⟨1, [2]⟩
      (prompt [0xAA, 0x0D, 0x02, 0x00, 0x07, 0xB9])).exit.unread = [] ∧
    ¬ (getFileNumber ⟨8, 9⟩ ⟨1, [2]⟩
      (prompt [0xAA, 0x0D, 0x02, 0x00, 0x07, 0xB9])).exit.timeout ∧
    (getFileNumber ⟨8, 9⟩ ⟨1, [2]⟩
      (prompt [0xAA, 0x0D, 0x02, 0x00, 0x07, 0xB9])).ret = .word 0) :=
  ⟨by decide, by decide,
    C7_getFileNumber_mismatch ⟨8, 9⟩ ⟨1, [2]⟩ (prompt [0xAA, 0x0D, 0x02, 0x00, 0x07, 0xB9])
      (by decide) (by decide)⟩

/-- Claim C8, as stated, fails: the garbage `[0xAA, 0x01, 0x01]` looks like
the header of a `getStatus` reply, so the loop takes the first two bytes of
the well-formed frame `[0xAA, 0x01, 0x01, 0x02, 0xAE]` that follows as payload
and trailing byte, the comparison fails and `getStatus` returns
`STATUSUNKNOWN`, although every byte is timely. -/
theorem C8_counterexample :
    Timely (prompt ([0xAA, 0x01, 0x01] ++ emitted 0x01 [0x02])) ∧
    emitted 0x01 [0x02] = [0xAA, 0x01, 0x01, 0x02, 0xAE] ∧
    ¬ (getStatus ⟨0, 0⟩ ⟨0, []⟩
        (prompt ([0xAA, 0x01, 0x01] ++ emitted 0x01 [0x02]))).exit.success ∧
    (getStatus ⟨0, 0⟩ ⟨0, []⟩
        (prompt ([0xAA, 0x01, 0x01] ++ emitted 0x01 [0x02]))).ret = .byte STATUSUNKNOWN := by
  decide

/-- Claim C8, amended: resync. For every query operation `q`, every sequence
`g` of garbage bytes none of which is the start byte 0xAA, and every
well-formed frame for `q` with payload `p`, decoding the timely stream
`g ++ frame` ends at the comparison with `data == sum`, leaves exactly `p` in
the result variables and returns the value of `p` (for the operations that
return `int`: when `hi*256+lo` fits the `int` of the board). -/
theorem C8_resync (q : Query) (intBits : Nat) (u : Uninit) (c : Caller) (g p : List Nat)
    (rx : List RxByte) (hg : ∀ b ∈ g, b < 256 ∧ b ≠ 0xAA) (hlen : p.length ≤ 255)
    (hb : Bytes p) (hK : ∀ K, q.expected = some K → p.length = K) (ht : Timely rx)
    (hw : wire rx = g ++ emitted q.COMMAND p)
    (hint : q.returnsInt = true → p.getD 0 0 * 256 + p.getD 1 0 < 2 ^ (intBits - 1)) :
    (q.loop u c rx).success ∧ (q.loop u c rx).unread = [] ∧
    Delivers q p (q.loop u c rx).locals ∧
    q.returned intBits (q.loop u c rx) = q.value p := by
  rw [emitted_eq q.COMMAND p (command_lt q) hlen hb] at hw
  simp only [wire] at hw
  obtain ⟨gs, fr, rfl, hgs, hfr⟩ := List.map_eq_append_iff.mp hw
  obtain ⟨htg, htf⟩ := timely_append ht
  have hgx : ∀ x ∈ gs, x.data % 256 ≠ 0xAA := by
    intro x hx
    have hm : x.data ∈ g := by rw [← hgs]; exact List.mem_map_of_mem _ hx
    have := hg x.data hm
    rw [Nat.mod_eq_of_lt this.1]; exact this.2
  obtain ⟨s, s1, s2, _, _, _, _, s7⟩ := seek_skip q fr gs (q.entry u c) (entry_i q u c) htg hgx
  obtain ⟨t, h1, h2, h3, h4⟩ := receive_frame_wire q s fr [] p (checksum q.COMMAND p) s1 htf hfr
    hlen hK hb (checksum_lt _ _) (fun hq => by rw [s2]; exact entry_name q u c hq)
  have hl : q.loop u c (gs ++ fr) = .compare t [] := by
    rw [Query.loop, s7]; simpa using h1
  rw [hl]
  exact ⟨h2.trans h3.symm, rfl, h4, returned_value q intBits p t [] h4 (h2.trans h3.symm) hint⟩

/-- Witness of C8: `getFileNumber` on four noise bytes, one of them its own
opcode, followed by the frame with payload `[0x12, 0x34]`. -/
theorem C8_resync_witness :
    (∀ b ∈ [0x00, 0x01, 0xFF, 0x0D], b < 256 ∧ b ≠ 0xAA) ∧ [0x12, 0x34].length ≤ 255 ∧
    Bytes [0x12, 0x34] ∧
    (∀ K, Query.getFileNumber.expected = some K → [0x12, 0x34].length = K) ∧
    Timely (prompt ([0x00, 0x01, 0xFF, 0x0D] ++ emitted 0x0D [0x12, 0x34])) ∧
    wire (prompt ([0x00, 0x01, 0xFF, 0x0D] ++ emitted 0x0D [0x12, 0x34]))
      = [0x00, 0x01, 0xFF, 0x0D] ++ emitted Query.getFileNumber.COMMAND [0x12, 0x34] ∧
    (Query.getFileNumber.returnsInt = true →
      [0x12, 0x34].getD 0 0 * 256 + [0x12, 0x34].getD 1 0 < 2 ^ (16 - 1)) ∧
    ((Query.getFileNumber.loop ⟨1, 2⟩ ⟨0, 0, 0, fun _ => 0⟩
      (prompt ([0x00, 0x01, 0xFF, 0x0D] ++ emitted 0x0D [0x12, 0x34]))).success ∧
    (Query.getFileNumber.loop ⟨1, 2⟩ ⟨0, 0, 0, fun _ => 0⟩
      (prompt ([0x00, 0x01, 0xFF, 0x0D] ++ emitted 0x0D [0x12, 0x34]))).unread = [] ∧
    Delivers Query.getFileNumber [0x12, 0x34]
      (Query.getFileNumber.loop ⟨1, 2⟩ ⟨0, 0, 0, fun _ => 0⟩
        (prompt ([0x00, 0x01, 0xFF, 0x0D] ++ emitted 0x0D [0x12, 0x34]))).locals ∧
    Query.getFileNumber.returned 16 (Query.getFileNumber.loop ⟨1, 2⟩ ⟨0, 0, 0, fun _ => 0⟩
        (prompt ([0x00, 0x01, 0xFF, 0x0D] ++ emitted 0x0D [0x12, 0x34])))
      = Query.getFileNumber.value [0x12, 0x34]) :=
  ⟨by decide, by decide, by decide, by decide, by decide, by decide, by decide,
    C8_resync Query.getFileNumber 16 ⟨1, 2⟩ ⟨0, 0, 0, fun _ => 0⟩ [0x00, 0x01, 0xFF, 0x0D]
      [0x12, 0x34] (prompt ([0x00, 0x01, 0xFF, 0x0D] ++ emitted 0x0D [0x12, 0x34]))
      (by decide) (by decide) (by decide) (by decide) (by decide) (by decide) (by decide)⟩

/-- Claim C9, as stated, fails: the complete frame
`[0xAA, 0x02, 0x05, 0xAA, 0x01, 0x01, 0x00, 0xAC, 0x09]` has the opcode 0x02,
not the opcode 0x01 of `getStatus`, and a correct checksum 0x09; its payload
is itself a valid `getStatus` reply, and `getStatus` fed this frame alone
ends at the comparison with `data == sum` and returns the status byte 0. -/
theorem C9_counterexample :
    (0x02 : Nat) ≠ Query.getStatus.COMMAND ∧
    Timely (prompt [0xAA, 0x02, 0x05, 0xAA, 0x01, 0x01, 0x00, 0xAC, 0x09]) ∧
    (0xAA + 0x02 + 0x05 + (0xAA + 0x01 + 0x01 + 0x00 + 0xAC)) % 256 = 0x09 ∧
    (getStatus ⟨0, 0⟩ ⟨0, []⟩
      (prompt [0xAA, 0x02, 0x05, 0xAA, 0x01, 0x01, 0x00, 0xAC, 0x09])).exit.success ∧
    (getStatus ⟨0, 0⟩ ⟨0, []⟩
      (prompt [0xAA, 0x02, 0x05, 0xAA, 0x01, 0x01, 0x00, 0xAC, 0x09])).ret = .byte 0 := by
  decide

/-- Claim C9, amended: opcode mismatch. For every query operation `q` and
every stream, with any timing, that consists of one frame
`[0xAA, b, L, q1.., k]` whose opcode byte `b` differs from `q.COMMAND` and in
which none of the bytes `L, q1.., k` after the opcode is the start byte 0xAA,
the loop never ends at the comparison with `data == sum`. -/
theorem C9_opcode_mismatch (q : Query) (u : Uninit) (c : Caller) (b L k : Nat)
    (qs : List Nat) (rx : List RxByte)
    (hw : wire rx = 0xAA :: b :: L :: (qs ++ [k]))
    (hb : b < 256) (hne : b ≠ q.COMMAND)
    (hfree : ∀ v ∈ L :: (qs ++ [k]), v < 256 ∧ v ≠ 0xAA) :
    ¬ (q.loop u c rx).success := by
  simp only [wire] at hw
  obtain ⟨x0, l0, rfl, h0, hw⟩ := List.map_eq_cons_iff.mp hw
  obtain ⟨x1, l1, rfl, h1, hw⟩ := List.map_eq_cons_iff.mp hw
  apply not_success_of_timeout
  unfold Query.loop
  by_cases t0 : x0.wait < 100 ∧ x0.clock ≤ 500
  swap
  · exact receive_late q _ x0 _ t0
  rw [receive_start q _ x0 _ t0.1 t0.2 (entry_i q u c) (by rw [h0])]
  by_cases t1 : x1.wait < 100 ∧ x1.clock ≤ 500
  swap
  · exact receive_late q _ x1 _ t1
  rw [receive_cmd_bad q _ x1 _ t1.1 t1.2 rfl (by rw [h1, Nat.mod_eq_of_lt hb]; exact hne)]
  apply seek_timeout q l1 _ rfl
  intro x hx
  have hm : x.data ∈ L :: (qs ++ [k]) := by rw [← hw]; exact List.mem_map_of_mem _ hx
  have := hfree x.data hm
  rw [Nat.mod_eq_of_lt this.1]; exact this.2

/-- Witness of C9: `getStatus` fed a complete `getDrivesStates` style frame
with opcode 0x09. -/
theorem C9_opcode_mismatch_witness :
    wire (prompt [0xAA, 0x09, 0x02, 0x01, 0x01, 0xB7])
      = 0xAA :: 0x09 :: 0x02 :: ([0x01, 0x01] ++ [0xB7]) ∧
    (0x09 : Nat) < 256 ∧ (0x09 : Nat) ≠ Query.getStatus.COMMAND ∧
    (∀ v ∈ 0x02 :: ([0x01, 0x01] ++ [0xB7]), v < 256 ∧ v ≠ 0xAA) ∧
    ¬ (Query.getStatus.loop ⟨1, 2⟩ ⟨0, 0, 0, fun _ => 0⟩
        (prompt [0xAA, 0x09, 0x02, 0x01, 0x01, 0xB7])).success :=
  ⟨by decide, by decide, by decide, by decide,
    C9_opcode_mismatch Query.getStatus ⟨1, 2⟩ ⟨0, 0, 0, fun _ => 0⟩ 0x09 0x02 0xB7 [0x01, 0x01]
      (prompt [0xAA, 0x09, 0x02, 0x01, 0x01, 0xB7]) (by decide) (by decide) (by decide)
      (by decide)⟩

/-- Claim C10, as stated, fails: replacing the start byte of the well-formed
`getStatus` frame `[0xAA, 0x01, 0x01, 0x02, 0xAE]` by 0x55 leaves a stream
without a start byte; the loop never reaches the comparison and `getStatus`
ends at a timeout return, not at a checksum mismatch. -/
theorem C10_counterexample :
    emitted 0x01 [0x02] = [0xAA, 0x01, 0x01, 0x02, 0xAE] ∧
    Timely (prompt ((emitted 0x01 [0x02]).set 0 0x55)) ∧
    (getStatus ⟨0, 0⟩ ⟨0, []⟩ (prompt ((emitted 0x01 [0x02]).set 0 0x55))).exit.timeout ∧
    ¬ (getStatus ⟨0, 0⟩ ⟨0, []⟩ (prompt ((emitted 0x01 [0x02]).set 0 0x55))).exit.mismatch := by
  decide

/-- Claim C10, amended: one byte of a frame replaced. For every query
operation `q`, every well-formed frame for it with payload `p`, every
position `j` of the frame and every different byte value `v` at `j`, on the
resulting timely stream: (1) for a payload byte or the checksum byte
(`3 ≤ j`) the loop reads the whole stream, ends at the comparison and fails
there with `data != sum`; (2) for the start, opcode or length byte of a query
with a test of the length byte the call ends at the byte timeout return;
(3) for the start or opcode byte of any query, when none of the length,
payload and checksum bytes is 0xAA, the call ends at the byte timeout return;
(4) for the length byte of a query without a test of the length byte
(`getFileName`): a lower value `v` makes the loop take the first `v` payload
bytes as the payload and compare the next payload byte with their checksum,
leaving the bytes behind it unread, and a higher value ends at the byte
timeout return; (5) the `getFileName` frame `[0xAA, 0x1E, 0x02, 0x41, 0x0A,
0x15]` with the length byte replaced by 1 returns `true` with the name "A",
and with the length byte replaced by 0 ends at a failing comparison. -/
theorem C10_single_byte_corrupted (q : Query) (u : Uninit) (c : Caller)
    (p : List Nat) (j v : Nat) (rx : List RxByte)
    (hlen : p.length ≤ 255) (hb : Bytes p) (hK : ∀ K, q.expected = some K → p.length = K)
    (hj : j < p.length + 4) (hv : v < 256)
    (hne : (emitted q.COMMAND p).getD j 0 ≠ v)
    (ht : Timely rx) (hw : wire rx = (emitted q.COMMAND p).set j v) :
    (3 ≤ j → (q.loop u c rx).mismatch ∧ (q.loop u c rx).unread = []) ∧
    (j < 3 → ∀ N, q.expected = some N → (q.loop u c rx).byByteLimit) ∧
    (j < 2 → (∀ b ∈ p.length :: (p ++ [checksum q.COMMAND p]), b ≠ 0xAA) →
      (q.loop u c rx).byByteLimit) ∧
    (j = 2 → q.expected = none →
      (v < p.length →
        ∃ t, q.loop u c rx = .compare t (rx.drop (v + 4)) ∧ t.data = p.getD v 0 ∧
          t.sum = checksum q.COMMAND (p.take v) ∧ Delivers q (p.take v) t ∧
          ((q.loop u c rx).success ↔ p.getD v 0 = checksum q.COMMAND (p.take v))) ∧
      (p.length < v → (q.loop u c rx).byByteLimit)) ∧
    (emitted 0x1E [0x41, 0x0A] = [0xAA, 0x1E, 0x02, 0x41, 0x0A, 0x15] ∧
      (getFileName (fun _ => 0x5A) ⟨0, 0⟩ ⟨0, []⟩
        (prompt ((emitted 0x1E [0x41, 0x0A]).set 2 1))).ret = .bool true ∧
      (getFileName (fun _ => 0x5A) ⟨0, 0⟩ ⟨0, []⟩
        (prompt ((emitted 0x1E [0x41, 0x0A]).set 2 1))).exit.locals.name 0 = 0x41 ∧
      (getFileName (fun _ => 0x5A) ⟨0, 0⟩ ⟨0, []⟩
        (prompt ((emitted 0x1E [0x41, 0x0A]).set 2 1))).exit.locals.name 1 = 0 ∧
      (getFileName (fun _ => 0x5A) ⟨0, 0⟩ ⟨0, []⟩
        (prompt ((emitted 0x1E [0x41, 0x0A]).set 2 0))).exit.mismatch) := by
  rw [emitted_eq q.COMMAND p (command_lt q) hlen hb] at hw hne
  refine ⟨fun h3 => ?_, fun h3 N hq => ?_, fun h2 hna => ?_,
    fun h2 hq => ⟨fun hlow => ?_, fun hhigh => ?_⟩, by decide⟩
  · obtain ⟨i, rfl⟩ : ∃ i, j = i + 3 := ⟨j - 3, by omega⟩
    simp only [List.set_cons_succ, List.getD_cons_succ] at hw hne
    by_cases hi : i < p.length
    · rw [List.set_append_left i v hi] at hw
      have hg : (p ++ [checksum q.COMMAND p]).getD i 0 = p.getD i 0 := by
        simp [List.getD_eq_getElem?_getD, List.getElem?_append_left hi]
      rw [hg] at hne
      have hw2 : wire rx = 0xAA :: q.COMMAND :: (p.set i v).length
          :: (p.set i v ++ [checksum q.COMMAND p]) := by rw [hw]; simp
      obtain ⟨t, h1, h2, h3, _⟩ := loop_frame q u c rx [] (p.set i v) (checksum q.COMMAND p) ht
        hw2 (by simpa using hlen) (by simpa using hK) (bytes_set p i v hb hv) (checksum_lt _ _)
      rw [List.append_nil] at h1
      rw [h1]
      refine ⟨?_, rfl⟩
      show t.data ≠ t.sum
      rw [h2, h3]
      have hs := sum_set p i v hi
      have ho := bytes_getD p hb i
      simp only [checksum, List.length_set]
      omega
    · have hi2 : i = p.length := by omega
      subst hi2
      rw [List.set_append_right _ _ (le_refl _)] at hw
      have hg : (p ++ [checksum q.COMMAND p]).getD p.length 0 = checksum q.COMMAND p := by
        simp [List.getD_eq_getElem?_getD]
      rw [hg] at hne
      have hw2 : wire rx = 0xAA :: q.COMMAND :: p.length :: (p ++ [v]) := by rw [hw]; simp
      obtain ⟨t, h1, h2, h3, _⟩ := loop_frame q u c rx [] p v ht hw2 hlen hK hb hv
      rw [List.append_nil] at h1
      rw [h1]
      refine ⟨?_, rfl⟩
      show t.data ≠ t.sum
      rw [h2, h3]
      exact fun h => hne h.symm
  · exact byte_limit_of_timely q u c rx ht
      ((corrupted_frame q N u c p j v rx hq (hK N hq) hb (by have := hK N hq; omega) hv hne
        hw).2 h3)
  · refine byte_limit_of_timely q u c rx ht
      (head_corrupted q u c (p.length :: (p ++ [checksum q.COMMAND p])) j v rx ?_ hna h2 hv
        hne ht hw)
    intro b hbm
    rcases List.mem_cons.mp hbm with rfl | hbm
    · omega
    rcases List.mem_append.mp hbm with h | h
    · exact hb b h
    · rw [List.mem_singleton.mp h]; exact checksum_lt _ _
  · subst h2
    simp only [List.set_cons_succ, List.set_cons_zero] at hw
    obtain ⟨t, r1, r2, r3, r4⟩ := length_lowered q u c p (checksum q.COMMAND p) v rx hq hlen hb
      hlow ht hw
    refine ⟨t, r1, r2, r3, r4, ?_⟩
    rw [r1]
    show t.data = t.sum ↔ _
    rw [r2, r3]
  · subst h2
    simp only [List.set_cons_succ, List.set_cons_zero] at hw
    exact length_raised q u c p (checksum q.COMMAND p) v rx hq hhigh hv ht hw

/-- Witness of C10: the length byte of the `getFileName` frame with payload
`[0x41, 0x0A]` replaced by 1. -/
theorem C10_single_byte_corrupted_witness :
    [0x41, 0x0A].length ≤ 255 ∧ Bytes [0x41, 0x0A] ∧
    (∀ K, Query.getFileName.expected = some K → [0x41, 0x0A].length = K) ∧
    2 < [0x41, 0x0A].length + 4 ∧ (1 : Nat) < 256 ∧
    (emitted Query.getFileName.COMMAND [0x41, 0x0A]).getD 2 0 ≠ 1 ∧
    Timely (prompt ((emitted 0x1E [0x41, 0x0A]).set 2 1)) ∧
    wire (prompt ((emitted 0x1E [0x41, 0x0A]).set 2 1))
      = (emitted Query.getFileName.COMMAND [0x41, 0x0A]).set 2 1 ∧
    (∃ t, Query.getFileName.loop ⟨1, 2⟩ ⟨0, 0, 0, fun _ => 65⟩
          (prompt ((emitted 0x1E [0x41, 0x0A]).set 2 1))
        = .compare t ((prompt ((emitted 0x1E [0x41, 0x0A]).set 2 1)).drop (1 + 4)) ∧
      t.data = [0x41, 0x0A].getD 1 0 ∧
      t.sum = checksum Query.getFileName.COMMAND ([0x41, 0x0A].take 1) ∧
      Delivers Query.getFileName ([0x41, 0x0A].take 1) t ∧
      ((Query.getFileName.loop ⟨1, 2⟩ ⟨0, 0, 0, fun _ => 65⟩
          (prompt ((emitted 0x1E [0x41, 0x0A]).set 2 1))).success ↔
        [0x41, 0x0A].getD 1 0 = checksum Query.getFileName.COMMAND ([0x41, 0x0A].take 1))) :=
  ⟨by decide, by decide, by decide, by decide, by decide, by decide, by decide, by decide,
    ((C10_single_byte_corrupted Query.getFileName ⟨1, 2⟩ ⟨0, 0, 0, fun _ => 65⟩
      [0x41, 0x0A] 2 1 (prompt ((emitted 0x1E [0x41, 0x0A]).set 2 1))
      (by decide) (by decide) (by decide) (by decide) (by decide) (by decide) (by decide)
      (by decide)).2.2.2.1 rfl rfl).1 (by decide)⟩

/-! ## Claims about timeouts -/

/-- Claim C11: byte idle timeout. For every query operation, when the loop
has read the observations `pre` and goes on (`advance` gives the variables
`t`), and no byte becomes available during the next wait (the line stays
silent or the next byte shows up at 100 ms or later), the loop ends at the
byte timeout return with the variables `t` and the operation returns its
failure value, one of `STATUSUNKNOWN`, `DRIVEUNKNOWN`, 0, -1 and `false`.
With zero bytes the loop ends at that return in its first iteration, with
the variables of the entry: no byte was processed and the test of the total
limit was not reached. The byte limit of 100 ms is below the total limit of
500 ms, and in time: when `available()` keeps returning 0, the clock is read
in the wait loop at most `gap` ms after `lastMS` and then at most `gap` ms
apart, and `lastMS` is at most `gap` ms after `receiveStartMS`, the wait loop
is left at the first reading of `millis()-lastMS` that is 100 or more, which
is below `100 + gap`, with `dataReady` 0; when `100 + 2 * gap` is at most 500
the call returns its failure value there, at a reading of
`millis()-receiveStartMS` below 500. -/
theorem C11_byte_idle_timeout (q : Query) (intBits : Nat) (u : Uninit) (c : Caller)
    (pre rest : List RxByte) (t : Locals)
    (hpre : q.advance (q.entry u c) pre = some t) (hs : Silent rest) :
    q.loop u c (pre ++ rest) = .byteTimeout t ∧
    (q.loop u c (pre ++ rest)).byByteLimit ∧
    q.returned intBits (q.loop u c (pre ++ rest)) = q.RECEIVEFAILED ∧
    q.RECEIVEFAILED ∈
      [.byte STATUSUNKNOWN, .byte DRIVEUNKNOWN, .word 0, .int (-1), .bool false] ∧
    q.loop u c [] = .byteTimeout (q.entry u c) ∧
    ¬ (q.loop u c []).byTotalLimit ∧
    RECEIVEBYTETIMEOUTMS < RECEIVEGLOBALTIMEOUTMS ∧
    (∀ (lead gap m : Nat) (reading avail : Nat → Nat), (∀ k, avail k = 0) → lead ≤ gap →
      reading 0 ≤ gap → (∀ k, reading (k + 1) ≤ reading k + gap) →
      RECEIVEBYTETIMEOUTMS ≤ reading m →
      ∃ e, e ≤ m ∧ waitLoop reading avail (m + 1) 0 0 = some (e, 0) ∧
        RECEIVEBYTETIMEOUTMS ≤ reading e ∧ reading e < RECEIVEBYTETIMEOUTMS + gap ∧
        (RECEIVEBYTETIMEOUTMS + 2 * gap ≤ RECEIVEGLOBALTIMEOUTMS →
          q.idleReturn lead reading avail (m + 1)
            = some (some (q.returned intBits (q.loop u c []), lead + reading e)) ∧
          lead + reading e < RECEIVEGLOBALTIMEOUTMS)) := by
  have h : q.loop u c (pre ++ rest) = .byteTimeout t := by
    rw [Query.loop, advance_receive q rest pre _ t hpre, receive_silent q t rest hs]
  rw [h]
  refine ⟨rfl, trivial, rfl, ?_, rfl, ?_, by decide, ?_⟩
  · cases q <;> simp [Query.RECEIVEFAILED]
  · simp [Query.loop, Query.receive, Exit.byTotalLimit]
  · intro lead gap m reading avail hav hl h0 hstep hm
    obtain ⟨e, e1, e2, e3, e4⟩ := waitLoop_idle_bound reading avail gap m hav h0 hstep hm
    refine ⟨e, e1, e2, e3, e4, fun hg => ?_⟩
    simp only [RECEIVEBYTETIMEOUTMS, RECEIVEGLOBALTIMEOUTMS] at e3 e4 hg ⊢
    have hlt : lead + reading e < 4294967296 := by omega
    refine ⟨?_, by omega⟩
    simp only [Query.idleReturn, e2, if_true, Nat.mod_eq_of_lt hlt]
    rfl

/-- Witness of C11: `getDuration` after a header and one payload byte, with
the next byte showing up after 100 ms; and a silent line with the clock read
once per millisecond. -/
theorem C11_byte_idle_timeout_witness :
    Query.getDuration.advance (Query.getDuration.entry ⟨1, 2⟩ ⟨7, 8, 9, fun _ => 0⟩)
        (prompt [0xAA, 0x24, 0x03, 0x05])
      = some (Query.getDuration.run (Query.getDuration.entry ⟨1, 2⟩ ⟨7, 8, 9, fun _ => 0⟩)
          (prompt [0xAA, 0x24, 0x03, 0x05])) ∧
    Silent [⟨100, 0x06, 130⟩, ⟨0, 0x07, 130⟩] ∧
    (Query.getDuration.loop ⟨1, 2⟩ ⟨7, 8, 9, fun _ => 0⟩
        (prompt [0xAA, 0x24, 0x03, 0x05] ++ [⟨100, 0x06, 130⟩, ⟨0, 0x07, 130⟩])
      = .byteTimeout (Query.getDuration.run
          (Query.getDuration.entry ⟨1, 2⟩ ⟨7, 8, 9, fun _ => 0⟩)
          (prompt [0xAA, 0x24, 0x03, 0x05]))) ∧
    (Query.getDuration.loop ⟨1, 2⟩ ⟨7, 8, 9, fun _ => 0⟩
        (prompt [0xAA, 0x24, 0x03, 0x05] ++ [⟨100, 0x06, 130⟩, ⟨0, 0x07, 130⟩])).byByteLimit ∧
    Query.getDuration.returned 16 (Query.getDuration.loop ⟨1, 2⟩ ⟨7, 8, 9, fun _ => 0⟩
        (prompt [0xAA, 0x24, 0x03, 0x05] ++ [⟨100, 0x06, 130⟩, ⟨0, 0x07, 130⟩]))
      = Query.getDuration.RECEIVEFAILED ∧
    Query.getDuration.RECEIVEFAILED ∈
      [.byte STATUSUNKNOWN, .byte DRIVEUNKNOWN, .word 0, .int (-1), .bool false] ∧
    Query.getDuration.loop ⟨1, 2⟩ ⟨7, 8, 9, fun _ => 0⟩ []
      = .byteTimeout (Query.getDuration.entry ⟨1, 2⟩ ⟨7, 8, 9, fun _ => 0⟩) ∧
    ¬ (Query.getDuration.loop ⟨1, 2⟩ ⟨7, 8, 9, fun _ => 0⟩ []).byTotalLimit ∧
    RECEIVEBYTETIMEOUTMS < RECEIVEGLOBALTIMEOUTMS ∧
    (∀ k : Nat, (fun _ : Nat => 0) k = 0) ∧ 0 ≤ 1 ∧ (fun k : Nat => k) 0 ≤ 1 ∧
    (∀ k : Nat, (fun k : Nat => k) (k + 1) ≤ (fun k : Nat => k) k + 1) ∧
    RECEIVEBYTETIMEOUTMS ≤ (fun k : Nat => k) 100 ∧
    RECEIVEBYTETIMEOUTMS + 2 * 1 ≤ RECEIVEGLOBALTIMEOUTMS ∧
    (∃ e, e ≤ 100 ∧ waitLoop (fun k => k) (fun _ => 0) (100 + 1) 0 0 = some (e, 0) ∧
      RECEIVEBYTETIMEOUTMS ≤ (fun k : Nat => k) e ∧
      (fun k : Nat => k) e < RECEIVEBYTETIMEOUTMS + 1 ∧
      Query.getDuration.idleReturn 0 (fun k => k) (fun _ => 0) (100 + 1)
        = some (some (Query.getDuration.returned 16
            (Query.getDuration.loop ⟨1, 2⟩ ⟨7, 8, 9, fun _ => 0⟩ []), 0 + (fun k : Nat => k) e)) ∧
      0 + (fun k : Nat => k) e < RECEIVEGLOBALTIMEOUTMS) :=
  (fun T =>
    ⟨rfl, by decide, T.1, T.2.1, T.2.2.1, T.2.2.2.1, T.2.2.2.2.1, T.2.2.2.2.2.1,
      T.2.2.2.2.2.2.1, fun _ => rfl, by decide, by decide, fun _ => le_refl _, by decide,
      by decide,
      (T.2.2.2.2.2.2.2 0 1 100 (fun k => k) (fun _ => 0) (fun _ => rfl) (by decide) (by decide)
        (fun _ => le_refl _) (by decide)).imp
        (fun _ h => ⟨h.1, h.2.1, h.2.2.1, h.2.2.2.1, h.2.2.2.2 (by decide)⟩)⟩)
    (C11_byte_idle_timeout Query.getDuration 16 ⟨1, 2⟩ ⟨7, 8, 9, fun _ => 0⟩
      (prompt [0xAA, 0x24, 0x03, 0x05]) [⟨100, 0x06, 130⟩, ⟨0, 0x07, 130⟩] _ rfl (by decide))

/-- Claim C12: total timeout. For every query operation, when the loop has
read `pre` and goes on, and the next byte `x` arrives inside the byte window
but the clock read after processing it shows more than 500 ms, the loop ends
at the total timeout return at once, whatever follows, and the operation
returns its failure value. This also holds when `x` is the correct checksum
byte of an otherwise valid and timely frame: the variables then satisfy
`data == sum`, and the failure value is returned all the same. When the
clock shows at most 500 ms after every processed byte, the loop never ends
at the total timeout return. -/
theorem C12_total_timeout (q : Query) (intBits : Nat) (u : Uninit) (c : Caller)
    (pre rest : List RxByte) (x : RxByte) (t : Locals)
    (hpre : q.advance (q.entry u c) pre = some t)
    (hw : x.wait < RECEIVEBYTETIMEOUTMS) (hc : RECEIVEGLOBALTIMEOUTMS < x.clock) :
    (q.loop u c (pre ++ x :: rest) = .totalTimeout (q.body t x.data) ∧
      q.returned intBits (q.loop u c (pre ++ x :: rest)) = q.RECEIVEFAILED) ∧
    (∀ (p : List Nat) (fr : List RxByte) (y : RxByte) (more : List RxByte),
      p.length ≤ 255 → Bytes p → (∀ K, q.expected = some K → p.length = K) →
      Timely fr → wire (fr ++ [y]) = emitted q.COMMAND p →
      y.wait < RECEIVEBYTETIMEOUTMS → RECEIVEGLOBALTIMEOUTMS < y.clock →
      (q.loop u c (fr ++ y :: more)).byTotalLimit ∧
      (q.loop u c (fr ++ y :: more)).locals.data = (q.loop u c (fr ++ y :: more)).locals.sum ∧
      q.returned intBits (q.loop u c (fr ++ y :: more)) = q.RECEIVEFAILED) ∧
    (∀ rx : List RxByte, (∀ z ∈ rx, z.clock ≤ RECEIVEGLOBALTIMEOUTMS) →
      ¬ (q.loop u c rx).byTotalLimit) := by
  refine ⟨?_, ?_, ?_⟩
  · have h : q.loop u c (pre ++ x :: rest) = .totalTimeout (q.body t x.data) := by
      rw [Query.loop, advance_receive q (x :: rest) pre _ t hpre, receive_over q t x rest hw hc]
    rw [h]
    exact ⟨rfl, rfl⟩
  · intro p fr y more hlen hb hK ht hwire hyw hyc
    -- the same frame with its last byte processed in time reaches the comparison
    have hy2 : Timely (fr ++ [{ y with clock := 0 }]) := by
      intro z hz
      rcases List.mem_append.mp hz with h | h
      · exact ht z h
      · simp only [List.mem_singleton] at h
        subst h
        exact ⟨hyw, Nat.zero_le _⟩
    have hwire2 : wire (fr ++ [{ y with clock := 0 }]) = emitted q.COMMAND p := by
      rw [← hwire]; simp [wire]
    rw [emitted_eq q.COMMAND p (command_lt q) hlen hb] at hwire2
    obtain ⟨s, h1, h2, h3, _⟩ := loop_frame q u c (fr ++ [{ y with clock := 0 }]) more p
      (checksum q.COMMAND p) hy2 hwire2 hlen hK hb (checksum_lt _ _)
    rw [Query.loop, List.append_assoc, List.singleton_append] at h1
    obtain ⟨t0, a1, a2⟩ := advance_of_compare q s { y with clock := 0 } more fr _ h1
    have h : q.loop u c (fr ++ y :: more) = .totalTimeout (q.body t0 y.data) := by
      rw [Query.loop, advance_receive q (y :: more) fr _ t0 a1, receive_over q t0 y more hyw hyc]
    have a3 : q.body t0 y.data = s := a2
    rw [h, a3]
    exact ⟨trivial, h2.trans h3.symm, rfl⟩
  · intro rx hrx
    exact not_total_of_clock q rx _ hrx

/-- Witness of C12: `getStatus` on a valid frame whose checksum byte is
processed at 501 ms. -/
theorem C12_total_timeout_witness :
    Query.getStatus.advance (Query.getStatus.entry ⟨1, 2⟩ ⟨0, 0, 0, fun _ => 0⟩)
        (prompt [0xAA, 0x01, 0x01, 0x02])
      = some (Query.getStatus.run (Query.getStatus.entry ⟨1, 2⟩ ⟨0, 0, 0, fun _ => 0⟩)
          (prompt [0xAA, 0x01, 0x01, 0x02])) ∧
    (⟨10, 0xAE, 501⟩ : RxByte).wait < RECEIVEBYTETIMEOUTMS ∧
    RECEIVEGLOBALTIMEOUTMS < (⟨10, 0xAE, 501⟩ : RxByte).clock ∧
    (Query.getStatus.loop ⟨1, 2⟩ ⟨0, 0, 0, fun _ => 0⟩
        (prompt [0xAA, 0x01, 0x01, 0x02] ++ ⟨10, 0xAE, 501⟩ :: prompt [0x00])
      = .totalTimeout (Query.getStatus.body
          (Query.getStatus.run (Query.getStatus.entry ⟨1, 2⟩ ⟨0, 0, 0, fun _ => 0⟩)
            (prompt [0xAA, 0x01, 0x01, 0x02])) (⟨10, 0xAE, 501⟩ : RxByte).data) ∧
    Query.getStatus.returned 16 (Query.getStatus.loop ⟨1, 2⟩ ⟨0, 0, 0, fun _ => 0⟩
        (prompt [0xAA, 0x01, 0x01, 0x02] ++ ⟨10, 0xAE, 501⟩ :: prompt [0x00]))
      = Query.getStatus.RECEIVEFAILED) :=
  ⟨rfl, by decide, by decide,
    (C12_total_timeout Query.getStatus 16 ⟨1, 2⟩ ⟨0, 0, 0, fun _ => 0⟩
      (prompt [0xAA, 0x01, 0x01, 0x02]) (prompt [0x00]) ⟨10, 0xAE, 501⟩ _ rfl
      (by decide) (by decide)).1⟩

/-! ## Claims about results and commands -/

/-- Claim C13: big-endian word result. For every pair of bytes `hi`, `lo`
and each of `getFileNumber`, `getTotalFiles`,
`getFirstFileNumberInCurrentDirectory`, `getTotalFilesInCurrentDirectory`, a
stream that starts with the timely checksum-valid frame
`[0xAA, COMMAND, 0x02, hi, lo, k]` ends at the comparison with `data == sum`
and leaves `hi*256 + lo` in `result`, a value below 65536 that the 16 bit
accumulation neither overflows nor truncates; `getFileNumber` returns that
`word`. The opcodes are 0x0D, 0x0C, 0x11 and 0x12. -/
theorem C13_big_endian_word (q : Query) (intBits : Nat) (u : Uninit) (c : Caller)
    (hi lo : Nat) (fr rest : List RxByte)
    (hq : q = .getFileNumber ∨ q = .getTotalFiles ∨
      q = .getFirstFileNumberInCurrentDirectory ∨ q = .getTotalFilesInCurrentDirectory)
    (hhi : hi < 256) (hlo : lo < 256) (ht : Timely fr)
    (hw : wire fr = [0xAA, q.COMMAND, 0x02, hi, lo, checksum q.COMMAND [hi, lo]]) :
    (q.loop u c (fr ++ rest)).success ∧
    (q.loop u c (fr ++ rest)).locals.result = hi * 256 + lo ∧
    hi * 256 + lo < 65536 ∧
    (q = .getFileNumber →
      q.returned intBits (q.loop u c (fr ++ rest)) = .word (hi * 256 + lo)) ∧
    Query.getFileNumber.COMMAND = 0x0D ∧ Query.getTotalFiles.COMMAND = 0x0C ∧
    Query.getFirstFileNumberInCurrentDirectory.COMMAND = 0x11 ∧
    Query.getTotalFilesInCurrentDirectory.COMMAND = 0x12 := by
  have he : q.expected = some 2 := by
    rcases hq with h | h | h | h <;> subst h <;> rfl
  have hb : Bytes [hi, lo] := by
    intro b hb
    simp only [List.mem_cons, List.mem_singleton, List.not_mem_nil, or_false] at hb
    rcases hb with h | h <;> rw [h] <;> assumption
  obtain ⟨t, h1, h2, h3, h4⟩ := loop_frame q u c fr rest [hi, lo] (checksum q.COMMAND [hi, lo])
    ht hw (by simp) (fun K hK => by rw [he] at hK; rw [← Option.some.inj hK]; rfl) hb
    (checksum_lt _ _)
  have hr : t.result = hi * 256 + lo := by
    rcases hq with h | h | h | h <;> subst h <;> simpa [Delivers] using h4
  rw [h1]
  refine ⟨h2.trans h3.symm, hr, by omega, ?_, rfl, rfl, rfl, rfl⟩
  intro hq2
  subst hq2
  simp [Query.returned, Query.accepted, h2, h3, hr]

/-- Witness of C13: `getFileNumber` on the payload `[0xFF, 0xFF]` returns
65535. -/
theorem C13_big_endian_word_witness :
    (Query.getFileNumber = .getFileNumber ∨ Query.getFileNumber = .getTotalFiles ∨
      Query.getFileNumber = .getFirstFileNumberInCurrentDirectory ∨
      Query.getFileNumber = .getTotalFilesInCurrentDirectory) ∧
    (0xFF : Nat) < 256 ∧ (0xFF : Nat) < 256 ∧
    Timely (prompt [0xAA, 0x0D, 0x02, 0xFF, 0xFF, 0xB7]) ∧
    wire (prompt [0xAA, 0x0D, 0x02, 0xFF, 0xFF, 0xB7])
      = [0xAA, Query.getFileNumber.COMMAND, 0x02, 0xFF, 0xFF,
          checksum Query.getFileNumber.COMMAND [0xFF, 0xFF]] ∧
    (Query.getFileNumber.loop ⟨1, 2⟩ ⟨0, 0, 0, fun _ => 0⟩
      (prompt [0xAA, 0x0D, 0x02, 0xFF, 0xFF, 0xB7] ++ [])).locals.result = 0xFF * 256 + 0xFF ∧
    Query.getFileNumber.returned 16 (Query.getFileNumber.loop ⟨1, 2⟩ ⟨0, 0, 0, fun _ => 0⟩
      (prompt [0xAA, 0x0D, 0x02, 0xFF, 0xFF, 0xB7] ++ [])) = .word 65535 :=
  ⟨by decide, by decide, by decide, by decide, by decide,
    (C13_big_endian_word Query.getFileNumber 16 ⟨1, 2⟩ ⟨0, 0, 0, fun _ => 0⟩ 0xFF 0xFF
      (prompt [0xAA, 0x0D, 0x02, 0xFF, 0xFF, 0xB7]) [] (by decide) (by decide) (by decide)
      (by decide) (by decide)).2.1,
    (C13_big_endian_word Query.getFileNumber 16 ⟨1, 2⟩ ⟨0, 0, 0, fun _ => 0⟩ 0xFF 0xFF
      (prompt [0xAA, 0x0D, 0x02, 0xFF, 0xFF, 0xB7]) [] (by decide) (by decide) (by decide)
      (by decide) (by decide)).2.2.2.1 rfl⟩

/-- Claim C14: for every byte `v`, `setVolume(v)` appends exactly the frame
`[0xAA, 0x13, 0x01, w, s]` with `w = min(v, 30)` and
`s = (0xAA + 0x13 + 0x01 + w) mod 256`; the volume byte written is at most
30. -/
theorem C14_setVolume_clamps (v : Nat) (dev : Device) (hv : v < 256) :
    (setVolume v dev).written
      = dev.written ++ [0xAA, 0x13, 0x01, min v 30, (0xAA + 0x13 + 0x01 + min v 30) % 256] ∧
    min v 30 ≤ 30 := by
  have e : v % 256 = v := Nat.mod_eq_of_lt hv
  refine ⟨?_, Nat.min_le_right v 30⟩
  by_cases h : v > 30
  · have hm : min v 30 = 30 := Nat.min_eq_right (by omega)
    simp [setVolume, e, h, hm, sendCheckSum, sendDataByte, sendStartingCode, STARTINGCODE]
  · have hm : min v 30 = v := Nat.min_eq_left (by omega)
    have e3 : v % 256 = v := e
    simp [setVolume, e, h, hm, sendCheckSum, sendDataByte, sendStartingCode, STARTINGCODE]

/-- Witness of C14: `setVolume(200)`. -/
theorem C14_setVolume_clamps_witness :
    (200 : Nat) < 256 ∧
    ((setVolume 200 { m_checksum := 9, written := [1] }).written
      = [1] ++ [0xAA, 0x13, 0x01, min 200 30, (0xAA + 0x13 + 0x01 + min 200 30) % 256] ∧
    min 200 30 ≤ 30) :=
  ⟨by decide, C14_setVolume_clamps 200 { m_checksum := 9, written := [1] } (by decide)⟩

/-- Claim C15, as stated, fails for the operations with a string argument:
`playFileByName` with the valid drive 0 writes nothing when `path` is null,
and for a path of 255 characters it writes the length byte 0 in front of 256
payload bytes, which is not a well-formed frame. -/
theorem C15_counterexample :
    (0 : Nat) < DRIVEUNKNOWN ∧
    (playFileByName none 0 { m_checksum := 5, written := [9] }).written = [9] ∧
    (List.replicate 255 0x2A).length = 255 ∧
    ((playFileByName (some (List.replicate 255 0x2A)) 0
        { m_checksum := 0, written := [] }).written).getD 2 7 = 0 ∧
    ((playFileByName (some (List.replicate 255 0x2A)) 0
        { m_checksum := 0, written := [] }).written).length = 3 + 256 + 1 :=
  ⟨by decide, by decide, List.length_replicate _ _,
    (long_path_frame (List.replicate 255 0x2A) 0 { m_checksum := 0, written := [] }
      (by decide) (List.length_replicate _ _)).1,
    (long_path_frame (List.replicate 255 0x2A) 0 { m_checksum := 0, written := [] }
      (by decide) (List.length_replicate _ _)).2.trans (Nat.zero_add _)⟩

/-- Claim C15, amended: selector validation. `setEqualizer` with a mode of 5
or more, `setLoopMode` with a mode of 8 or more, `setChannel` with a channel
of 3 or more, and `setDrive`, `playFileByName`, `insertFileByNumber`,
`setDirectory` with a drive of 3 or more leave the device as it is: no byte
is written and `m_checksum` keeps its value. For every selector below its
bound `setEqualizer`, `setLoopMode`, `setChannel`, `setDrive` and
`insertFileByNumber` write one well-formed frame that carries the selector
byte unchanged, and so do `playFileByName` and `setDirectory` for a non-null
path of at most 254 characters. -/
theorem C15_selector_validation (dev : Device) :
    (∀ mode, mode < 256 → EQUNKNOWN ≤ mode → setEqualizer mode dev = dev) ∧
    (∀ mode, mode < 256 → PLAYMODEUNKNOWN ≤ mode → setLoopMode mode dev = dev) ∧
    (∀ channel, channel < 256 → CHANNELUNKNOWN ≤ channel → setChannel channel dev = dev) ∧
    (∀ drive, drive < 256 → DRIVEUNKNOWN ≤ drive →
      setDrive drive dev = dev ∧
      (∀ path, playFileByName path drive dev = dev) ∧
      (∀ track, insertFileByNumber track drive dev = dev) ∧
      (∀ path, setDirectory path drive dev = dev)) ∧
    (∀ mode, mode < EQUNKNOWN → (setEqualizer mode dev).written
      = dev.written ++ [0xAA, 0x1A, 0x01, mode, (0xAA + 0x1A + 0x01 + mode) % 256]) ∧
    (∀ mode, mode < PLAYMODEUNKNOWN → (setLoopMode mode dev).written
      = dev.written ++ [0xAA, 0x18, 0x01, mode, (0xAA + 0x18 + 0x01 + mode) % 256]) ∧
    (∀ channel, channel < CHANNELUNKNOWN → (setChannel channel dev).written
      = dev.written ++ [0xAA, 0x1D, 0x01, channel, (0xAA + 0x1D + 0x01 + channel) % 256]) ∧
    (∀ drive, drive < DRIVEUNKNOWN →
      (setDrive drive dev).written
        = dev.written ++ [0xAA, 0x0B, 0x01, drive, (0xAA + 0x0B + 0x01 + drive) % 256] ∧
      (∀ track, (insertFileByNumber track drive dev).written
        = dev.written ++ [0xAA, 0x16, 0x03, drive, track / 256 % 256, track % 256,
            (0xAA + 0x16 + 0x03 + drive + track / 256 % 256 + track % 256) % 256]) ∧
      (∀ path, path.length ≤ 254 → Bytes path →
        (playFileByName (some path) drive dev).written
          = dev.written ++ (0xAA :: 0x08 :: (path.length + 1) :: drive
              :: (path ++ [(0xAA :: 0x08 :: (path.length + 1) :: drive :: path).sum % 256])) ∧
        (setDirectory (some path) drive dev).written
          = dev.written ++ (0xAA :: 0x17 :: (path.length + 1) :: drive
              :: (path ++ [(0xAA :: 0x17 :: (path.length + 1) :: drive :: path).sum % 256])))) := by
  refine ⟨?_, ?_, ?_, ?_, ?_, ?_, ?_, ?_⟩
  · intro mode h1 h2
    simp [setEqualizer, Nat.mod_eq_of_lt h1, h2]
  · intro mode h1 h2
    simp [setLoopMode, Nat.mod_eq_of_lt h1, h2]
  · intro channel h1 h2
    simp [setChannel, Nat.mod_eq_of_lt h1, h2]
  · intro drive h1 h2
    refine ⟨?_, ?_, ?_, ?_⟩
    · simp [setDrive, Nat.mod_eq_of_lt h1, h2]
    · intro path
      cases path <;> simp [playFileByName, Nat.mod_eq_of_lt h1, h2]
    · intro track
      simp [insertFileByNumber, Nat.mod_eq_of_lt h1, h2]
    · intro path
      cases path <;> simp [setDirectory, Nat.mod_eq_of_lt h1, h2]
  · intro mode h
    have h1 : mode < 256 := by simp only [EQUNKNOWN] at h; omega
    have h2 : ¬ mode ≥ EQUNKNOWN := by omega
    simp only [setEqualizer, Nat.mod_eq_of_lt h1, h2, if_false]
    exact selector_frame 0x1A mode dev (by decide) h1
  · intro mode h
    have h1 : mode < 256 := by simp only [PLAYMODEUNKNOWN] at h; omega
    have h2 : ¬ mode ≥ PLAYMODEUNKNOWN := by omega
    simp only [setLoopMode, Nat.mod_eq_of_lt h1, h2, if_false]
    exact selector_frame 0x18 mode dev (by decide) h1
  · intro channel h
    have h1 : channel < 256 := by simp only [CHANNELUNKNOWN] at h; omega
    have h2 : ¬ channel ≥ CHANNELUNKNOWN := by omega
    simp only [setChannel, Nat.mod_eq_of_lt h1, h2, if_false]
    exact selector_frame 0x1D channel dev (by decide) h1
  · intro drive h
    have h1 : drive < 256 := by simp only [DRIVEUNKNOWN] at h; omega
    have h2 : ¬ drive ≥ DRIVEUNKNOWN := by omega
    refine ⟨?_, ?_, ?_⟩
    · simp only [setDrive, Nat.mod_eq_of_lt h1, h2, if_false]
      exact selector_frame 0x0B drive dev (by decide) h1
    · intro track
      have e1 : track / 256 % 256 % 256 = track / 256 % 256 := by omega
      have e2 : track % 256 % 256 = track % 256 := by omega
      simp [insertFileByNumber, Nat.mod_eq_of_lt h1, h2, sendCheckSum, sendDataByte,
        sendStartingCode, STARTINGCODE, e1, e2]
      omega
    · intro path hl hb
      constructor
      · simp only [playFileByName, Nat.mod_eq_of_lt h1, h2, if_false]
        exact path_frame 0x08 drive path dev (by decide) h1 hl hb
      · simp only [setDirectory, Nat.mod_eq_of_lt h1, h2, if_false]
        exact path_frame 0x17 drive path dev (by decide) h1 hl hb

/-- Witness of C15: `setEqualizer(7)` and `playFileByName` on drive 200 write
nothing; `setChannel(2)` and `setDirectory("/A", 1)` write their frames. -/
theorem C15_selector_validation_witness :
    ((7 : Nat) < 256 ∧ EQUNKNOWN ≤ 7 ∧
      setEqualizer 7 { m_checksum := 4, written := [1] } = { m_checksum := 4, written := [1] }) ∧
    ((200 : Nat) < 256 ∧ DRIVEUNKNOWN ≤ 200 ∧
      playFileByName (some [0x2F, 0x41]) 200 { m_checksum := 4, written := [1] }
        = { m_checksum := 4, written := [1] }) ∧
    ((2 : Nat) < CHANNELUNKNOWN ∧
      (setChannel 2 { m_checksum := 4, written := [1] }).written
        = [1] ++ [0xAA, 0x1D, 0x01, 2, (0xAA + 0x1D + 0x01 + 2) % 256]) ∧
    ((1 : Nat) < DRIVEUNKNOWN ∧ [0x2F, 0x41].length ≤ 254 ∧ Bytes [0x2F, 0x41] ∧
      (setDirectory (some [0x2F, 0x41]) 1 { m_checksum := 4, written := [1] }).written
        = [1] ++ (0xAA :: 0x17 :: ([0x2F, 0x41].length + 1) :: 1
            :: ([0x2F, 0x41] ++ [(0xAA :: 0x17 :: ([0x2F, 0x41].length + 1) :: 1
              :: [0x2F, 0x41]).sum % 256]))) :=
  ⟨⟨by decide, by decide,
      (C15_selector_validation { m_checksum := 4, written := [1] }).1 7 (by decide) (by decide)⟩,
    ⟨by decide, by decide,
      ((C15_selector_validation { m_checksum := 4, written := [1] }).2.2.2.1 200 (by decide)
        (by decide)).2.1 (some [0x2F, 0x41])⟩,
    ⟨by decide,
      (C15_selector_validation { m_checksum := 4, written := [1] }).2.2.2.2.2.2.1 2
        (by decide)⟩,
    ⟨by decide, by decide, by decide,
      (((C15_selector_validation { m_checksum := 4, written := [1] }).2.2.2.2.2.2.2 1
        (by decide)).2.2 [0x2F, 0x41] (by decide) (by decide)).2⟩⟩

/-- Claim C16: for every drive below 3 and every non-null path of at most
254 characters, `playFileByName(path, drive)` appends the frame
`[0xAA, 0x08, L, drive, path..., s]` whose length byte `L = 1 + strlen(path)`
is the number of payload bytes written (the drive and the characters) and
whose checksum `s` is the sum of all preceding frame bytes mod 256;
`setDirectory` does the same with the opcode 0x17. -/
theorem C16_path_frames (path : List Nat) (drive : Nat) (dev : Device)
    (hd : drive < DRIVEUNKNOWN) (hl : path.length ≤ 254) (hb : Bytes path) :
    (playFileByName (some path) drive dev).written
      = dev.written ++ (0xAA :: 0x08 :: (path.length + 1) :: drive
          :: (path ++ [(0xAA :: 0x08 :: (path.length + 1) :: drive :: path).sum % 256])) ∧
    (setDirectory (some path) drive dev).written
      = dev.written ++ (0xAA :: 0x17 :: (path.length + 1) :: drive
          :: (path ++ [(0xAA :: 0x17 :: (path.length + 1) :: drive :: path).sum % 256])) ∧
    path.length + 1 = (drive :: path).length ∧ path.length + 1 < 256 := by
  have h1 : drive < 256 := by simp only [DRIVEUNKNOWN] at hd; omega
  have h2 : ¬ drive ≥ DRIVEUNKNOWN := by omega
  refine ⟨?_, ?_, by simp, by omega⟩
  · simp only [playFileByName, Nat.mod_eq_of_lt h1, h2, if_false]
    exact path_frame 0x08 drive path dev (by decide) h1 hl hb
  · simp only [setDirectory, Nat.mod_eq_of_lt h1, h2, if_false]
    exact path_frame 0x17 drive path dev (by decide) h1 hl hb

/-- Witness of C16: the path `/10*` on drive 2. -/
theorem C16_path_frames_witness :
    (2 : Nat) < DRIVEUNKNOWN ∧ [0x2F, 0x31, 0x30, 0x2A].length ≤ 254 ∧
    Bytes [0x2F, 0x31, 0x30, 0x2A] ∧
    ((playFileByName (some [0x2F, 0x31, 0x30, 0x2A]) 2 { m_checksum := 3, written := [] }).written
      = [] ++ (0xAA :: 0x08 :: ([0x2F, 0x31, 0x30, 0x2A].length + 1) :: 2
          :: ([0x2F, 0x31, 0x30, 0x2A] ++ [(0xAA :: 0x08
            :: ([0x2F, 0x31, 0x30, 0x2A].length + 1) :: 2
            :: [0x2F, 0x31, 0x30, 0x2A]).sum % 256])) ∧
    (setDirectory (some [0x2F, 0x31, 0x30, 0x2A]) 2 { m_checksum := 3, written := [] }).written
      = [] ++ (0xAA :: 0x17 :: ([0x2F, 0x31, 0x30, 0x2A].length + 1) :: 2
          :: ([0x2F, 0x31, 0x30, 0x2A] ++ [(0xAA :: 0x17
            :: ([0x2F, 0x31, 0x30, 0x2A].length + 1) :: 2
            :: [0x2F, 0x31, 0x30, 0x2A]).sum % 256])) ∧
    [0x2F, 0x31, 0x30, 0x2A].length + 1 = (2 :: [0x2F, 0x31, 0x30, 0x2A]).length ∧
    [0x2F, 0x31, 0x30, 0x2A].length + 1 < 256) :=
  ⟨by decide, by decide, by decide,
    C16_path_frames [0x2F, 0x31, 0x30, 0x2A] 2 { m_checksum := 3, written := [] }
      (by decide) (by decide) (by decide)⟩

/-- Claim C17: `playCombined(list)` leaves the device as it is when
`strlen(list)` is odd; for every list of even length `n <= 255` it appends
exactly `[0xAA, 0x1B, n, list..., s]` with `s` the sum of all preceding frame
bytes mod 256; `playCombined("0103")` appends
`[0xAA, 0x1B, 0x04, 0x30, 0x31, 0x30, 0x33, 0x8D]`. -/
theorem C17_playCombined (list : List Nat) (dev : Device) :
    (list.length % 2 = 1 → playCombined (some list) dev = dev) ∧
    (list.length % 2 = 0 → list.length ≤ 255 → Bytes list →
      (playCombined (some list) dev).written
        = dev.written ++ (0xAA :: 0x1B :: list.length
            :: (list ++ [(0xAA :: 0x1B :: list.length :: list).sum % 256]))) ∧
    (playCombined (some [0x30, 0x31, 0x30, 0x33]) dev).written
      = dev.written ++ [0xAA, 0x1B, 0x04, 0x30, 0x31, 0x30, 0x33, 0x8D] := by
  refine ⟨?_, ?_, ?_⟩
  · intro h
    simp [playCombined, h]
  · intro h hl hb
    have h2 : ¬ list.length % 2 ≠ 0 := by omega
    simp only [playCombined, h2, if_false]
    rw [frame_written 0x1B list dev (by decide) hl hb]
    simp [checksum]
    omega
  · simp [playCombined, sendPayload, sendCheckSum, sendDataByte, sendStartingCode, STARTINGCODE]

/-- Witness of C17: a list of one character and the list `0102`. -/
theorem C17_playCombined_witness :
    ([0x30].length % 2 = 1 ∧
      playCombined (some [0x30]) { m_checksum := 4, written := [1] }
        = { m_checksum := 4, written := [1] }) ∧
    ([0x30, 0x31, 0x30, 0x32].length % 2 = 0 ∧ [0x30, 0x31, 0x30, 0x32].length ≤ 255 ∧
      Bytes [0x30, 0x31, 0x30, 0x32] ∧
      (playCombined (some [0x30, 0x31, 0x30, 0x32]) { m_checksum := 4, written := [1] }).written
        = [1] ++ (0xAA :: 0x1B :: [0x30, 0x31, 0x30, 0x32].length
            :: ([0x30, 0x31, 0x30, 0x32] ++ [(0xAA :: 0x1B :: [0x30, 0x31, 0x30, 0x32].length
              :: [0x30, 0x31, 0x30, 0x32]).sum % 256]))) :=
  ⟨⟨by decide, (C17_playCombined [0x30] { m_checksum := 4, written := [1] }).1 (by decide)⟩,
    ⟨by decide, by decide, by decide,
      (C17_playCombined [0x30, 0x31, 0x30, 0x32] { m_checksum := 4, written := [1] }).2.1
        (by decide) (by decide) (by decide)⟩⟩

/-- Claim C18: for every payload `p` of `L` bytes, `L` in 0..255, a stream
that starts with the timely checksum-valid frame `[0xAA, 0x1E, L, p..., k]`
makes `getFileName` end at the comparison with `data == sum` and return
`true`, with `name[0..L-1]` equal to `p` and `name[L] = 0`, and nothing after
the frame read. The loop of `getFileName` has no test on the length byte: in
a frame attempt every length byte `L` is taken as `length` and the loop moves
on to the payload. -/
theorem C18_getFileName (name : Nat → Nat) (u : Uninit) (dev : Device) (p : List Nat)
    (fr rest : List RxByte) (hlen : p.length ≤ 255) (hb : Bytes p) (ht : Timely fr)
    (hw : wire fr = 0xAA :: 0x1E :: p.length :: (p ++ [checksum 0x1E p])) :
    (getFileName name u dev (fr ++ rest)).exit.success ∧
    (getFileName name u dev (fr ++ rest)).ret = .bool true ∧
    (∀ k, k < p.length → (getFileName name u dev (fr ++ rest)).exit.locals.name k = p.getD k 0) ∧
    (getFileName name u dev (fr ++ rest)).exit.locals.name p.length = 0 ∧
    (getFileName name u dev (fr ++ rest)).exit.unread = rest ∧
    Query.getFileName.expected = none ∧
    (∀ (s : Locals) (L : Nat), s.i = 2 → s.firstByte = 0xAA → L < 256 →
      (Query.getFileName.body s L).i = 3 ∧ (Query.getFileName.body s L).length = L) := by
  obtain ⟨t, h1, h2, h3, h4⟩ := loop_frame Query.getFileName u ⟨0, 0, 0, name⟩ fr rest p
    (checksum 0x1E p) ht hw hlen (fun K hK => by simp [Query.expected] at hK) hb
    (checksum_lt _ _)
  have h5 : t.data = t.sum := h2.trans h3.symm
  have h6 : (getFileName name u dev (fr ++ rest)).exit = .compare t rest := h1
  have h7 : (getFileName name u dev (fr ++ rest)).ret = .bool true := by
    show Query.getFileName.returned 16 (Query.getFileName.loop u ⟨0, 0, 0, name⟩ (fr ++ rest)) = _
    rw [h1]
    simp [Query.returned, Query.accepted, h5]
  rw [h6]
  refine ⟨h5, h7, h4.1, h4.2, rfl, rfl, ?_⟩
  intro s L hi hf hL
  rw [body_len_ok Query.getFileName s L hi hf (fun K hK => by simp [Query.expected] at hK)]
  simp [Nat.mod_eq_of_lt hL]

/-- Witness of C18: the name `TE`. -/
theorem C18_getFileName_witness :
    [0x54, 0x45].length ≤ 255 ∧ Bytes [0x54, 0x45] ∧
    Timely (prompt [0xAA, 0x1E, 0x02, 0x54, 0x45, 0x63]) ∧
    wire (prompt [0xAA, 0x1E, 0x02, 0x54, 0x45, 0x63])
      = 0xAA :: 0x1E :: [0x54, 0x45].length :: ([0x54, 0x45] ++ [checksum 0x1E [0x54, 0x45]]) ∧
    (getFileName (fun _ => 0x58) ⟨1, 2⟩ ⟨0, []⟩
      (prompt [0xAA, 0x1E, 0x02, 0x54, 0x45, 0x63] ++ [])).ret = .bool true :=
  ⟨by decide, by decide, by decide, by decide,
    (C18_getFileName (fun _ => 0x58) ⟨1, 2⟩ ⟨0, []⟩ [0x54, 0x45]
      (prompt [0xAA, 0x1E, 0x02, 0x54, 0x45, 0x63]) [] (by decide) (by decide) (by decide)
      (by decide)).2.1⟩

/-! ## Claims about resynchronisation -/

/-- Claim C19: seek-start discards noise. For every query operation, every
timely sequence `gs` of bytes none of which is 0xAA and every stream `rest`,
decoding `gs ++ rest` has the same outcome as decoding `rest` alone: the same
exit, the same objects visible to the caller, the same `data`, `sum` and
unread bytes at the comparison, hence the same returned value. After `gs`
the loop is in the seek state with the result variables of the entry, and the
running sum after the next byte is what it is without `gs`. -/
theorem C19_seek_discards_noise (q : Query) (intBits : Nat) (u : Uninit) (c : Caller)
    (gs rest : List RxByte) (ht : Timely gs)
    (hg : ∀ x ∈ gs, x.data < 256 ∧ x.data ≠ 0xAA) :
    (q.loop u c (gs ++ rest)).agrees (q.loop u c rest) ∧
    q.returned intBits (q.loop u c (gs ++ rest)) = q.returned intBits (q.loop u c rest) ∧
    ((q.loop u c (gs ++ rest)).success ↔ (q.loop u c rest).success) ∧
    (∃ t, q.advance (q.entry u c) gs = some t ∧ t.i = 0 ∧ t.sameOutputs (q.entry u c) ∧
      ∀ b, (q.body t b).sum = (q.body (q.entry u c) b).sum) := by
  have hgx : ∀ x ∈ gs, x.data % 256 ≠ 0xAA := by
    intro x hx
    have := hg x hx
    rw [Nat.mod_eq_of_lt this.1]; exact this.2
  obtain ⟨t, a1, a2, a3⟩ := seek_advance q gs (q.entry u c) (entry_i q u c) ht hgx
  have hag : (q.loop u c (gs ++ rest)).agrees (q.loop u c rest) := by
    rw [Query.loop, advance_receive q rest gs _ t a1]
    exact receive_alike q rest t _ (alike_seek a2 (entry_i q u c) a3)
  refine ⟨hag, returned_agrees q intBits hag, ?_,
    t, a1, a2, a3, fun b => body_sum_seek q t _ b a2 (entry_i q u c)⟩
  revert hag
  cases q.loop u c (gs ++ rest) <;> cases q.loop u c rest <;>
    simp [Exit.agrees, Exit.success]
  intro _ h1 h2 _
  rw [h1, h2]

/-- Witness of C19: `getStatus` on three noise bytes in front of a valid
frame. -/
theorem C19_seek_discards_noise_witness :
    Timely (prompt [0x00, 0x01, 0x55]) ∧
    (∀ x ∈ prompt [0x00, 0x01, 0x55], x.data < 256 ∧ x.data ≠ 0xAA) ∧
    (Query.getStatus.returned 16 (Query.getStatus.loop ⟨1, 2⟩ ⟨0, 0, 0, fun _ => 0⟩
        (prompt [0x00, 0x01, 0x55] ++ prompt [0xAA, 0x01, 0x01, 0x02, 0xAE]))
      = Query.getStatus.returned 16 (Query.getStatus.loop ⟨1, 2⟩ ⟨0, 0, 0, fun _ => 0⟩
        (prompt [0xAA, 0x01, 0x01, 0x02, 0xAE]))) :=
  ⟨by decide, by decide,
    (C19_seek_discards_noise Query.getStatus 16 ⟨1, 2⟩ ⟨0, 0, 0, fun _ => 0⟩
      (prompt [0x00, 0x01, 0x55]) (prompt [0xAA, 0x01, 0x01, 0x02, 0xAE])
      (by decide) (by decide)).2.1⟩

/-- Claim C20: opcode mismatch discard. For every query operation, every
byte `b` other than its opcode (0xAA included) and every stream `rest`,
decoding the timely bytes `[0xAA, b]` followed by `rest` has the same outcome
as decoding `rest` alone. The byte `b` is not tested as a start marker: when
`b` starts a well-formed timely frame for the query, with no further 0xAA in
it, that frame alone is accepted, but after the extra 0xAA in front of it the
loop does not reach a successful comparison. -/
theorem C20_opcode_mismatch_discard (q : Query) (intBits : Nat) (u : Uninit) (c : Caller)
    (x0 x1 : RxByte) (rest : List RxByte) (ht : Timely [x0, x1])
    (h0 : x0.data = 0xAA) (hb : x1.data < 256) (hne : x1.data ≠ q.COMMAND) :
    (q.loop u c (x0 :: x1 :: rest)).agrees (q.loop u c rest) ∧
    q.returned intBits (q.loop u c (x0 :: x1 :: rest)) = q.returned intBits (q.loop u c rest) ∧
    ((q.loop u c (x0 :: x1 :: rest)).success ↔ (q.loop u c rest).success) ∧
    (∀ p : List Nat, p.length ≤ 255 → Bytes p → (∀ K, q.expected = some K → p.length = K) →
      Timely rest → wire (x1 :: rest) = emitted q.COMMAND p →
      (∀ v ∈ p.length :: (p ++ [checksum q.COMMAND p]), v ≠ 0xAA) →
      (q.loop u c (x1 :: rest)).success ∧ ¬ (q.loop u c (x0 :: x1 :: rest)).success) := by
  obtain ⟨⟨w0, c0⟩, ht1⟩ := timely_cons ht
  obtain ⟨⟨w1, c1⟩, _⟩ := timely_cons ht1
  have m1 : x1.data % 256 ≠ q.COMMAND := by rw [Nat.mod_eq_of_lt hb]; exact hne
  have hl : q.loop u c (x0 :: x1 :: rest)
      = q.receive { ({ q.entry u c with data := 0xAA, firstByte := 0xAA, sum := 0xAA, i := 1 }
          : Locals) with data := x1.data % 256, firstByte := 0, i := 0 } rest := by
    rw [Query.loop, receive_start q _ x0 _ w0 c0 (entry_i q u c) (by rw [h0]),
      receive_cmd_bad q _ x1 _ w1 c1 rfl m1]
  have hag : (q.loop u c (x0 :: x1 :: rest)).agrees (q.loop u c rest) := by
    rw [hl]
    exact receive_alike q rest _ _ (alike_seek rfl (entry_i q u c) ⟨rfl, rfl, rfl, rfl, rfl⟩)
  have hiff : (q.loop u c (x0 :: x1 :: rest)).success ↔ (q.loop u c rest).success := by
    revert hag
    cases q.loop u c (x0 :: x1 :: rest) <;> cases q.loop u c rest <;>
      simp [Exit.agrees, Exit.success]
    intro _ h1 h2 _
    rw [h1, h2]
  refine ⟨hag, returned_agrees q intBits hag, hiff, ?_⟩
  intro p hlen hbp hK htr hw hfree
  have htf : Timely (x1 :: rest) := timely_mk ⟨w1, c1⟩ htr
  have hw2 := hw
  rw [emitted_eq q.COMMAND p (command_lt q) hlen hbp] at hw2
  obtain ⟨t, r1, r2, r3, _⟩ := loop_frame q u c (x1 :: rest) [] p (checksum q.COMMAND p) htf hw2
    hlen hK hbp (checksum_lt _ _)
  rw [List.append_nil] at r1
  refine ⟨by rw [r1]; exact r2.trans r3.symm, ?_⟩
  rw [hiff]
  apply not_success_of_timeout
  apply seek_timeout q rest _ (entry_i q u c)
  intro z hz
  simp only [wire, List.map_cons, List.cons.injEq] at hw2
  obtain ⟨_, hw3⟩ := hw2
  have hm : z.data ∈ q.COMMAND :: p.length :: (p ++ [checksum q.COMMAND p]) := by
    rw [← hw3]; exact List.mem_map_of_mem _ hz
  have hzb : z.data < 256 ∧ z.data ≠ 0xAA := by
    rcases List.mem_cons.mp hm with h | h
    · rw [h]; exact ⟨command_lt q, command_ne_start q⟩
    · refine ⟨?_, hfree _ h⟩
      rcases List.mem_cons.mp h with h | h
      · rw [h]; omega
      · rcases List.mem_append.mp h with h | h
        · exact hbp _ h
        · simp only [List.mem_singleton] at h
          rw [h]; exact checksum_lt _ _
  rw [Nat.mod_eq_of_lt hzb.1]; exact hzb.2

/-- Witness of C20: `getStatus` on a valid frame, alone and behind an extra
0xAA. -/
theorem C20_opcode_mismatch_discard_witness :
    Timely [(⟨0, 0xAA, 0⟩ : RxByte), ⟨0, 0xAA, 0⟩] ∧ (⟨0, 0xAA, 0⟩ : RxByte).data = 0xAA ∧
    (⟨0, 0xAA, 0⟩ : RxByte).data < 256 ∧
    (⟨0, 0xAA, 0⟩ : RxByte).data ≠ Query.getStatus.COMMAND ∧
    Timely (prompt [0x01, 0x01, 0x02, 0xAE]) ∧
    wire (⟨0, 0xAA, 0⟩ :: prompt [0x01, 0x01, 0x02, 0xAE]) = emitted Query.getStatus.COMMAND [0x02] ∧
    ((Query.getStatus.loop ⟨1, 2⟩ ⟨0, 0, 0, fun _ => 0⟩
        (⟨0, 0xAA, 0⟩ :: prompt [0x01, 0x01, 0x02, 0xAE])).success ∧
     ¬ (Query.getStatus.loop ⟨1, 2⟩ ⟨0, 0, 0, fun _ => 0⟩
        (⟨0, 0xAA, 0⟩ :: ⟨0, 0xAA, 0⟩ :: prompt [0x01, 0x01, 0x02, 0xAE])).success) :=
  ⟨by decide, by decide, by decide, by decide, by decide, by decide,
    (C20_opcode_mismatch_discard Query.getStatus 16 ⟨1, 2⟩ ⟨0, 0, 0, fun _ => 0⟩
      ⟨0, 0xAA, 0⟩ ⟨0, 0xAA, 0⟩ (prompt [0x01, 0x01, 0x02, 0xAE])
      (by decide) (by decide) (by decide) (by decide)).2.2.2 [0x02]
      (by decide) (by decide) (by decide) (by decide) (by decide) (by decide)⟩

/-! ## Claims about resynchronisation, terminal comparison and call state -/

/-- Claim C21: length mismatch resync. For every query operation with a fixed
length `N`, every byte `l` other than `N` and every stream `rest`, decoding
the timely bytes `[0xAA, COMMAND, l]` followed by `rest` has the same outcome
as decoding `rest` alone: the same exit, the same objects visible to the
caller, the same `data`, `sum` and unread bytes at the comparison, hence the
same returned value. After the rejected header the loop is in the seek state
(`i = 0`, `firstByte = 0`) with the stale values `length = l` and
`sum = 0xAA + COMMAND`, and the result variables of the entry; the stale
values do not show in the outcome. -/
theorem C21_length_mismatch_resync (q : Query) (N intBits : Nat) (u : Uninit) (c : Caller)
    (x0 x1 x2 : RxByte) (rest : List RxByte) (hq : q.expected = some N)
    (ht : Timely [x0, x1, x2]) (h0 : x0.data = 0xAA) (h1 : x1.data = q.COMMAND)
    (hb : x2.data < 256) (hne : x2.data ≠ N) :
    (q.loop u c (x0 :: x1 :: x2 :: rest)).agrees (q.loop u c rest) ∧
    q.returned intBits (q.loop u c (x0 :: x1 :: x2 :: rest))
      = q.returned intBits (q.loop u c rest) ∧
    ((q.loop u c (x0 :: x1 :: x2 :: rest)).success ↔ (q.loop u c rest).success) ∧
    (∃ t, q.advance (q.entry u c) [x0, x1, x2] = some t ∧ t.i = 0 ∧ t.firstByte = 0 ∧
      t.length = x2.data ∧ t.sum = (0xAA + q.COMMAND) % 256 ∧ t.sameOutputs (q.entry u c)) := by
  obtain ⟨⟨w0, c0⟩, ht1⟩ := timely_cons ht
  obtain ⟨⟨w1, c1⟩, ht2⟩ := timely_cons ht1
  obtain ⟨⟨w2, c2⟩, _⟩ := timely_cons ht2
  have m1 : x1.data % 256 = q.COMMAND := by rw [h1]; exact Nat.mod_eq_of_lt (command_lt q)
  have m2 : x2.data % 256 ≠ N := by rw [Nat.mod_eq_of_lt hb]; exact hne
  have hl : ∀ more, q.receive (q.entry u c) (x0 :: x1 :: x2 :: more)
      = q.receive { q.entry u c with
          data := x2.data % 256, length := x2.data % 256,
          sum := (0xAA + x1.data % 256) % 256, firstByte := 0, i := 0 } more := by
    intro more
    rw [receive_start q _ x0 _ w0 c0 (entry_i q u c) (by rw [h0]),
      receive_cmd_ok q _ x1 _ w1 c1 rfl rfl m1, receive_len_bad q _ x2 _ N w2 c2 rfl hq m2]
  have hag : (q.loop u c (x0 :: x1 :: x2 :: rest)).agrees (q.loop u c rest) := by
    rw [Query.loop, hl rest]
    exact receive_alike q rest _ _ (alike_seek rfl (entry_i q u c) ⟨rfl, rfl, rfl, rfl, rfl⟩)
  refine ⟨hag, returned_agrees q intBits hag, success_of_agrees hag, ?_⟩
  have b0 := body_start q (q.entry u c) x0.data (entry_i q u c) (by rw [h0])
  have b1 := body_cmd_ok q _ x1.data
    (show ({ q.entry u c with data := 0xAA, firstByte := 0xAA, sum := 0xAA, i := 1 }
      : Locals).i = 1 from rfl) rfl m1
  have b2 := body_len_bad q _ x2.data N
    (show ({ ({ q.entry u c with data := 0xAA, firstByte := 0xAA, sum := 0xAA, i := 1 }
      : Locals) with data := x1.data % 256, sum := (0xAA + x1.data % 256) % 256, i := 2 }
      : Locals).i = 2 from rfl) hq m2
  have hw0 : x0.wait < RECEIVEBYTETIMEOUTMS := w0
  have hw1 : x1.wait < RECEIVEBYTETIMEOUTMS := w1
  have hw2 : x2.wait < RECEIVEBYTETIMEOUTMS := w2
  have hc0 : ¬ x0.clock > RECEIVEGLOBALTIMEOUTMS := by
    simp only [RECEIVEGLOBALTIMEOUTMS]; omega
  have hc1 : ¬ x1.clock > RECEIVEGLOBALTIMEOUTMS := by
    simp only [RECEIVEGLOBALTIMEOUTMS]; omega
  have hc2 : ¬ x2.clock > RECEIVEGLOBALTIMEOUTMS := by
    simp only [RECEIVEGLOBALTIMEOUTMS]; omega
  refine ⟨{ q.entry u c with
      data := x2.data % 256, length := x2.data % 256,
      sum := (0xAA + x1.data % 256) % 256, firstByte := 0, i := 0 }, ?_, rfl, rfl,
    by simp [Nat.mod_eq_of_lt hb], by simp [m1], ⟨rfl, rfl, rfl, rfl, rfl⟩⟩
  simp only [Query.advance, hw0, hc0, hw1, hc1, hw2, hc2, b0, b1, b2, if_true, if_false]
  simp [RECEIVEHEADERLENGTH]
  omega

/-- Witness of C21: `getFileNumber` on a header with the length byte 0xF0 in
front of a frame. -/
theorem C21_length_mismatch_resync_witness :
    Query.getFileNumber.expected = some 2 ∧
    Timely [(⟨0, 0xAA, 0⟩ : RxByte), ⟨0, 0x0D, 0⟩, ⟨0, 0xF0, 0⟩] ∧
    (⟨0, 0xAA, 0⟩ : RxByte).data = 0xAA ∧
    (⟨0, 0x0D, 0⟩ : RxByte).data = Query.getFileNumber.COMMAND ∧
    (⟨0, 0xF0, 0⟩ : RxByte).data < 256 ∧ (⟨0, 0xF0, 0⟩ : RxByte).data ≠ 2 ∧
    Query.getFileNumber.returned 16 (Query.getFileNumber.loop ⟨1, 2⟩ ⟨0, 0, 0, fun _ => 0⟩
        (⟨0, 0xAA, 0⟩ :: ⟨0, 0x0D, 0⟩ :: ⟨0, 0xF0, 0⟩
          :: prompt [0xAA, 0x0D, 0x02, 0x12, 0x34, 0xFF]))
      = Query.getFileNumber.returned 16 (Query.getFileNumber.loop ⟨1, 2⟩ ⟨0, 0, 0, fun _ => 0⟩
        (prompt [0xAA, 0x0D, 0x02, 0x12, 0x34, 0xFF])) :=
  ⟨by decide, by decide, by decide, by decide, by decide, by decide,
    (C21_length_mismatch_resync Query.getFileNumber 2 16 ⟨1, 2⟩ ⟨0, 0, 0, fun _ => 0⟩
      ⟨0, 0xAA, 0⟩ ⟨0, 0x0D, 0⟩ ⟨0, 0xF0, 0⟩ (prompt [0xAA, 0x0D, 0x02, 0x12, 0x34, 0xFF])
      (by decide) (by decide) (by decide) (by decide) (by decide) (by decide)).2.1⟩

/-- Claim C22: the checksum comparison is terminal. For every query
operation and every stream `s` on which the loop reaches the comparison,
decoding `s ++ t` ends at the comparison with the same variables, with all of
`t` unread behind what was unread of `s`, and returns the same value. A
timely frame with a wrong checksum byte followed by a valid frame ends at the
failing comparison with the valid frame unread, and the failure value is
returned. -/
theorem C22_compare_terminal (q : Query) (intBits : Nat) (u : Uninit) (c : Caller)
    (s t : List RxByte) (h : ¬ (q.loop u c s).timeout) :
    q.loop u c (s ++ t) = .compare (q.loop u c s).locals ((q.loop u c s).unread ++ t) ∧
    q.returned intBits (q.loop u c (s ++ t)) = q.returned intBits (q.loop u c s) ∧
    ((q.loop u c (s ++ t)).success ↔ (q.loop u c s).success) ∧
    (∀ (p p2 : List Nat) (k : Nat) (bad good : List RxByte),
      p.length ≤ 255 → Bytes p → (∀ K, q.expected = some K → p.length = K) → k < 256 →
      k ≠ checksum q.COMMAND p → Timely bad →
      wire bad = 0xAA :: q.COMMAND :: p.length :: (p ++ [k]) →
      wire good = emitted q.COMMAND p2 →
      (q.loop u c (bad ++ good)).mismatch ∧ (q.loop u c (bad ++ good)).unread = good ∧
      q.returned intBits (q.loop u c (bad ++ good)) = q.RECEIVEFAILED) := by
  have hc := compare_of_not_timeout h
  have h1 : q.loop u c (s ++ t)
      = .compare (q.loop u c s).locals ((q.loop u c s).unread ++ t) :=
    receive_append_compare q _ _ t s (q.entry u c) hc
  refine ⟨h1, ?_, ?_, ?_⟩
  · rw [h1]
    conv_rhs => rw [hc]
    rfl
  · rw [h1]
    conv_rhs => rw [hc]
    rfl
  · intro p p2 k bad good hlen hb hK hk hne ht hw _
    obtain ⟨st, r1, r2, r3, _⟩ := loop_frame q u c bad good p k ht hw hlen hK hb hk
    rw [r1]
    refine ⟨?_, rfl, ?_⟩
    · show st.data ≠ st.sum
      rw [r2, r3]; exact hne
    · simp [Query.returned, r2, r3, hne]

/-- Witness of C22: `getStatus` on a frame with a wrong checksum, followed by
a valid frame. -/
theorem C22_compare_terminal_witness :
    ¬ (Query.getStatus.loop ⟨1, 2⟩ ⟨0, 0, 0, fun _ => 0⟩
        (prompt [0xAA, 0x01, 0x01, 0x02, 0xFF])).timeout ∧
    Query.getStatus.returned 16 (Query.getStatus.loop ⟨1, 2⟩ ⟨0, 0, 0, fun _ => 0⟩
        (prompt [0xAA, 0x01, 0x01, 0x02, 0xFF] ++ prompt [0xAA, 0x01, 0x01, 0x02, 0xAE]))
      = Query.getStatus.returned 16 (Query.getStatus.loop ⟨1, 2⟩ ⟨0, 0, 0, fun _ => 0⟩
        (prompt [0xAA, 0x01, 0x01, 0x02, 0xFF])) :=
  ⟨by decide,
    (C22_compare_terminal Query.getStatus 16 ⟨1, 2⟩ ⟨0, 0, 0, fun _ => 0⟩
      (prompt [0xAA, 0x01, 0x01, 0x02, 0xFF]) (prompt [0xAA, 0x01, 0x01, 0x02, 0xAE])
      (by decide)).2.1⟩

/-- Claim C23: no parse state survives a call. For every query operation,
two calls that start with different values of `m_checksum` and of the stream
written so far (`dev1`, `dev2`), and with different indeterminate values of
the locals `data` and `sum`, return the same value on the same incoming
observations and end with the same outcome; both append the same request
frame `[0xAA, COMMAND, 0x00, checksum]` (`getRuntime`: nothing) and leave the
same `m_checksum`; a call made right after another call returns what it
returns on a fresh device. -/
theorem C23_no_state_survives (q : Query) (intBits : Nat) (u1 u2 : Uninit) (c : Caller)
    (dev1 dev2 : Device) (rx : List RxByte) :
    (q.call intBits u1 c dev1 rx).ret = (q.call intBits u2 c dev2 rx).ret ∧
    (q.call intBits u1 c dev1 rx).exit.agrees (q.call intBits u2 c dev2 rx).exit ∧
    (∃ frame, (q.call intBits u1 c dev1 rx).dev.written = dev1.written ++ frame ∧
      (q.call intBits u2 c dev2 rx).dev.written = dev2.written ++ frame ∧
      frame = (if q = .getRuntime then []
        else [0xAA, q.COMMAND, 0x00, (0xAA + q.COMMAND + 0x00) % 256])) ∧
    (q ≠ .getRuntime →
      (q.call intBits u1 c dev1 rx).dev.m_checksum = (q.call intBits u2 c dev2 rx).dev.m_checksum) ∧
    (q.call intBits u1 c (q.call intBits u2 c dev2 rx).dev rx).ret
      = (q.call intBits u1 c dev1 rx).ret := by
  have hag : (q.loop u1 c rx).agrees (q.loop u2 c rx) :=
    receive_alike q rx _ _ (entry_alike q u1 u2 c)
  refine ⟨returned_agrees q intBits hag, hag, ⟨_, (request_written q dev1).1,
    (request_written q dev2).1, rfl⟩, ?_, rfl⟩
  intro hq
  show (q.request dev1).m_checksum = (q.request dev2).m_checksum
  rw [(request_written q dev1).2 hq, (request_written q dev2).2 hq]

/-- Claim C24: for every query operation with a fixed length `N` (1, 2 or 3),
every well-formed frame for it with payload `p`, every position `j` of the
frame and every different byte value `v` at that position, a stream that
consists of the changed frame only never ends at a successful comparison,
with any timing; a change of the start, opcode or length byte makes the loop
end at a timeout return. When the stream is timely, a changed payload or
checksum byte ends at the failing comparison, and a changed start, opcode or
length byte ends at the byte timeout return. -/
theorem C24_single_byte_corruption (q : Query) (N : Nat) (u : Uninit) (c : Caller)
    (p : List Nat) (j v : Nat) (rx : List RxByte) (hq : q.expected = some N)
    (hN : p.length = N) (hb : Bytes p) (hj : j < N + 4) (hv : v < 256)
    (hne : (emitted q.COMMAND p).getD j 0 ≠ v)
    (hw : wire rx = (emitted q.COMMAND p).set j v) :
    (N = 1 ∨ N = 2 ∨ N = 3) ∧
    ¬ (q.loop u c rx).success ∧
    (j < 3 → (q.loop u c rx).timeout) ∧
    (Timely rx →
      (3 ≤ j → (q.loop u c rx).mismatch) ∧ (j < 3 → (q.loop u c rx).byByteLimit)) := by
  have hN3 : N = 1 ∨ N = 2 ∨ N = 3 := by
    cases q <;> simp [Query.expected] at hq <;> omega
  have hlen : p.length ≤ 255 := by omega
  rw [emitted_eq q.COMMAND p (command_lt q) hlen hb] at hw hne
  obtain ⟨h1, h2⟩ := corrupted_frame q N u c p j v rx hq hN hb hj hv hne hw
  refine ⟨hN3, h1, h2, fun ht => ⟨fun h3 => ?_, fun h3 => byte_limit_of_timely q u c rx ht (h2 h3)⟩⟩
  obtain ⟨i, rfl⟩ : ∃ i, j = i + 3 := ⟨j - 3, by omega⟩
  simp only [List.set_cons_succ, List.getD_cons_succ] at hw hne
  exact tail_corrupted q u c p i v rx hlen hb
    (fun K hK => by rw [hq] at hK; rw [hN]; exact Option.some.inj hK) (by omega) hv hne ht hw

/-- Witness of C24: the opcode of a `getDuration` frame replaced by 0xAA, with
a payload that contains 0xAA. -/
theorem C24_single_byte_corruption_witness :
    Query.getDuration.expected = some 3 ∧ [1, 0xAA, 3].length = 3 ∧ Bytes [1, 0xAA, 3] ∧
    1 < 3 + 4 ∧ (0xAA : Nat) < 256 ∧
    (emitted Query.getDuration.COMMAND [1, 0xAA, 3]).getD 1 0 ≠ 0xAA ∧
    wire (prompt ((emitted 0x24 [1, 0xAA, 3]).set 1 0xAA))
      = (emitted Query.getDuration.COMMAND [1, 0xAA, 3]).set 1 0xAA ∧
    Timely (prompt ((emitted 0x24 [1, 0xAA, 3]).set 1 0xAA)) ∧
    ¬ (Query.getDuration.loop ⟨1, 2⟩ ⟨7, 8, 9, fun _ => 0⟩
        (prompt ((emitted 0x24 [1, 0xAA, 3]).set 1 0xAA))).success ∧
    (Query.getDuration.loop ⟨1, 2⟩ ⟨7, 8, 9, fun _ => 0⟩
        (prompt ((emitted 0x24 [1, 0xAA, 3]).set 1 0xAA))).byByteLimit :=
  ⟨by decide, by decide, by decide, by decide, by decide, by decide, by decide, by decide,
    (C24_single_byte_corruption Query.getDuration 3 ⟨1, 2⟩ ⟨7, 8, 9, fun _ => 0⟩ [1, 0xAA, 3]
      1 0xAA (prompt ((emitted 0x24 [1, 0xAA, 3]).set 1 0xAA)) (by decide) (by decide)
      (by decide) (by decide) (by decide) (by decide) (by decide)).2.1,
    ((C24_single_byte_corruption Query.getDuration 3 ⟨1, 2⟩ ⟨7, 8, 9, fun _ => 0⟩ [1, 0xAA, 3]
      1 0xAA (prompt ((emitted 0x24 [1, 0xAA, 3]).set 1 0xAA)) (by decide) (by decide)
      (by decide) (by decide) (by decide) (by decide) (by decide)).2.2.2 (by decide)).2
      (by decide)⟩

/-- Claim C25: the failure value is not distinguishable from valid data. On
the timely checksum-valid frame `[0xAA, 0x01, 0x01, 0x03, 0xAF]` the loop of
`getStatus` ends at the comparison with `data == sum` and `getStatus` returns
3, which is `STATUSUNKNOWN`, its failure value; on the timely checksum-valid
frame `[0xAA, 0x0D, 0x02, 0x00, 0x00, 0xB9]` `getFileNumber` returns 0, its
failure value. In both calls neither a timeout nor a checksum mismatch
occurred. -/
theorem C25_failure_value_is_valid_data (u : Uninit) (dev : Device) (rx1 rx2 : List RxByte)
    (ht1 : Timely rx1) (hw1 : wire rx1 = [0xAA, 0x01, 0x01, 0x03, 0xAF])
    (ht2 : Timely rx2) (hw2 : wire rx2 = [0xAA, 0x0D, 0x02, 0x00, 0x00, 0xB9]) :
    ((getStatus u dev rx1).exit.success ∧ (getStatus u dev rx1).ret = .byte STATUSUNKNOWN ∧
      (getStatus u dev rx1).ret = Query.getStatus.RECEIVEFAILED ∧
      ¬ (getStatus u dev rx1).exit.timeout ∧ ¬ (getStatus u dev rx1).exit.mismatch) ∧
    ((getFileNumber u dev rx2).exit.success ∧ (getFileNumber u dev rx2).ret = .word 0 ∧
      (getFileNumber u dev rx2).ret = Query.getFileNumber.RECEIVEFAILED ∧
      ¬ (getFileNumber u dev rx2).exit.timeout ∧ ¬ (getFileNumber u dev rx2).exit.mismatch) := by
  obtain ⟨t, a1, a2, a3, a4⟩ := loop_frame Query.getStatus u ⟨0, 0, 0, fun _ => 0⟩ rx1 []
    [0x03] 0xAF ht1 hw1 (by decide) (by decide) (by decide) (by decide)
  obtain ⟨s, b1, b2, b3, b4⟩ := loop_frame Query.getFileNumber u ⟨0, 0, 0, fun _ => 0⟩ rx2 []
    [0x00, 0x00] 0xB9 ht2 hw2 (by decide) (by decide) (by decide) (by decide)
  rw [List.append_nil] at a1 b1
  have ts : t.sum = 0xAF := by rw [a3]; decide
  have tr : t.result = 3 := by simpa [Delivers] using a4
  have ss : s.sum = 0xB9 := by rw [b3]; decide
  have sr : s.result = 0 := by simpa [Delivers] using b4
  constructor
  · simp [getStatus, Query.call, a1, Exit.success, Exit.timeout, Exit.mismatch, Query.returned,
      Query.accepted, Query.RECEIVEFAILED, STATUSUNKNOWN, a2, ts, tr]
  · simp [getFileNumber, Query.call, b1, Exit.success, Exit.timeout, Exit.mismatch,
      Query.returned, Query.accepted, Query.RECEIVEFAILED, b2, ss, sr]

/-- Witness of C25: both frames delivered at once. -/
theorem C25_failure_value_is_valid_data_witness :
    Timely (prompt [0xAA, 0x01, 0x01, 0x03, 0xAF]) ∧
    wire (prompt [0xAA, 0x01, 0x01, 0x03, 0xAF]) = [0xAA, 0x01, 0x01, 0x03, 0xAF] ∧
    Timely (prompt [0xAA, 0x0D, 0x02, 0x00, 0x00, 0xB9]) ∧
    wire (prompt [0xAA, 0x0D, 0x02, 0x00, 0x00, 0xB9]) = [0xAA, 0x0D, 0x02, 0x00, 0x00, 0xB9] ∧
    (getStatus ⟨1, 2⟩ ⟨0, []⟩ (prompt [0xAA, 0x01, 0x01, 0x03, 0xAF])).exit.success ∧
    (getStatus ⟨1, 2⟩ ⟨0, []⟩ (prompt [0xAA, 0x01, 0x01, 0x03, 0xAF])).ret
      = Query.getStatus.RECEIVEFAILED ∧
    (getFileNumber ⟨1, 2⟩ ⟨0, []⟩ (prompt [0xAA, 0x0D, 0x02, 0x00, 0x00, 0xB9])).exit.success ∧
    (getFileNumber ⟨1, 2⟩ ⟨0, []⟩ (prompt [0xAA, 0x0D, 0x02, 0x00, 0x00, 0xB9])).ret
      = Query.getFileNumber.RECEIVEFAILED :=
  ⟨by decide, by decide, by decide, by decide,
    (C25_failure_value_is_valid_data ⟨1, 2⟩ ⟨0, []⟩ (prompt [0xAA, 0x01, 0x01, 0x03, 0xAF])
      (prompt [0xAA, 0x0D, 0x02, 0x00, 0x00, 0xB9]) (by decide) (by decide) (by decide)
      (by decide)).1.1,
    (C25_failure_value_is_valid_data ⟨1, 2⟩ ⟨0, []⟩ (prompt [0xAA, 0x01, 0x01, 0x03, 0xAF])
      (prompt [0xAA, 0x0D, 0x02, 0x00, 0x00, 0xB9]) (by decide) (by decide) (by decide)
      (by decide)).1.2.2.1,
    (C25_failure_value_is_valid_data ⟨1, 2⟩ ⟨0, []⟩ (prompt [0xAA, 0x01, 0x01, 0x03, 0xAF])
      (prompt [0xAA, 0x0D, 0x02, 0x00, 0x00, 0xB9]) (by decide) (by decide) (by decide)
      (by decide)).2.1,
    (C25_failure_value_is_valid_data ⟨1, 2⟩ ⟨0, []⟩ (prompt [0xAA, 0x01, 0x01, 0x03, 0xAF])
      (prompt [0xAA, 0x0D, 0x02, 0x00, 0x00, 0xB9]) (by decide) (by decide) (by decide)
      (by decide)).2.2.2.1⟩

/-- Claim C26: failure is not atomic for the reference parameters. For
`getDuration` and `getRuntime` and a timely header `[0xAA, COMMAND, 3]` with
the payload bytes `a`, `b`, `d`: followed by a timely wrong checksum byte
the call ends at the failing comparison and returns `false`, followed by
silence it ends at the byte timeout return and returns `false`, and in both
cases `hour`, `minute`, `second` hold `a`, `b`, `d`; after the header and the
first payload byte alone, followed by silence, `hour` holds `a` and `minute`,
`second` hold the values of the caller. On every stream, when the loop ends
with at most three bytes of a frame attempt accepted (no payload byte), the
call ended at a timeout return, returns `false` and `hour`, `minute`,
`second` hold the values of the caller; when it ends with four bytes of a
frame attempt accepted `hour` holds a byte that was received in the call,
with five also `minute`, and with six also `second`. -/
theorem C26_outputs_not_atomic (q : Query) (intBits : Nat) (u : Uninit) (c : Caller)
    (a b d : Nat) (fr : List RxByte) (hq : q = .getDuration ∨ q = .getRuntime)
    (ha : a < 256) (hb : b < 256) (hd : d < 256) (ht : Timely fr)
    (hw : wire fr = [0xAA, q.COMMAND, 3, a, b, d]) :
    (∀ (xk : RxByte) (more : List RxByte), xk.wait < RECEIVEBYTETIMEOUTMS →
      xk.clock ≤ RECEIVEGLOBALTIMEOUTMS → xk.data < 256 →
      xk.data ≠ checksum q.COMMAND [a, b, d] →
      (q.loop u c (fr ++ xk :: more)).mismatch ∧
      q.returned intBits (q.loop u c (fr ++ xk :: more)) = .bool false ∧
      (q.loop u c (fr ++ xk :: more)).locals.hour = a ∧
      (q.loop u c (fr ++ xk :: more)).locals.minute = b ∧
      (q.loop u c (fr ++ xk :: more)).locals.second = d) ∧
    (∀ rest : List RxByte, Silent rest →
      (q.loop u c (fr ++ rest)).byByteLimit ∧
      q.returned intBits (q.loop u c (fr ++ rest)) = .bool false ∧
      (q.loop u c (fr ++ rest)).locals.hour = a ∧
      (q.loop u c (fr ++ rest)).locals.minute = b ∧
      (q.loop u c (fr ++ rest)).locals.second = d) ∧
    (∀ rest : List RxByte, Silent rest →
      (q.loop u c (fr.take 4 ++ rest)).byByteLimit ∧
      q.returned intBits (q.loop u c (fr.take 4 ++ rest)) = .bool false ∧
      (q.loop u c (fr.take 4 ++ rest)).locals.hour = a ∧
      (q.loop u c (fr.take 4 ++ rest)).locals.minute = c.minute % 256 ∧
      (q.loop u c (fr.take 4 ++ rest)).locals.second = c.second % 256) ∧
    (∀ rx : List RxByte, (q.loop u c rx).locals.i ≤ 3 →
      (q.loop u c rx).timeout ∧
      q.returned intBits (q.loop u c rx) = .bool false ∧
      (q.loop u c rx).locals.hour = c.hour % 256 ∧
      (q.loop u c rx).locals.minute = c.minute % 256 ∧
      (q.loop u c rx).locals.second = c.second % 256) ∧
    (∀ rx : List RxByte,
      (4 ≤ (q.loop u c rx).locals.i →
        ∃ y, y ∈ rx ∧ (q.loop u c rx).locals.hour = y.data % 256) ∧
      (5 ≤ (q.loop u c rx).locals.i →
        ∃ y, y ∈ rx ∧ (q.loop u c rx).locals.minute = y.data % 256) ∧
      (6 ≤ (q.loop u c rx).locals.i →
        ∃ y, y ∈ rx ∧ (q.loop u c rx).locals.second = y.data % 256)) := by
  have hq3 := expected_three q hq
  have hff := failed_false q hq
  simp only [wire] at hw
  obtain ⟨x0, l0, rfl, h0, hw⟩ := List.map_eq_cons_iff.mp hw
  obtain ⟨x1, l1, rfl, h1, hw⟩ := List.map_eq_cons_iff.mp hw
  obtain ⟨x2, l2, rfl, h2, hw⟩ := List.map_eq_cons_iff.mp hw
  obtain ⟨y1, l3, rfl, g1, hw⟩ := List.map_eq_cons_iff.mp hw
  obtain ⟨y2, l4, rfl, g2, hw⟩ := List.map_eq_cons_iff.mp hw
  obtain ⟨y3, l5, rfl, g3, hw⟩ := List.map_eq_cons_iff.mp hw
  have hnil : l5 = [] := by simpa using hw
  subst hnil
  have e1 : y1.data % 256 = a := by rw [g1]; exact Nat.mod_eq_of_lt ha
  have e2 : y2.data % 256 = b := by rw [g2]; exact Nat.mod_eq_of_lt hb
  have e3 : y3.data % 256 = d := by rw [g3]; exact Nat.mod_eq_of_lt hd
  refine ⟨?_, ?_, ?_, ?_, fun rx => loop_writes_time q hq u c rx⟩
  · intro xk more hwk hck hbk hne
    have htk : Timely ([x0, x1, x2, y1, y2, y3] ++ [xk]) := by
      intro z hz
      rcases List.mem_append.mp hz with h | h
      · exact ht z h
      · simp only [List.mem_singleton] at h
        subst h
        exact ⟨hwk, hck⟩
    obtain ⟨t, r1, r2, r3, r4⟩ := loop_frame q u c ([x0, x1, x2, y1, y2, y3] ++ [xk]) more
      [a, b, d] xk.data htk (by simp [wire, h0, h1, h2, g1, g2, g3]) (by simp)
      (fun K hK => by rw [hq3] at hK; rw [← Option.some.inj hK]; rfl)
      (by
        intro z hz
        simp only [List.mem_cons, List.mem_singleton, List.not_mem_nil, or_false] at hz
        rcases hz with h | h | h <;> rw [h] <;> assumption) hbk
    have r1b : q.loop u c ([x0, x1, x2, y1, y2, y3] ++ xk :: more) = .compare t more := by
      rw [← r1]; simp
    rw [r1b]
    have hdl : t.hour = a ∧ t.minute = b ∧ t.second = d := by
      rcases hq with h | h <;> subst h <;> simpa [Delivers] using r4
    refine ⟨?_, ?_, hdl⟩
    · show t.data ≠ t.sum
      rw [r2, r3]; exact hne
    · simp [Query.returned, r2, r3, hne, hff]
  · intro rest hs
    have hr := receive_time_payload q hq3 (q.entry u c) x0 x1 x2 [y1, y2, y3] rest
      (entry_i q u c) ht h0 h1 h2 (by simp)
    have hl : q.loop u c ([x0, x1, x2, y1, y2, y3] ++ rest) = .byteTimeout (q.run { q.entry u c with
          data := 3, length := 3, sum := ((0xAA + q.COMMAND) % 256 + 3) % 256, i := 3,
          firstByte := 0xAA } [y1, y2, y3]) := by
      show q.receive (q.entry u c) (x0 :: x1 :: x2 :: ([y1, y2, y3] ++ rest)) = _
      rw [hr, receive_silent q _ rest hs]
    rw [hl]
    obtain ⟨t1, t2, t3⟩ := run_hms q { q.entry u c with
          data := 3, length := 3, sum := ((0xAA + q.COMMAND) % 256 + 3) % 256, i := 3,
          firstByte := 0xAA } y1 y2 y3 hq3 rfl rfl rfl
    simp only [Exit.byByteLimit, Exit.locals, Query.returned, true_and]
    rw [t1, t2, t3, e1, e2, e3]
    exact ⟨hff, rfl, rfl, rfl⟩
  · intro rest hs
    have ht4 : Timely [x0, x1, x2, y1] := fun z hz => ht z (by
      simp only [List.mem_cons, List.mem_singleton, List.not_mem_nil, or_false] at hz ⊢
      rcases hz with h | h | h | h <;> simp [h])
    have hr := receive_time_payload q hq3 (q.entry u c) x0 x1 x2 [y1] rest
      (entry_i q u c) ht4 h0 h1 h2 (by simp)
    have hl : q.loop u c (List.take 4 [x0, x1, x2, y1, y2, y3] ++ rest)
        = .byteTimeout (q.run { q.entry u c with
          data := 3, length := 3, sum := ((0xAA + q.COMMAND) % 256 + 3) % 256, i := 3,
          firstByte := 0xAA } [y1]) := by
      show q.receive (q.entry u c) (x0 :: x1 :: x2 :: ([y1] ++ rest)) = _
      rw [hr, receive_silent q _ rest hs]
    rw [hl]
    obtain ⟨t1, t2, t3, _⟩ := run_first_time q hq { q.entry u c with
          data := 3, length := 3, sum := ((0xAA + q.COMMAND) % 256 + 3) % 256, i := 3,
          firstByte := 0xAA } y1 rfl rfl rfl
    simp only [Exit.byByteLimit, Exit.locals, Query.returned, true_and]
    rw [t1, t2, t3, e1]
    exact ⟨hff, rfl, rfl, rfl⟩
  · intro rx hi
    have hk := receive_keeps_time q hq3 (c.hour % 256) (c.minute % 256) (c.second % 256) rx
      (q.entry u c) (by rw [entry_i]) (fun _ => ⟨rfl, rfl, rfl⟩)
      (fun h => by rw [entry_i] at h; omega) (fun h => by rw [entry_i] at h; omega) hi
    have hto : (q.loop u c rx).timeout := by
      cases h : q.loop u c rx with
      | byteTimeout s => trivial
      | totalTimeout s => trivial
      | compare t r =>
        have h4 := compare_i_ge q t r rx (q.entry u c) h
        rw [h] at hi
        have hi2 : t.i ≤ 3 := hi
        omega
    refine ⟨hto, ?_, hk⟩
    revert hto
    cases q.loop u c rx <;> simp [Exit.timeout, Query.returned, hff]

/-- Witness of C26: `getRuntime` on a header and three payload bytes followed
by silence. -/
theorem C26_outputs_not_atomic_witness :
    (Query.getRuntime = .getDuration ∨ Query.getRuntime = .getRuntime) ∧
    (1 : Nat) < 256 ∧ (2 : Nat) < 256 ∧ (3 : Nat) < 256 ∧
    Timely (prompt [0xAA, 0x25, 3, 1, 2, 3]) ∧
    wire (prompt [0xAA, 0x25, 3, 1, 2, 3]) = [0xAA, Query.getRuntime.COMMAND, 3, 1, 2, 3] ∧
    Silent [] ∧
    ((Query.getRuntime.loop ⟨5, 6⟩ ⟨7, 8, 9, fun _ => 0⟩
        (prompt [0xAA, 0x25, 3, 1, 2, 3] ++ [])).byByteLimit ∧
      Query.getRuntime.returned 16 (Query.getRuntime.loop ⟨5, 6⟩ ⟨7, 8, 9, fun _ => 0⟩
        (prompt [0xAA, 0x25, 3, 1, 2, 3] ++ [])) = .bool false ∧
      (Query.getRuntime.loop ⟨5, 6⟩ ⟨7, 8, 9, fun _ => 0⟩
        (prompt [0xAA, 0x25, 3, 1, 2, 3] ++ [])).locals.hour = 1 ∧
      (Query.getRuntime.loop ⟨5, 6⟩ ⟨7, 8, 9, fun _ => 0⟩
        (prompt [0xAA, 0x25, 3, 1, 2, 3] ++ [])).locals.minute = 2 ∧
      (Query.getRuntime.loop ⟨5, 6⟩ ⟨7, 8, 9, fun _ => 0⟩
        (prompt [0xAA, 0x25, 3, 1, 2, 3] ++ [])).locals.second = 3) :=
  ⟨by decide, by decide, by decide, by decide, by decide, by decide, by decide,
    (C26_outputs_not_atomic Query.getRuntime 16 ⟨5, 6⟩ ⟨7, 8, 9, fun _ => 0⟩ 1 2 3
      (prompt [0xAA, 0x25, 3, 1, 2, 3]) (by decide) (by decide) (by decide) (by decide)
      (by decide) (by decide)).2.1 [] (by decide)⟩

end DFR0534
